import Mathlib

/-!
# CaeUnsSU2: the SU2 mesh exporter `runtimeWrite.cxx`

A shallow embedding of the export pipeline of `src/runtimeWrite.cxx` and the
properties of it that the specification states.

The exporter talks to three collaborators whose code is outside the source
tree: the host grid model (`Pw*` calls), the output stream (`fprintf`,
`fputs`) and the progress reporter (`caeuProgress*`).  The grid model is a
read-only value.  Every call on the stream or on the progress reporter is
recorded, in program order, in a log; the Boolean a call hands back to the
exporter is taken from `CAEP_RTITEM.answers`, indexed by the number of calls
made before it, so that every behaviour of the collaborators is covered.
Arithmetic the exporter does on `PWP_UINT32` values is reduced modulo `2^32`.

The collections of the grid model are lists, and the `while` loops that
enumerate them by a running `PWP_UINT32` index are recursions over these
lists: the host API counts and enumerates with `PWP_UINT32`, so a block, a
domain or the vertex list has fewer than `2^32` members and the running index
never wraps.  The sum of the block sizes can exceed `2^32 - 1`.
`runtimeWrite` is passed the grid model of its runtime item.

A `fprintf` call is recorded with its format already cut into directives.
`render` gives the text of directives: integers are decimal numerals
right-justified in their minimum width, and the text of the floating
conversion `%#*.*g` is a parameter.
-/

namespace CaeUnsSU2

/-! ## Host API types -/

/-- Number of values of a `PWP_UINT32`. -/
abbrev PWP_UINT32_SIZE : Nat := 4294967296

/-- Modelled from the spec: the element-shape enumeration of the host API
(`apiPWP.h`/`apiGridModel.h` are not in the source tree).  `unrecognized`
stands for every value of the C enum that is none of the eight named ones. -/
inductive PWGM_ENUM_ELEMTYPE where
  | PWGM_ELEMTYPE_BAR
  | PWGM_ELEMTYPE_HEX
  | PWGM_ELEMTYPE_QUAD
  | PWGM_ELEMTYPE_TRI
  | PWGM_ELEMTYPE_TET
  | PWGM_ELEMTYPE_WEDGE
  | PWGM_ELEMTYPE_PYRAMID
  | PWGM_ELEMTYPE_POINT
  | unrecognized (raw : Nat)
  deriving DecidableEq, Repr

/-- Modelled from the spec: the dimensionality of the export (`apiPWP.h` is
not in the source tree); `other` is every value that is neither 2D nor 3D. -/
inductive PWP_ENUM_DIMENSION where
  | PWP_DIMENSION_2D
  | PWP_DIMENSION_3D
  | other (raw : Nat)
  deriving DecidableEq, Repr

/-- Modelled from the spec: the floating precision of the export (`apiPWP.h`
is not in the source tree). -/
inductive PWP_ENUM_PRECISION where
  | PWP_PRECISION_SINGLE
  | PWP_PRECISION_DOUBLE
  deriving DecidableEq, Repr

/-- A coordinate value.  The exporter never computes with coordinates, it
only hands them to `fprintf`; the carrier is the bit pattern of the double. -/
abbrev PWGM_XYZVAL := Nat

/-- Element data as filled in by `PwElemDataMod`: the shape, the vertex count
and the vertex-index array (`index i` is the array entry `index[i]`). -/
structure PWGM_ELEMDATA where
  type : PWGM_ENUM_ELEMTYPE
  vertCnt : Nat
  index : Nat → Nat

/-- Vertex data as filled in by `PwVertDataMod`. -/
structure PWGM_VERTDATA where
  x : PWGM_XYZVAL
  y : PWGM_XYZVAL
  z : PWGM_XYZVAL
  i : Nat
  deriving DecidableEq, Repr

/-- Condition record as filled in by `PwDomCondition`. -/
structure PWGM_CONDDATA where
  name : String
  deriving DecidableEq, Repr

/-- Modelled from the spec: a block, a collection of volume elements in
enumeration order (`PwBlkEnumElements` with index 0, 1, 2, ...). -/
structure PWGM_HBLOCK where
  elems : List PWGM_ELEMDATA

/-- Modelled from the spec: a domain, a collection of boundary elements in
enumeration order, with the answer of `PwDomCondition` (`none` when the
lookup fails). -/
structure PWGM_HDOMAIN where
  elems : List PWGM_ELEMDATA
  cond : Option PWGM_CONDDATA

/-- Modelled from the spec: a vertex handle, with the answer of
`PwVertDataMod` (`none` when the lookup fails). -/
structure PWGM_HVERTEX where
  data : Option PWGM_VERTDATA
  deriving DecidableEq, Repr

/-- Modelled from the spec: the grid model, the blocks, domains and vertices
in the order `PwModEnumBlocks`, `PwModEnumDomains` and `PwModEnumVertices`
enumerate them. -/
structure PWGM_HGRIDMODEL where
  blocks : List PWGM_HBLOCK
  domains : List PWGM_HDOMAIN
  vertices : List PWGM_HVERTEX

/-- Modelled from the spec: `PwBlkElementCount`, the number of elements of a
block. -/
def PwBlkElementCount (hBlk : PWGM_HBLOCK) : Nat := hBlk.elems.length

/-- Modelled from the spec: `PwDomElementCount`, the number of elements of a
domain. -/
def PwDomElementCount (hDom : PWGM_HDOMAIN) : Nat := hDom.elems.length

/-- Modelled from the spec: `PwModBlockCount`. -/
def PwModBlockCount (model : PWGM_HGRIDMODEL) : Nat := model.blocks.length

/-- Modelled from the spec: `PwModDomainCount`. -/
def PwModDomainCount (model : PWGM_HGRIDMODEL) : Nat := model.domains.length

/-- Modelled from the spec: `PwModVertexCount`. -/
def PwModVertexCount (model : PWGM_HGRIDMODEL) : Nat := model.vertices.length

/-- Modelled from the spec: `PwDomCondition`. -/
def PwDomCondition (hDom : PWGM_HDOMAIN) : Option PWGM_CONDDATA := hDom.cond

/-- Modelled from the spec: `PwVertDataMod`. -/
def PwVertDataMod (vertex : PWGM_HVERTEX) : Option PWGM_VERTDATA := vertex.data

/-! ## Stream and progress calls -/

/-- One conversion of a `printf` format string together with its argument,
or a run of literal text of the format string. -/
inductive Directive where
  /-- literal text -/
  | lit (txt : String)
  /-- the conversion `%<width>i` -/
  | i (width : Nat) (val : Nat)
  /-- the conversion `%<width>lu`, `width = 0` for plain `%lu` -/
  | lu (width : Nat) (val : Nat)
  /-- the conversion `%s` -/
  | s (val : String)
  /-- the conversion `%#*.*g` with its width and precision arguments -/
  | g (width : Nat) (prec : Nat) (val : PWGM_XYZVAL)
  deriving DecidableEq, Repr

/-- A call the exporter makes on a collaborator.  `ok` is what the call
answers: for a stream call whether the write succeeded, for a progress call
whether the export may go on.  `caeuProgressEnd` carries the flag it is
passed. -/
inductive Event where
  | fprintf (out : List Directive) (ok : Bool)
  | fputs (txt : String) (ok : Bool)
  | caeuProgressInit (cnt : Nat) (ok : Bool)
  | caeuProgressBeginStep (total : Nat) (ok : Bool)
  | caeuProgressIncr (ok : Bool)
  | caeuProgressEndStep (ok : Bool)
  | caeuProgressEnd (flag : Bool)
  deriving DecidableEq, Repr

/-- The calls made so far, oldest first. -/
abbrev Log := List Event

/-- The runtime item: the grid model, the write settings and the answers
of the collaborators (`answers n` answers the call made after `n` calls). -/
structure CAEP_RTITEM where
  model : PWGM_HGRIDMODEL
  dimension : PWP_ENUM_DIMENSION
  precision : PWP_ENUM_PRECISION
  answers : Nat → Bool

/-- Make one call on a collaborator: take its answer and record it. -/
def call (rti : CAEP_RTITEM) (log : Log) (mk : Bool → Event) : Bool × Log :=
  (rti.answers log.length, log ++ [mk (rti.answers log.length)])

/-- The test `0 < fprintf(rti.fp, ...)`. -/
def fprintf (rti : CAEP_RTITEM) (log : Log) (out : List Directive) : Bool × Log :=
  call rti log (Event.fprintf out)

/-- The test `EOF != fputs(txt, rti.fp)`. -/
def fputs (rti : CAEP_RTITEM) (log : Log) (txt : String) : Bool × Log :=
  call rti log (Event.fputs txt)

def caeuProgressInit (rti : CAEP_RTITEM) (log : Log) (cnt : Nat) : Bool × Log :=
  call rti log (Event.caeuProgressInit cnt)

def caeuProgressBeginStep (rti : CAEP_RTITEM) (log : Log) (total : Nat) : Bool × Log :=
  call rti log (Event.caeuProgressBeginStep total)

def caeuProgressIncr (rti : CAEP_RTITEM) (log : Log) : Bool × Log :=
  call rti log Event.caeuProgressIncr

def caeuProgressEndStep (rti : CAEP_RTITEM) (log : Log) : Bool × Log :=
  call rti log Event.caeuProgressEndStep

/-- The call `caeuProgressEnd(pRti, flag)`; its result is not used. -/
def caeuProgressEnd (log : Log) (flag : Bool) : Log :=
  log ++ [Event.caeuProgressEnd flag]

/-- The short-circuit `a && b` of two steps that act on the log. -/
def andThen (r : Bool × Log) (f : Log → Bool × Log) : Bool × Log :=
  if r.1 then f r.2 else (false, r.2)

/-- Modelled from the spec: `CAEPU_RT_DIM_3D` (`apiCAEPUtils.h` is not in the
source tree). -/
def CAEPU_RT_DIM_3D (rti : CAEP_RTITEM) : Bool :=
  rti.dimension == PWP_ENUM_DIMENSION.PWP_DIMENSION_3D

/-- Modelled from the spec: `CAEPU_RT_PREC_SINGLE` (`apiCAEPUtils.h` is not in
the source tree). -/
def CAEPU_RT_PREC_SINGLE (rti : CAEP_RTITEM) : Bool :=
  rti.precision == PWP_ENUM_PRECISION.PWP_PRECISION_SINGLE

/-! ## The exporter -/

/-- `writeComment`: the call `fprintf(rti.fp, "%%%s%s\n", ...)`. -/
def writeComment (rti : CAEP_RTITEM) (log : Log) (txt : Option String) : Bool × Log :=
  fprintf rti log
    [.lit "%", .s (if txt.isSome then " " else ""), .s (txt.getD ""), .lit "\n"]

def writeSectionComment (rti : CAEP_RTITEM) (log : Log) (txt : Option String) : Bool × Log :=
  andThen (andThen (writeComment rti log none) (fun l => writeComment rti l txt))
    (fun l => writeComment rti l none)

/-- `writeKeyVal` for an integer value: `fprintf(rti.fp, "%s= %lu\n", key, LU(val))`. -/
def writeKeyVal (rti : CAEP_RTITEM) (log : Log) (key : String) (val : Nat) : Bool × Log :=
  fprintf rti log [.s key, .lit "= ", .lu 0 val, .lit "\n"]

/-- `writeKeyVal` for a string value: `fprintf(rti.fp, "%s= %s\n", key, val)`. -/
def writeKeyValStr (rti : CAEP_RTITEM) (log : Log) (key : String) (val : String) : Bool × Log :=
  fprintf rti log [.s key, .lit "= ", .s val, .lit "\n"]

inductive SU2_ELEMTYPE where
  | SU2_ELEMTYPE_INVALID
  | SU2_ELEMTYPE_BAR
  | SU2_ELEMTYPE_TRI
  | SU2_ELEMTYPE_QUAD
  | SU2_ELEMTYPE_TET
  | SU2_ELEMTYPE_HEX
  | SU2_ELEMTYPE_WEDGE
  | SU2_ELEMTYPE_PYRAMID
  deriving DecidableEq, Repr

/-- The integer value of an `SU2_ELEMTYPE` enumerator. -/
def SU2_ELEMTYPE.code : SU2_ELEMTYPE → Nat
  | .SU2_ELEMTYPE_INVALID => 0
  | .SU2_ELEMTYPE_BAR => 3
  | .SU2_ELEMTYPE_TRI => 5
  | .SU2_ELEMTYPE_QUAD => 9
  | .SU2_ELEMTYPE_TET => 10
  | .SU2_ELEMTYPE_HEX => 12
  | .SU2_ELEMTYPE_WEDGE => 13
  | .SU2_ELEMTYPE_PYRAMID => 14

def pw2SuType : PWGM_ENUM_ELEMTYPE → SU2_ELEMTYPE
  | .PWGM_ELEMTYPE_BAR => .SU2_ELEMTYPE_BAR
  | .PWGM_ELEMTYPE_TRI => .SU2_ELEMTYPE_TRI
  | .PWGM_ELEMTYPE_QUAD => .SU2_ELEMTYPE_QUAD
  | .PWGM_ELEMTYPE_TET => .SU2_ELEMTYPE_TET
  | .PWGM_ELEMTYPE_HEX => .SU2_ELEMTYPE_HEX
  | .PWGM_ELEMTYPE_WEDGE => .SU2_ELEMTYPE_WEDGE
  | .PWGM_ELEMTYPE_PYRAMID => .SU2_ELEMTYPE_PYRAMID
  | .PWGM_ELEMTYPE_POINT => .SU2_ELEMTYPE_INVALID
  | .unrecognized _ => .SU2_ELEMTYPE_INVALID

/-- The loop of `getElemCnt` over the blocks still to be enumerated. -/
def getElemCntLoop : List PWGM_HBLOCK → Nat → Nat
  | [], ret => ret
  | hBlk :: rest, ret => getElemCntLoop rest ((ret + PwBlkElementCount hBlk) % PWP_UINT32_SIZE)

def getElemCnt (rti : CAEP_RTITEM) : Nat :=
  getElemCntLoop rti.model.blocks 0

/-- The loop of the `default` branch of `writeElemData` over the values of
`ii` still to come; it stops at the first failed write. -/
def writeVertIndices (rti : CAEP_RTITEM) (ed : PWGM_ELEMDATA) :
    List Nat → Bool × Log → Bool × Log
  | [], r => r
  | ii :: rest, r =>
    if r.1 then
      writeVertIndices rti ed rest (fprintf rti r.2 [.lit " ", .lu 4 (ed.index ii)])
    else r

/-- The `switch` of `writeElemData`: the write of the type code and of the
vertex indices. -/
def writeElemBody (rti : CAEP_RTITEM) (log : Log) (ed : PWGM_ELEMDATA) : Bool × Log :=
  let suType := pw2SuType ed.type
  match suType with
  | .SU2_ELEMTYPE_BAR =>
    fprintf rti log [.i 2 suType.code, .lit "  ", .lu 4 (ed.index 0), .lit " ",
      .lu 4 (ed.index 1)]
  | .SU2_ELEMTYPE_TRI =>
    fprintf rti log [.i 2 suType.code, .lit "  ", .lu 4 (ed.index 0), .lit " ",
      .lu 4 (ed.index 1), .lit " ", .lu 4 (ed.index 2)]
  | .SU2_ELEMTYPE_QUAD =>
    fprintf rti log [.i 2 suType.code, .lit "  ", .lu 4 (ed.index 0), .lit " ",
      .lu 4 (ed.index 1), .lit " ", .lu 4 (ed.index 2), .lit " ", .lu 4 (ed.index 3)]
  | .SU2_ELEMTYPE_TET =>
    fprintf rti log [.i 2 suType.code, .lit "  ", .lu 4 (ed.index 0), .lit " ",
      .lu 4 (ed.index 1), .lit " ", .lu 4 (ed.index 2), .lit " ", .lu 4 (ed.index 3)]
  | .SU2_ELEMTYPE_PYRAMID =>
    fprintf rti log [.i 2 suType.code, .lit "  ", .lu 4 (ed.index 0), .lit " ",
      .lu 4 (ed.index 1), .lit " ", .lu 4 (ed.index 2), .lit " ", .lu 4 (ed.index 3),
      .lit " ", .lu 4 (ed.index 4)]
  | .SU2_ELEMTYPE_WEDGE =>
    fprintf rti log [.i 2 suType.code, .lit "  ", .lu 4 (ed.index 3), .lit " ",
      .lu 4 (ed.index 4), .lit " ", .lu 4 (ed.index 5), .lit " ", .lu 4 (ed.index 0),
      .lit " ", .lu 4 (ed.index 1), .lit " ", .lu 4 (ed.index 2)]
  | .SU2_ELEMTYPE_HEX =>
    fprintf rti log [.i 2 suType.code, .lit "  ", .lu 4 (ed.index 0), .lit " ",
      .lu 4 (ed.index 1), .lit " ", .lu 4 (ed.index 2), .lit " ", .lu 4 (ed.index 3),
      .lit " ", .lu 4 (ed.index 4), .lit " ", .lu 4 (ed.index 5), .lit " ",
      .lu 4 (ed.index 6), .lit " ", .lu 4 (ed.index 7)]
  | .SU2_ELEMTYPE_INVALID =>
    writeVertIndices rti ed (List.range ed.vertCnt)
      (fprintf rti log [.i 2 suType.code, .lit " "])

/-- `writeElemData`.  `globNdx` is `none` for the null pointer; the second
component of the result is the value of `*globNdx` after the call. -/
def writeElemData (rti : CAEP_RTITEM) (log : Log) (ed : PWGM_ELEMDATA)
    (globNdx : Option Nat) : Bool × Option Nat × Log :=
  let r := writeElemBody rti log ed
  if r.1 then
    match globNdx with
    | some g =>
      let w := fprintf rti r.2 [.lit " ", .lu 4 g, .lit "\n"]
      (w.1, some ((g + 1) % PWP_UINT32_SIZE), w.2)
    | none =>
      let w := fputs rti r.2 "\n"
      (w.1, none, w.2)
  else (false, globNdx, r.2)

/-- The `while` loop of `writeBlockElements` over the elements still to be
enumerated, with the running value of `globElemNdx`. -/
def writeBlockElementsLoop (rti : CAEP_RTITEM) :
    List PWGM_ELEMDATA → Nat → Log → Bool × Nat × Log
  | [], globElemNdx, log => (true, globElemNdx, log)
  | eData :: rest, globElemNdx, log =>
    let w := writeElemData rti log eData (some globElemNdx)
    let p := caeuProgressIncr rti w.2.2
    if !p.1 then (false, w.2.1.getD globElemNdx, p.2)
    else writeBlockElementsLoop rti rest (w.2.1.getD globElemNdx) p.2

def writeBlockElements (rti : CAEP_RTITEM) (log : Log) (hBlk : PWGM_HBLOCK)
    (globElemNdx : Nat) : Bool × Nat × Log :=
  let b := caeuProgressBeginStep rti log (PwBlkElementCount hBlk)
  let body : Bool × Nat × Log :=
    if b.1 then writeBlockElementsLoop rti hBlk.elems globElemNdx b.2
    else (false, globElemNdx, b.2)
  let e := caeuProgressEndStep rti body.2.2
  (e.1 && body.1, body.2.1, e.2)

/-- The `while` loop of `writeElementsSection` over the blocks still to be
enumerated. -/
def writeElementsSectionLoop (rti : CAEP_RTITEM) :
    List PWGM_HBLOCK → Nat → Log → Bool × Nat × Log
  | [], globElemNdx, log => (true, globElemNdx, log)
  | hBlk :: rest, globElemNdx, log =>
    let r := writeBlockElements rti log hBlk globElemNdx
    if !r.1 then (false, r.2.1, r.2.2)
    else writeElementsSectionLoop rti rest r.2.1 r.2.2

/-- `writeElementsSection`, with the final value of its local `globElemNdx`
(0 when the loop is not entered). -/
def writeElementsSectionAux (rti : CAEP_RTITEM) (log : Log) : Bool × Nat × Log :=
  let r := andThen (writeSectionComment rti log (some "Inner element connectivity"))
    (fun l => writeKeyVal rti l "NELEM" (getElemCnt rti))
  if r.1 then writeElementsSectionLoop rti rti.model.blocks 0 r.2
  else (r.1, 0, r.2)

def writeElementsSection (rti : CAEP_RTITEM) (log : Log) : Bool × Log :=
  ((writeElementsSectionAux rti log).1, (writeElementsSectionAux rti log).2.2)

def writeNode (rti : CAEP_RTITEM) (log : Log) (vertex : PWGM_HVERTEX) : Bool × Log :=
  match PwVertDataMod vertex with
  | some vd =>
    let prec := if CAEPU_RT_PREC_SINGLE rti then 8 else 16
    let wd := prec + 8
    if CAEPU_RT_DIM_3D rti then
      fprintf rti log [.g wd prec vd.x, .lit " ", .g wd prec vd.y, .lit " ",
        .g wd prec vd.z, .lit " ", .lu 4 vd.i, .lit "\n"]
    else
      fprintf rti log [.g wd prec vd.x, .lit " ", .g wd prec vd.y, .lit " ",
        .lu 4 vd.i, .lit "\n"]
  | none => (false, log)

/-- The `while` loop of `writeNodesSection` over the vertices still to be
enumerated. -/
def writeNodesSectionLoop (rti : CAEP_RTITEM) : List PWGM_HVERTEX → Log → Bool × Log
  | [], log => (true, log)
  | hV :: rest, log =>
    let r := writeNode rti log hV
    if !r.1 then (false, r.2) else writeNodesSectionLoop rti rest r.2

def writeNodesSection (rti : CAEP_RTITEM) (log : Log) : Bool × Log :=
  let vertCnt := PwModVertexCount rti.model
  let r := andThen (andThen (caeuProgressBeginStep rti log vertCnt)
      (fun l => writeSectionComment rti l (some "Node coordinates")))
    (fun l => writeKeyVal rti l "NPOIN" vertCnt)
  let body : Bool × Log :=
    if r.1 then writeNodesSectionLoop rti rti.model.vertices r.2 else r
  let e := caeuProgressEndStep rti body.2
  (e.1 && body.1, e.2)

/-- The `while` loop of `writeDomainElements` over the elements still to be
enumerated. -/
def writeDomainElementsLoop (rti : CAEP_RTITEM) : List PWGM_ELEMDATA → Log → Bool × Log
  | [], log => (true, log)
  | eData :: rest, log =>
    let w := writeElemData rti log eData none
    if !w.1 then (false, w.2.2)
    else
      let p := caeuProgressIncr rti w.2.2
      if !p.1 then (false, p.2) else writeDomainElementsLoop rti rest p.2

/-- The initialiser of `ret` in `writeDomainElements`: the chain
`caeuProgressBeginStep && PwDomCondition && writeKeyVal && writeKeyVal`. -/
def writeDomainElementsHead (rti : CAEP_RTITEM) (log : Log) (hDom : PWGM_HDOMAIN) :
    Bool × Log :=
  let eCnt := PwDomElementCount hDom
  let b := caeuProgressBeginStep rti log eCnt
  if b.1 then
    match PwDomCondition hDom with
    | some condData =>
      andThen (writeKeyValStr rti b.2 "MARKER_TAG" condData.name)
        (fun l => writeKeyVal rti l "MARKER_ELEMS" eCnt)
    | none => (false, b.2)
  else (false, b.2)

def writeDomainElements (rti : CAEP_RTITEM) (log : Log) (hDom : PWGM_HDOMAIN) : Bool × Log :=
  let r := writeDomainElementsHead rti log hDom
  let body : Bool × Log :=
    if r.1 then writeDomainElementsLoop rti hDom.elems r.2 else r
  let e := caeuProgressEndStep rti body.2
  (e.1 && body.1, e.2)

/-- The `while` loop of `writeBoundariesSection` over the domains still to
be enumerated. -/
def writeBoundariesSectionLoop (rti : CAEP_RTITEM) : List PWGM_HDOMAIN → Log → Bool × Log
  | [], log => (true, log)
  | hDom :: rest, log =>
    let r := writeDomainElements rti log hDom
    if !r.1 then (false, r.2) else writeBoundariesSectionLoop rti rest r.2

def writeBoundariesSection (rti : CAEP_RTITEM) (log : Log) : Bool × Log :=
  let domCnt := PwModDomainCount rti.model
  let r := andThen (writeSectionComment rti log (some "Boundary elements"))
    (fun l => writeKeyVal rti l "NMARK" domCnt)
  if r.1 then writeBoundariesSectionLoop rti rti.model.domains r.2 else r

def writeDimensionSection (rti : CAEP_RTITEM) (log : Log) : Bool × Log :=
  let su2Dim : Nat :=
    if rti.dimension = PWP_ENUM_DIMENSION.PWP_DIMENSION_2D then 2
    else if rti.dimension = PWP_ENUM_DIMENSION.PWP_DIMENSION_3D then 3 else 0
  andThen (writeSectionComment rti log (some "Problem dimension"))
    (fun l => writeKeyVal rti l "NDIME" su2Dim)

/-- The value `numMajorSteps` of `runtimeWrite`. -/
def numMajorSteps (rti : CAEP_RTITEM) : Nat :=
  (PwModBlockCount rti.model + PwModDomainCount rti.model + 1) % PWP_UINT32_SIZE

/-- The initialiser of `ret` in `runtimeWrite`: the chain `caeuProgressInit &&
writeDimensionSection && writeElementsSection && writeNodesSection &&
writeBoundariesSection`. -/
def runtimeWriteSteps (rti : CAEP_RTITEM) (log : Log) : Bool × Log :=
  andThen (andThen (andThen (andThen (caeuProgressInit rti log (numMajorSteps rti))
      (writeDimensionSection rti)) (writeElementsSection rti)) (writeNodesSection rti))
    (writeBoundariesSection rti)

/-- `runtimeWrite`, started with the calls `log` already made (`[]` for an
export of its own); the grid model is the one of the runtime item. -/
def runtimeWrite (rti : CAEP_RTITEM) (log : Log) : Bool × Log :=
  let r := runtimeWriteSteps rti log
  (r.1, caeuProgressEnd r.2 r.1)

/-! ## Reading a log -/

/-- The directives a call put on the stream: those of a write that
succeeded, nothing for a failed write or a progress call. -/
def Event.written : Event → List Directive
  | .fprintf out true => out
  | .fputs txt true => [.lit txt]
  | _ => []

/-- The output of a log: what its successful writes put on the stream, in
order. -/
def output : Log → List Directive
  | [] => []
  | e :: rest => e.written ++ output rest

/-- The arguments of the `%lu` conversions of a directive list, in order. -/
def luArgs : List Directive → List Nat
  | [] => []
  | .lu _ v :: rest => v :: luArgs rest
  | _ :: rest => luArgs rest

/-- The directives of the format `"%2i  %4lu %4lu ... %4lu"` applied to a
type code and a list of indices. -/
def canonicalLine (code : Nat) (inds : List Nat) : List Directive :=
  .i 2 code :: .lit "  " :: (inds.map (Directive.lu 4)).intersperse (.lit " ")

/-- The call that ends an element line when it is the call number `n`: the
write of the global index and the newline, or of the newline alone. -/
def lineEnd (rti : CAEP_RTITEM) (n : Nat) : Option Nat → Event
  | some g => .fprintf [.lit " ", .lu 4 g, .lit "\n"] (rti.answers n)
  | none => .fputs "\n" (rti.answers n)

/-- The calls `writeElemData` adds to a log of length `n` when its first
write is the single call `fprintf out`: that call and, when it succeeded,
the call that ends the line. -/
def oneCallLine (rti : CAEP_RTITEM) (n : Nat) (out : List Directive)
    (globNdx : Option Nat) : List Event :=
  .fprintf out (rti.answers n) ::
    (if rti.answers n then [lineEnd rti (n + 1) globNdx] else [])

/-- A runtime item whose collaborators answer every call with success,
on an empty grid model. -/
def quiet : CAEP_RTITEM :=
  { model := { blocks := [], domains := [], vertices := [] }
    dimension := .PWP_DIMENSION_3D
    precision := .PWP_PRECISION_DOUBLE
    answers := fun _ => true }

/-- The encoding of an element up to the end of its vertex indices: what
the `switch` of `writeElemData` puts on a stream whose writes succeed. -/
def encodeBody (ed : PWGM_ELEMDATA) : List Directive :=
  output (writeElemBody quiet [] ed).2

/-- The directives of the global index and newline that end a volume
element line (`" %4lu\n"`). -/
def indexEnd (g : Nat) : List Directive := [.lit " ", .lu 4 g, .lit "\n"]

/-- The element lines of a list of volume elements numbered from `j` on:
each is the encoding of its element followed by its number. -/
def elemLines : List PWGM_ELEMDATA → Nat → List Directive
  | [], _ => []
  | ed :: rest, j => encodeBody ed ++ indexEnd j ++ elemLines rest (j + 1)

/-- The element lines of a list of volume elements when the numbering
starts at `g` and runs in a `PWP_UINT32`. -/
def elemLinesWrap : List PWGM_ELEMDATA → Nat → List Directive
  | [], _ => []
  | ed :: rest, g =>
    encodeBody ed ++ indexEnd g ++ elemLinesWrap rest ((g + 1) % PWP_UINT32_SIZE)

/-- The volume elements of a list of blocks, block after block. -/
def allElems : List PWGM_HBLOCK → List PWGM_ELEMDATA
  | [] => []
  | hBlk :: rest => hBlk.elems ++ allElems rest

/-- The directives of a comment line (`"%%%s%s\n"`). -/
def commentLine (txt : Option String) : List Directive :=
  [.lit "%", .s (if txt.isSome then " " else ""), .s (txt.getD ""), .lit "\n"]

/-- The three comment lines that open a section. -/
def banner (txt : String) : List Directive :=
  commentLine none ++ commentLine (some txt) ++ commentLine none

/-- The directives of an integer header record (`"%s= %lu\n"`). -/
def keyValLine (key : String) (val : Nat) : List Directive :=
  [.s key, .lit "= ", .lu 0 val, .lit "\n"]

/-- The directives of a string header record (`"%s= %s\n"`). -/
def keyStrLine (key : String) (val : String) : List Directive :=
  [.s key, .lit "= ", .s val, .lit "\n"]

/-- The global index a call wrote: the argument of a successful write of
the form `" %4lu\n"`. -/
def Event.globalIndex : Event → Option Nat
  | .fprintf [.lit " ", .lu 4 g, .lit "\n"] true => some g
  | _ => none

/-- The global indices a log wrote, in order. -/
def globalIndices (log : Log) : List Nat := log.filterMap Event.globalIndex

/-- The number of line ends (literal `"\n"` directives) of an output. -/
def lineCount (out : List Directive) : Nat := out.count (Directive.lit "\n")

/-- The value of a `PWP_UINT32` counter that starts at `g`, after `n`
increments. -/
def advance : Nat → Nat → Nat
  | 0, g => g
  | n + 1, g => advance n ((g + 1) % PWP_UINT32_SIZE)

/-- The `n` successive values of a `PWP_UINT32` counter that starts at `g`. -/
def countFrom : Nat → Nat → List Nat
  | 0, _ => []
  | n + 1, g => g :: countFrom n ((g + 1) % PWP_UINT32_SIZE)

/-- The calls that open a section on a stream whose writes succeed: the
three comment lines and the integer header record. -/
def sectionHead (txt : String) (key : String) (val : Nat) : List Event :=
  [.fprintf (commentLine none) true, .fprintf (commentLine (some txt)) true,
   .fprintf (commentLine none) true, .fprintf (keyValLine key val) true]

/-- A tetrahedron on the vertices 0, 1, 2, 3. -/
def tet0123 : PWGM_ELEMDATA :=
  { type := .PWGM_ELEMTYPE_TET, vertCnt := 4, index := fun i => i }

/-- A wedge on the vertices 0, 1, 2, 3, 4, 5. -/
def wedge012345 : PWGM_ELEMDATA :=
  { type := .PWGM_ELEMTYPE_WEDGE, vertCnt := 6, index := fun i => i }

/-- A triangle on the vertices 0, 1, 2. -/
def tri012 : PWGM_ELEMDATA :=
  { type := .PWGM_ELEMTYPE_TRI, vertCnt := 3, index := fun i => i }

/-- A small grid model: three blocks (one of them empty) with three volume
elements in all, one domain with one triangle, four vertices. -/
def sampleModel : PWGM_HGRIDMODEL :=
  { blocks := [{ elems := [tet0123, wedge012345] }, { elems := [] }, { elems := [tet0123] }]
    domains := [{ elems := [tri012], cond := some { name := "wall" } }]
    vertices := [{ data := some { x := 0, y := 0, z := 0, i := 0 } },
                 { data := some { x := 1, y := 0, z := 0, i := 1 } },
                 { data := some { x := 0, y := 1, z := 0, i := 2 } },
                 { data := some { x := 0, y := 0, z := 1, i := 3 } }] }

/-- The export of `sampleModel` in 3D and double precision, every call
answering success. -/
def sampleRti : CAEP_RTITEM :=
  { model := sampleModel
    dimension := .PWP_DIMENSION_3D
    precision := .PWP_PRECISION_DOUBLE
    answers := fun _ => true }

/-- A grid model of two blocks of `2^31` and `2^31 + 1` tetrahedra, that is
`2^32 + 1` volume elements. -/
def wrapModel : PWGM_HGRIDMODEL :=
  { blocks := [{ elems := List.replicate 2147483648 tet0123 },
               { elems := List.replicate 2147483649 tet0123 }]
    domains := []
    vertices := [] }

/-- The export of `wrapModel`, every call answering success. -/
def wrapRti : CAEP_RTITEM :=
  { model := wrapModel
    dimension := .PWP_DIMENSION_3D
    precision := .PWP_PRECISION_DOUBLE
    answers := fun _ => true }

/-- The export of one block of two tetrahedra, no domain and no vertex, in
which every call succeeds except call number 10, the write of the type code
and vertex indices of the first tetrahedron. -/
def lostLineRti : CAEP_RTITEM :=
  { model := { blocks := [{ elems := [tet0123, tet0123] }], domains := [], vertices := [] }
    dimension := .PWP_DIMENSION_3D
    precision := .PWP_PRECISION_DOUBLE
    answers := fun n => n != 10 }

/-- Where the export stands in the protocol of the progress reporter:
before `caeuProgressInit`, between steps, inside a step, after
`caeuProgressEnd`, or off the protocol. -/
inductive Phase where
  | start
  | idle
  | inStep
  | ended
  | bad
  deriving DecidableEq, Repr

/-- One call seen by the protocol of the progress reporter.  Stream writes
leave the phase as it is; a progress call that is not allowed in the current
phase leads to `bad`, which is never left. -/
def Phase.step : Phase → Event → Phase
  | p, .fprintf _ _ => p
  | p, .fputs _ _ => p
  | .start, .caeuProgressInit _ _ => .idle
  | .idle, .caeuProgressBeginStep _ _ => .inStep
  | .inStep, .caeuProgressIncr _ => .inStep
  | .inStep, .caeuProgressEndStep _ => .idle
  | .idle, .caeuProgressEnd _ => .ended
  | _, _ => .bad

/-- The phase a log leaves the protocol in.  It is `ended` exactly when the
progress calls of the log are one `caeuProgressInit`, then any number of
groups `caeuProgressBeginStep, caeuProgressIncr*, caeuProgressEndStep`, then
one `caeuProgressEnd`. -/
def phase (log : Log) : Phase := log.foldl Phase.step .start

/-- A `caeuProgressIncr` call that answered stop. -/
def Event.isStop : Event → Bool
  | .caeuProgressIncr false => true
  | _ => false

/-- A `caeuProgressIncr` call. -/
def Event.isIncr : Event → Bool
  | .caeuProgressIncr _ => true
  | _ => false

/-- A `caeuProgressEnd` call. -/
def Event.isProgressEnd : Event → Bool
  | .caeuProgressEnd _ => true
  | _ => false

/-- The first write of an element line: an `fprintf` whose format starts
with the conversion `%2i` of the type code. -/
def Event.isElemWrite : Event → Bool
  | .fprintf (.i 2 _ :: _) _ => true
  | _ => false

/-- The number of `caeuProgressIncr` calls of a log that answered stop. -/
def stops (log : Log) : Nat := log.countP Event.isStop

/-- The number of `caeuProgressIncr` calls of a log. -/
def incrs (log : Log) : Nat := log.countP Event.isIncr

/-- The number of element lines a log started to write. -/
def elemWrites (log : Log) : Nat := log.countP Event.isElemWrite

/-- A list of calls without a `caeuProgressIncr` that starts `k` element
lines. -/
def Quiet (k : Nat) (ev : List Event) : Prop := incrs ev = 0 ∧ elemWrites ev = k

/-- What a step that may be cancelled adds to a log: if it contains a
`caeuProgressIncr` that answered stop, the step failed and that call is
followed by `caeuProgressEndStep` alone, with no stop before it. -/
def StopShape (ok : Bool) (ev : List Event) : Prop :=
  stops ev ≠ 0 → ok = false ∧
    ∃ pre b, ev = pre ++ [Event.caeuProgressIncr false, Event.caeuProgressEndStep b] ∧
      stops pre = 0

/-- What the element section adds to a log, for `n` volume elements: one
`caeuProgressIncr` per element line started, at most `n` of them and exactly
`n` on success, and the shape of a step that may be cancelled. -/
def VolShape (n : Nat) (ok : Bool) (ev : List Event) : Prop :=
  elemWrites ev = incrs ev ∧ incrs ev ≤ n ∧ (ok = true → incrs ev = n) ∧ StopShape ok ev

/-- The export of `sampleModel` in which every call succeeds except call
number 15, the `caeuProgressIncr` after the second volume element, which
answers stop. -/
def cancelRti : CAEP_RTITEM :=
  { model := sampleModel
    dimension := .PWP_DIMENSION_3D
    precision := .PWP_PRECISION_DOUBLE
    answers := fun n => n != 15 }

/-- The calls of the export `cancelRti` before the `caeuProgressIncr` that
answers stop. -/
def cancelPre : Log :=
  [.caeuProgressInit 5 true] ++
  sectionHead "Problem dimension" "NDIME" 3 ++
  sectionHead "Inner element connectivity" "NELEM" 3 ++
  [.caeuProgressBeginStep 2 true,
   .fprintf (canonicalLine 10 [0, 1, 2, 3]) true,
   .fprintf (indexEnd 0) true,
   .caeuProgressIncr true,
   .fprintf (canonicalLine 13 [3, 4, 5, 0, 1, 2]) true,
   .fprintf (indexEnd 1) true]

/-- The directives of a vertex line: the `fprintf` arguments of `writeNode`
for the vertex data `vd`. -/
def nodeLine (rti : CAEP_RTITEM) (vd : PWGM_VERTDATA) : List Directive :=
  let prec := if CAEPU_RT_PREC_SINGLE rti then 8 else 16
  let wd := prec + 8
  if CAEPU_RT_DIM_3D rti then
    [.g wd prec vd.x, .lit " ", .g wd prec vd.y, .lit " ", .g wd prec vd.z, .lit " ",
      .lu 4 vd.i, .lit "\n"]
  else
    [.g wd prec vd.x, .lit " ", .g wd prec vd.y, .lit " ", .lu 4 vd.i, .lit "\n"]

/-- The vertex lines of a list of vertices, one per vertex whose lookup
succeeds. -/
def nodeLines (rti : CAEP_RTITEM) : List PWGM_HVERTEX → List Directive
  | [] => []
  | hV :: rest =>
    (match PwVertDataMod hV with
      | some vd => nodeLine rti vd
      | none => []) ++ nodeLines rti rest

/-- The lines of a list of boundary elements: each is the encoding of its
element followed by the newline, with no global index. -/
def boundaryLines : List PWGM_ELEMDATA → List Directive
  | [] => []
  | ed :: rest => encodeBody ed ++ [.lit "\n"] ++ boundaryLines rest

/-- The marker block of a domain: the `MARKER_TAG` record with the name of
its condition (nothing when the lookup fails), the `MARKER_ELEMS` record
with its element count, and its boundary element lines. -/
def markerBlock (hDom : PWGM_HDOMAIN) : List Directive :=
  (match PwDomCondition hDom with
    | some condData => keyStrLine "MARKER_TAG" condData.name
    | none => []) ++
  keyValLine "MARKER_ELEMS" (PwDomElementCount hDom) ++ boundaryLines hDom.elems

/-- The marker blocks of a list of domains, in order. -/
def markerBlocks : List PWGM_HDOMAIN → List Directive
  | [] => []
  | hDom :: rest => markerBlock hDom ++ markerBlocks rest

/-- An integer field: a `%i` or `%lu` conversion. -/
def Directive.isIntField : Directive → Bool
  | .i _ _ => true
  | .lu _ _ => true
  | _ => false

/-- The number of integer fields of an output. -/
def fieldCount (out : List Directive) : Nat := out.countP Directive.isIntField

/-- The value `su2Dim` of `writeDimensionSection`. -/
def su2Dim (rti : CAEP_RTITEM) : Nat :=
  if rti.dimension = PWP_ENUM_DIMENSION.PWP_DIMENSION_2D then 2
  else if rti.dimension = PWP_ENUM_DIMENSION.PWP_DIMENSION_3D then 3 else 0

/-- The output of the dimension section when every call succeeds. -/
def dimensionText (rti : CAEP_RTITEM) : List Directive :=
  banner "Problem dimension" ++ keyValLine "NDIME" (su2Dim rti)

/-- The output of the element section when every call succeeds. -/
def elementsText (rti : CAEP_RTITEM) : List Directive :=
  banner "Inner element connectivity" ++ keyValLine "NELEM" (getElemCnt rti) ++
    elemLinesWrap (allElems rti.model.blocks) 0

/-- The output of the node section when every call and lookup succeeds. -/
def nodesText (rti : CAEP_RTITEM) : List Directive :=
  banner "Node coordinates" ++ keyValLine "NPOIN" (PwModVertexCount rti.model) ++
    nodeLines rti rti.model.vertices

/-- The output of the boundary section when every call and lookup
succeeds. -/
def boundariesText (rti : CAEP_RTITEM) : List Directive :=
  banner "Boundary elements" ++ keyValLine "NMARK" (PwModDomainCount rti.model) ++
    markerBlocks rti.model.domains

/-- The export of a model of one vertex whose lookup fails, every call
answering success. -/
def lostVertexRti : CAEP_RTITEM :=
  { model := { blocks := [], domains := [], vertices := [{ data := none }] }
    dimension := .PWP_DIMENSION_3D
    precision := .PWP_PRECISION_DOUBLE
    answers := fun _ => true }

/-! ## Further sample runs and counts -/

/-- The run of `writeNodesSection` on `sampleModel` in which the stream never
fails and every lookup succeeds, but `caeuProgressBeginStep`, the first
call, answers stop. -/
def refusedStepRti : CAEP_RTITEM :=
  { model := sampleModel
    dimension := .PWP_DIMENSION_3D
    precision := .PWP_PRECISION_DOUBLE
    answers := fun n => n != 0 }

/-- The directives of the writes `" %4lu"` of the `default` branch of
`writeElemData`, one write per index. -/
def genericIndices : List Nat → List Directive
  | [] => []
  | v :: rest => .lit " " :: .lu 4 v :: genericIndices rest

/-- The directives the `default` branch of `writeElemData` would put on the
stream for a type code and a list of indices: the write `"%2i "` followed by
one write `" %4lu"` per index. -/
def genericLine (code : Nat) (inds : List Nat) : List Directive :=
  .i 2 code :: .lit " " :: genericIndices inds

/-- The calls of the `default` branch of `writeElemData` for the element
`ed` when every write succeeds. -/
def fallbackCalls (ed : PWGM_ELEMDATA) : List Event :=
  .fprintf [.i 2 0, .lit " "] true ::
    (List.range ed.vertCnt).map (fun ii => Event.fprintf [.lit " ", .lu 4 (ed.index ii)] true)

/-- A point element with three entries in its index array. -/
def point789 : PWGM_ELEMDATA :=
  { type := .PWGM_ELEMTYPE_POINT, vertCnt := 3, index := fun i => i + 7 }

/-- The export of a model whose only block holds a tetrahedron and a point
element, every call answering success. -/
def pointRti : CAEP_RTITEM :=
  { model := { blocks := [{ elems := [tet0123, point789] }], domains := [], vertices := [] }
    dimension := .PWP_DIMENSION_3D
    precision := .PWP_PRECISION_DOUBLE
    answers := fun _ => true }

/-- A `caeuProgressBeginStep` call. -/
def Event.isBeginStep : Event → Bool
  | .caeuProgressBeginStep _ _ => true
  | _ => false

/-- The number of `caeuProgressBeginStep` calls of a log. -/
def beginSteps (log : Log) : Nat := log.countP Event.isBeginStep

/-- The log of the export when the dimension section returns. -/
def afterDimension (rti : CAEP_RTITEM) : Log :=
  (writeDimensionSection rti (caeuProgressInit rti [] (numMajorSteps rti)).2).2

/-- The log of the export when the element section returns, if it is
reached. -/
def afterElements (rti : CAEP_RTITEM) : Log :=
  (writeElementsSection rti (afterDimension rti)).2

/-- The log of the export when the node section returns, if it is
reached. -/
def afterNodes (rti : CAEP_RTITEM) : Log :=
  (writeNodesSection rti (afterElements rti)).2

/-- The log of the export when the boundary section returns, if it is
reached. -/
def afterBoundaries (rti : CAEP_RTITEM) : Log :=
  (writeBoundariesSection rti (afterNodes rti)).2

/-- A grid model of `2^32 - 1` empty blocks, no domain and no vertex. -/
def manyBlocksModel : PWGM_HGRIDMODEL :=
  { blocks := List.replicate 4294967295 { elems := [] }
    domains := []
    vertices := [] }

/-- The export of `manyBlocksModel`, every call answering success. -/
def manyBlocksRti : CAEP_RTITEM :=
  { model := manyBlocksModel
    dimension := .PWP_DIMENSION_3D
    precision := .PWP_PRECISION_DOUBLE
    answers := fun _ => true }

/-! ## The text of the output -/

/-- The decimal numeral of a natural number, as `printf` writes an unsigned
or a non-negative integer. -/
def decimal (v : Nat) : List Char := Nat.toDigits 10 v

/-- A text right-justified with spaces in a field of minimum width `w`: the
width of a `printf` conversion never truncates. -/
def padLeft (w : Nat) (t : List Char) : List Char :=
  List.replicate (w - t.length) ' ' ++ t

/-- The text of a directive.  The text of the floating conversion `%#*.*g`
is not modelled: it is the parameter `fmtG`. -/
def Directive.text (fmtG : Nat → Nat → PWGM_XYZVAL → List Char) : Directive → List Char
  | .lit txt => txt.toList
  | .i w v => padLeft w (decimal v)
  | .lu w v => padLeft w (decimal v)
  | .s v => v.toList
  | .g w p v => fmtG w p v

/-- The text of an output. -/
def render (fmtG : Nat → Nat → PWGM_XYZVAL → List Char) : List Directive → List Char
  | [] => []
  | d :: rest => d.text fmtG ++ render fmtG rest

/-- The vertex indices `writeElemData` passes to `fprintf` for an element,
in the order of the arguments. -/
def emittedIndices (ed : PWGM_ELEMDATA) : List Nat :=
  match pw2SuType ed.type with
  | .SU2_ELEMTYPE_BAR => [ed.index 0, ed.index 1]
  | .SU2_ELEMTYPE_TRI => [ed.index 0, ed.index 1, ed.index 2]
  | .SU2_ELEMTYPE_QUAD => [ed.index 0, ed.index 1, ed.index 2, ed.index 3]
  | .SU2_ELEMTYPE_TET => [ed.index 0, ed.index 1, ed.index 2, ed.index 3]
  | .SU2_ELEMTYPE_PYRAMID => [ed.index 0, ed.index 1, ed.index 2, ed.index 3, ed.index 4]
  | .SU2_ELEMTYPE_WEDGE =>
    [ed.index 3, ed.index 4, ed.index 5, ed.index 0, ed.index 1, ed.index 2]
  | .SU2_ELEMTYPE_HEX =>
    [ed.index 0, ed.index 1, ed.index 2, ed.index 3, ed.index 4, ed.index 5, ed.index 6,
      ed.index 7]
  | .SU2_ELEMTYPE_INVALID => (List.range ed.vertCnt).map ed.index

/-- The text of a list of indices written with `" %4lu"` each. -/
def fieldsText : List Nat → List Char
  | [] => []
  | v :: rest => ' ' :: padLeft 4 (decimal v) ++ fieldsText rest

/-- The words of a text, read with the word `cur` under way (its last
character first): the maximal runs of characters other than the space. -/
def tokensAux : List Char → List Char → List (List Char)
  | cur, [] => if cur = [] then [] else [cur.reverse]
  | cur, c :: cs =>
    if c = ' ' then
      if cur = [] then tokensAux [] cs else cur.reverse :: tokensAux [] cs
    else tokensAux (c :: cur) cs

/-- The fields of a line: the text split on runs of spaces. -/
def tokens (t : List Char) : List (List Char) := tokensAux [] t

/-- The directives that end an element line: the global index and the
newline, or the newline alone. -/
def lineEndDirectives : Option Nat → List Directive
  | some g => indexEnd g
  | none => [.lit "\n"]

/-- A wedge whose vertex indices have six digits. -/
def wedgeWide : PWGM_ELEMDATA :=
  { type := .PWGM_ELEMTYPE_WEDGE, vertCnt := 6, index := fun i => 100000 + i }

/-- The lines of a text, read with the line `cur` under way (its last
character first): the runs of characters ended by a newline, and the
unfinished last line if there is one. -/
def textLinesAux : List Char → List Char → List (List Char)
  | cur, [] => if cur = [] then [] else [cur.reverse]
  | cur, c :: cs =>
    if c = '\n' then cur.reverse :: textLinesAux [] cs else textLinesAux (c :: cur) cs

/-- The lines of a text. -/
def textLines (t : List Char) : List (List Char) := textLinesAux [] t

/-- The text of the vertex line of a 3D model in double precision, followed
by the text `rest`: three coordinates written with `%#24.16g`, then the
index of the vertex written with `%4lu`. -/
def vertexText (fmtG : Nat → Nat → PWGM_XYZVAL → List Char) (x y z : PWGM_XYZVAL) (i : Nat)
    (rest : List Char) : List Char :=
  fmtG 24 16 x ++ (' ' :: (fmtG 24 16 y ++ (' ' :: (fmtG 24 16 z ++
    (' ' :: (padLeft 4 (decimal i) ++ ('\n' :: rest)))))))

/-- The first scenario of the spec: one block with the tetrahedron on the
vertices 0, 1, 2, 3, four vertices, no domain, 3D, double precision, every
call answering success. -/
def tetScenarioRti : CAEP_RTITEM :=
  { model := { blocks := [{ elems := [tet0123] }]
               domains := []
               vertices := sampleModel.vertices }
    dimension := .PWP_DIMENSION_3D
    precision := .PWP_PRECISION_DOUBLE
    answers := fun _ => true }

/-- The second scenario of the spec: one block with the wedge on the
vertices 0, ..., 5, every call answering success. -/
def wedgeScenarioRti : CAEP_RTITEM :=
  { model := { blocks := [{ elems := [wedge012345] }], domains := [], vertices := [] }
    dimension := .PWP_DIMENSION_3D
    precision := .PWP_PRECISION_DOUBLE
    answers := fun _ => true }

/-! ## Theorems -/

/-- C1: `pw2SuType` maps bar, triangle, quad, tetrahedron, hexahedron, wedge
and pyramid to the codes 3, 5, 9, 10, 12, 13 and 14, maps point and every
unrecognized shape to the invalid code 0, and so returns 0 exactly for the
shapes that are none of the seven canonical ones. -/
theorem pw2SuType_table :
    (pw2SuType .PWGM_ELEMTYPE_BAR).code = 3 ∧
    (pw2SuType .PWGM_ELEMTYPE_TRI).code = 5 ∧
    (pw2SuType .PWGM_ELEMTYPE_QUAD).code = 9 ∧
    (pw2SuType .PWGM_ELEMTYPE_TET).code = 10 ∧
    (pw2SuType .PWGM_ELEMTYPE_HEX).code = 12 ∧
    (pw2SuType .PWGM_ELEMTYPE_WEDGE).code = 13 ∧
    (pw2SuType .PWGM_ELEMTYPE_PYRAMID).code = 14 ∧
    pw2SuType .PWGM_ELEMTYPE_POINT = .SU2_ELEMTYPE_INVALID ∧
    (∀ raw, pw2SuType (.unrecognized raw) = .SU2_ELEMTYPE_INVALID) ∧
    SU2_ELEMTYPE.SU2_ELEMTYPE_INVALID.code = 0 ∧
    (∀ t, (pw2SuType t).code = 0 ↔
      (t ≠ .PWGM_ELEMTYPE_BAR ∧ t ≠ .PWGM_ELEMTYPE_TRI ∧ t ≠ .PWGM_ELEMTYPE_QUAD ∧
       t ≠ .PWGM_ELEMTYPE_TET ∧ t ≠ .PWGM_ELEMTYPE_HEX ∧ t ≠ .PWGM_ELEMTYPE_WEDGE ∧
       t ≠ .PWGM_ELEMTYPE_PYRAMID)) := by
  refine ⟨rfl, rfl, rfl, rfl, rfl, rfl, rfl, rfl, fun _ => rfl, rfl, ?_⟩
  intro t
  cases t <;> simp [pw2SuType, SU2_ELEMTYPE.code]

/-- C2: for a wedge, whatever its vertex count field, its indices, the
global index and the answers of the stream, `writeElemData` first issues the
single write of type code 13 followed by `index[3], index[4], index[5],
index[0], index[1], index[2]`, and then, when that write succeeded, the end
of the line; for the wedge on the vertices 0..5 the index sequence written is
3,4,5,0,1,2. -/
theorem writeElemData_wedge (rti : CAEP_RTITEM) (log : Log) (vertCnt : Nat)
    (index : Nat → Nat) (globNdx : Option Nat) :
    (writeElemData rti log
        { type := .PWGM_ELEMTYPE_WEDGE, vertCnt := vertCnt, index := index } globNdx).2.2
      = log ++ oneCallLine rti log.length
          (canonicalLine 13 [index 3, index 4, index 5, index 0, index 1, index 2])
          globNdx
    ∧ (writeElemData rti log wedge012345 globNdx).2.2
      = log ++ oneCallLine rti log.length (canonicalLine 13 [3, 4, 5, 0, 1, 2]) globNdx
    ∧ luArgs (canonicalLine 13 [3, 4, 5, 0, 1, 2]) = [3, 4, 5, 0, 1, 2] := by
  refine ⟨?_, ?_, rfl⟩ <;>
    cases globNdx <;>
    cases h : rti.answers log.length <;>
    simp [writeElemData, writeElemBody, pw2SuType, fprintf, fputs, call, oneCallLine,
      canonicalLine, lineEnd, SU2_ELEMTYPE.code, wedge012345, h]

/-- C3: for a bar, triangle, quad, tetrahedron, pyramid or hexahedron,
whatever its vertex count field, its indices, the global index and the
answers of the stream, `writeElemData` first issues the single write of the
type code (3, 5, 9, 10, 14, 12) followed by the first 2, 3, 4, 4, 5, 8 entries
of the index array in their order, and then, when that write succeeded, the
end of the line. -/
theorem writeElemData_canonical (rti : CAEP_RTITEM) (log : Log) (vertCnt : Nat)
    (index : Nat → Nat) (globNdx : Option Nat) :
    (writeElemData rti log
        { type := .PWGM_ELEMTYPE_BAR, vertCnt := vertCnt, index := index } globNdx).2.2
      = log ++ oneCallLine rti log.length
          (canonicalLine 3 ((List.range 2).map index)) globNdx ∧
    (writeElemData rti log
        { type := .PWGM_ELEMTYPE_TRI, vertCnt := vertCnt, index := index } globNdx).2.2
      = log ++ oneCallLine rti log.length
          (canonicalLine 5 ((List.range 3).map index)) globNdx ∧
    (writeElemData rti log
        { type := .PWGM_ELEMTYPE_QUAD, vertCnt := vertCnt, index := index } globNdx).2.2
      = log ++ oneCallLine rti log.length
          (canonicalLine 9 ((List.range 4).map index)) globNdx ∧
    (writeElemData rti log
        { type := .PWGM_ELEMTYPE_TET, vertCnt := vertCnt, index := index } globNdx).2.2
      = log ++ oneCallLine rti log.length
          (canonicalLine 10 ((List.range 4).map index)) globNdx ∧
    (writeElemData rti log
        { type := .PWGM_ELEMTYPE_PYRAMID, vertCnt := vertCnt, index := index } globNdx).2.2
      = log ++ oneCallLine rti log.length
          (canonicalLine 14 ((List.range 5).map index)) globNdx ∧
    (writeElemData rti log
        { type := .PWGM_ELEMTYPE_HEX, vertCnt := vertCnt, index := index } globNdx).2.2
      = log ++ oneCallLine rti log.length
          (canonicalLine 12 ((List.range 8).map index)) globNdx := by
  have hr2 : List.range 2 = [0, 1] := by decide
  have hr3 : List.range 3 = [0, 1, 2] := by decide
  have hr4 : List.range 4 = [0, 1, 2, 3] := by decide
  have hr5 : List.range 5 = [0, 1, 2, 3, 4] := by decide
  have hr8 : List.range 8 = [0, 1, 2, 3, 4, 5, 6, 7] := by decide
  rw [hr2, hr3, hr4, hr5, hr8]
  refine ⟨?_, ?_, ?_, ?_, ?_, ?_⟩ <;>
    cases globNdx <;>
    cases h : rti.answers log.length <;>
    simp [writeElemData, writeElemBody, pw2SuType, fprintf, fputs, call, oneCallLine,
      canonicalLine, lineEnd, SU2_ELEMTYPE.code, h]

/-! ### Runs in which every call succeeds -/

theorem output_append (a b : Log) : output (a ++ b) = output a ++ output b := by
  induction a with
  | nil => rfl
  | cons e rest ih => simp [output, ih]

theorem call_ok (rti : CAEP_RTITEM) (h : ∀ n, rti.answers n = true) (log : Log)
    (mk : Bool → Event) : call rti log mk = (true, log ++ [mk true]) := by
  simp [call, h]

theorem writeSectionComment_ok (rti : CAEP_RTITEM) (h : ∀ n, rti.answers n = true)
    (log : Log) (txt : Option String) :
    writeSectionComment rti log txt =
      (true, log ++ [.fprintf (commentLine none) true, .fprintf (commentLine txt) true,
        .fprintf (commentLine none) true]) := by
  simp [writeSectionComment, writeComment, andThen, fprintf, call_ok rti h, commentLine]

theorem writeKeyVal_ok (rti : CAEP_RTITEM) (h : ∀ n, rti.answers n = true)
    (log : Log) (key : String) (val : Nat) :
    writeKeyVal rti log key val = (true, log ++ [.fprintf (keyValLine key val) true]) := by
  simp [writeKeyVal, fprintf, call_ok rti h, keyValLine]

theorem writeVertIndices_ok (rti : CAEP_RTITEM) (h : ∀ n, rti.answers n = true)
    (ed : PWGM_ELEMDATA) (inds : List Nat) (log : Log) :
    writeVertIndices rti ed inds (true, log) =
      (true, log ++ inds.map (fun ii => Event.fprintf [.lit " ", .lu 4 (ed.index ii)] true)) := by
  induction inds generalizing log with
  | nil => simp [writeVertIndices]
  | cons ii rest ih => simp [writeVertIndices, fprintf, call_ok rti h, ih]

theorem globalIndices_append (a b : Log) :
    globalIndices (a ++ b) = globalIndices a ++ globalIndices b := by
  simp [globalIndices]

theorem globalIndices_vertIndices (ed : PWGM_ELEMDATA) (inds : List Nat) :
    globalIndices
      (inds.map (fun ii => Event.fprintf [.lit " ", .lu 4 (ed.index ii)] true)) = [] := by
  induction inds with
  | nil => rfl
  | cons ii rest ih =>
    simp only [List.map_cons, globalIndices, List.filterMap_cons] at ih ⊢
    simp [Event.globalIndex]

theorem writeElemBody_ok (rti : CAEP_RTITEM) (h : ∀ n, rti.answers n = true)
    (log : Log) (ed : PWGM_ELEMDATA) :
    ∃ ev, writeElemBody rti log ed = (true, log ++ ev) ∧ output ev = encodeBody ed ∧
      globalIndices ev = [] := by
  have hq : ∀ n, quiet.answers n = true := fun _ => rfl
  unfold encodeBody
  unfold writeElemBody
  cases pw2SuType ed.type <;>
    simp only [fprintf, call_ok rti h, call_ok quiet hq, writeVertIndices_ok rti h,
      writeVertIndices_ok quiet hq, List.nil_append]
  case SU2_ELEMTYPE_INVALID =>
    refine ⟨_, by rw [List.append_assoc], rfl, ?_⟩
    rw [globalIndices_append, globalIndices_vertIndices]
    rfl
  all_goals exact ⟨_, rfl, rfl, rfl⟩

theorem writeElemData_ok (rti : CAEP_RTITEM) (h : ∀ n, rti.answers n = true)
    (log : Log) (ed : PWGM_ELEMDATA) (g : Nat) :
    ∃ ev, writeElemData rti log ed (some g) =
        (true, some ((g + 1) % PWP_UINT32_SIZE), log ++ ev) ∧
      output ev = encodeBody ed ++ indexEnd g ∧ globalIndices ev = [g] := by
  obtain ⟨ev, hev, hout, hgi⟩ := writeElemBody_ok rti h log ed
  refine ⟨ev ++ [.fprintf (indexEnd g) true], ?_, ?_, ?_⟩
  · simp [writeElemData, hev, fprintf, call_ok rti h, indexEnd]
  · simp [output_append, hout, output, Event.written]
  · rw [globalIndices_append, hgi]
    rfl

theorem advance_add (a b g : Nat) : advance (a + b) g = advance b (advance a g) := by
  induction a generalizing g with
  | zero => simp [advance]
  | succ a ih => rw [Nat.add_right_comm]; simp only [advance]; exact ih _

theorem countFrom_add (a b g : Nat) :
    countFrom (a + b) g = countFrom a g ++ countFrom b (advance a g) := by
  induction a generalizing g with
  | zero => simp [advance, countFrom]
  | succ a ih => rw [Nat.add_right_comm]; simp only [countFrom, advance, List.cons_append]; rw [ih]

theorem elemLinesWrap_append (a b : List PWGM_ELEMDATA) (g : Nat) :
    elemLinesWrap (a ++ b) g = elemLinesWrap a g ++ elemLinesWrap b (advance a.length g) := by
  induction a generalizing g with
  | nil => simp [advance, elemLinesWrap]
  | cons ed rest ih => simp [elemLinesWrap, advance, ih]

theorem advance_eq (n g : Nat) (hg : g < PWP_UINT32_SIZE) :
    advance n g = (g + n) % PWP_UINT32_SIZE := by
  induction n generalizing g with
  | zero => simp [advance, Nat.mod_eq_of_lt hg]
  | succ n ih =>
    simp only [advance]
    rw [ih _ (Nat.mod_lt _ (by decide))]
    simp only [PWP_UINT32_SIZE]
    omega

theorem countFrom_eq_range (n g : Nat) (h : g + n ≤ PWP_UINT32_SIZE) :
    countFrom n g = List.range' g n := by
  induction n generalizing g with
  | zero => rfl
  | succ n ih =>
    simp only [countFrom, List.range'_succ]
    cases n with
    | zero => rfl
    | succ m =>
      have h1 : (g + 1) % PWP_UINT32_SIZE = g + 1 := Nat.mod_eq_of_lt (by omega)
      rw [h1, ih (g + 1) (by omega)]

theorem elemLinesWrap_eq (es : List PWGM_ELEMDATA) (g : Nat)
    (h : g + es.length ≤ PWP_UINT32_SIZE) : elemLinesWrap es g = elemLines es g := by
  induction es generalizing g with
  | nil => rfl
  | cons ed rest ih =>
    simp only [elemLinesWrap, elemLines]
    cases rest with
    | nil => rfl
    | cons ed2 rest2 =>
      simp only [List.length_cons] at h
      have h1 : (g + 1) % PWP_UINT32_SIZE = g + 1 := Nat.mod_eq_of_lt (by omega)
      rw [h1, ih (g + 1) (by simp only [List.length_cons]; omega)]

theorem writeBlockElementsLoop_ok (rti : CAEP_RTITEM) (h : ∀ n, rti.answers n = true)
    (es : List PWGM_ELEMDATA) (g : Nat) (log : Log) :
    ∃ ev, writeBlockElementsLoop rti es g log = (true, advance es.length g, log ++ ev) ∧
      output ev = elemLinesWrap es g ∧ globalIndices ev = countFrom es.length g := by
  induction es generalizing g log with
  | nil => exact ⟨[], by simp [writeBlockElementsLoop, advance], rfl, rfl⟩
  | cons ed rest ih =>
    obtain ⟨ev1, h1, ho1, hg1⟩ := writeElemData_ok rti h log ed g
    obtain ⟨ev2, h2, ho2, hg2⟩ :=
      ih ((g + 1) % PWP_UINT32_SIZE) (log ++ ev1 ++ [Event.caeuProgressIncr true])
    refine ⟨ev1 ++ [Event.caeuProgressIncr true] ++ ev2, ?_, ?_, ?_⟩
    · simp only [List.append_assoc] at h2
      simp only [writeBlockElementsLoop, h1, caeuProgressIncr, call_ok rti h, Option.getD_some,
        Bool.not_true, Bool.false_eq_true, if_false, h2, List.length_cons, advance,
        List.append_assoc]
    · simp [output_append, ho1, ho2, output, Event.written, elemLinesWrap]
    · rw [globalIndices_append, globalIndices_append, hg1, hg2]
      rfl

theorem writeBlockElements_ok (rti : CAEP_RTITEM) (h : ∀ n, rti.answers n = true)
    (hBlk : PWGM_HBLOCK) (g : Nat) (log : Log) :
    ∃ ev, writeBlockElements rti log hBlk g = (true, advance hBlk.elems.length g, log ++ ev) ∧
      output ev = elemLinesWrap hBlk.elems g ∧
      globalIndices ev = countFrom hBlk.elems.length g := by
  obtain ⟨ev, h1, ho, hg⟩ := writeBlockElementsLoop_ok rti h hBlk.elems g
    (log ++ [Event.caeuProgressBeginStep (PwBlkElementCount hBlk) true])
  refine ⟨[Event.caeuProgressBeginStep (PwBlkElementCount hBlk) true] ++ ev ++
    [Event.caeuProgressEndStep true], ?_, ?_, ?_⟩
  · simp only [writeBlockElements, caeuProgressBeginStep, caeuProgressEndStep, call_ok rti h,
      if_true, h1, Bool.and_self, List.append_assoc]
  · simp [output_append, ho, output, Event.written]
  · rw [globalIndices_append, globalIndices_append, hg]
    simp [globalIndices, Event.globalIndex]

theorem writeElementsSectionLoop_ok (rti : CAEP_RTITEM) (h : ∀ n, rti.answers n = true)
    (blocks : List PWGM_HBLOCK) (g : Nat) (log : Log) :
    ∃ ev, writeElementsSectionLoop rti blocks g log =
        (true, advance (allElems blocks).length g, log ++ ev) ∧
      output ev = elemLinesWrap (allElems blocks) g ∧
      globalIndices ev = countFrom (allElems blocks).length g := by
  induction blocks generalizing g log with
  | nil => exact ⟨[], by simp [writeElementsSectionLoop, allElems, advance], rfl, rfl⟩
  | cons hBlk rest ih =>
    obtain ⟨ev1, h1, ho1, hg1⟩ := writeBlockElements_ok rti h hBlk g log
    obtain ⟨ev2, h2, ho2, hg2⟩ := ih (advance hBlk.elems.length g) (log ++ ev1)
    refine ⟨ev1 ++ ev2, ?_, ?_, ?_⟩
    · simp only [writeElementsSectionLoop, h1, Bool.not_true, Bool.false_eq_true, if_false, h2,
        allElems, List.length_append, advance_add, List.append_assoc]
    · simp [output_append, ho1, ho2, allElems, elemLinesWrap_append]
    · simp [globalIndices_append, hg1, hg2, allElems, countFrom_add]

theorem getElemCntLoop_eq (blocks : List PWGM_HBLOCK) (ret : Nat)
    (hret : ret < PWP_UINT32_SIZE) :
    getElemCntLoop blocks ret = (ret + (allElems blocks).length) % PWP_UINT32_SIZE := by
  induction blocks generalizing ret with
  | nil => simp [getElemCntLoop, allElems, Nat.mod_eq_of_lt hret]
  | cons hBlk rest ih =>
    simp only [getElemCntLoop, allElems, List.length_append, PwBlkElementCount]
    rw [ih _ (Nat.mod_lt _ (by decide))]
    simp only [PWP_UINT32_SIZE]
    omega

theorem getElemCnt_eq (rti : CAEP_RTITEM) :
    getElemCnt rti = (allElems rti.model.blocks).length % PWP_UINT32_SIZE := by
  rw [getElemCnt, getElemCntLoop_eq _ 0 (by decide), Nat.zero_add]

theorem writeElementsSectionAux_ok (rti : CAEP_RTITEM) (h : ∀ n, rti.answers n = true)
    (log : Log) :
    ∃ body, writeElementsSectionAux rti log =
        (true, advance (allElems rti.model.blocks).length 0,
          log ++ sectionHead "Inner element connectivity" "NELEM" (getElemCnt rti) ++ body) ∧
      output body = elemLinesWrap (allElems rti.model.blocks) 0 ∧
      globalIndices body = countFrom (allElems rti.model.blocks).length 0 := by
  obtain ⟨ev, h1, ho, hg⟩ := writeElementsSectionLoop_ok rti h rti.model.blocks 0
    (log ++ sectionHead "Inner element connectivity" "NELEM" (getElemCnt rti))
  refine ⟨ev, ?_, ho, hg⟩
  simp only [sectionHead] at h1
  simp [writeElementsSectionAux, writeSectionComment_ok rti h, writeKeyVal_ok rti h, andThen,
    sectionHead, h1]

theorem globalIndices_sectionHead (txt key : String) (val : Nat) :
    globalIndices (sectionHead txt key val) = [] := by
  simp [globalIndices, sectionHead, Event.globalIndex, commentLine, keyValLine]

theorem output_sectionHead (txt key : String) (val : Nat) :
    output (sectionHead txt key val) = banner txt ++ keyValLine key val := by
  simp [output, sectionHead, Event.written, banner]

/-- C4 (amended): in a run in which every call succeeds, for a model with at
most `2^32` volume elements, the element section succeeds, the global
indices it writes are exactly `0, 1, ..., N-1` in output order, and its
output is the banner, the `NELEM` record and then one line per volume
element, blocks in enumeration order and elements in enumeration order
within a block, the `j`-th line being the encoding of the `j`-th element
followed by the index `j`. -/
theorem elementsSection_globalIndices (rti : CAEP_RTITEM) (log : Log)
    (hok : ∀ n, rti.answers n = true)
    (hN : (allElems rti.model.blocks).length ≤ PWP_UINT32_SIZE) :
    (writeElementsSection rti log).1 = true ∧
    globalIndices (writeElementsSection rti log).2 =
      globalIndices log ++ List.range (allElems rti.model.blocks).length ∧
    output (writeElementsSection rti log).2 =
      output log ++ banner "Inner element connectivity" ++
        keyValLine "NELEM" (getElemCnt rti) ++ elemLines (allElems rti.model.blocks) 0 := by
  obtain ⟨body, h1, ho, hg⟩ := writeElementsSectionAux_ok rti hok log
  simp only [writeElementsSection, h1]
  refine ⟨trivial, ?_, ?_⟩
  · rw [globalIndices_append, globalIndices_append, globalIndices_sectionHead, hg,
      countFrom_eq_range _ _ (by omega), List.range_eq_range', List.append_nil]
  · rw [output_append, output_append, output_sectionHead, ho,
      elemLinesWrap_eq _ _ (by omega)]
    simp only [List.append_assoc]

/-- C4 (amended) holds with its hypotheses at `sampleRti`, three volume
elements in three blocks. -/
theorem elementsSection_globalIndices_witness :
    (∀ n, sampleRti.answers n = true) ∧
    (allElems sampleRti.model.blocks).length ≤ PWP_UINT32_SIZE ∧
    (writeElementsSection sampleRti []).1 = true ∧
    globalIndices (writeElementsSection sampleRti []).2 =
      globalIndices [] ++ List.range (allElems sampleRti.model.blocks).length ∧
    output (writeElementsSection sampleRti []).2 =
      output [] ++ banner "Inner element connectivity" ++
        keyValLine "NELEM" (getElemCnt sampleRti) ++
        elemLines (allElems sampleRti.model.blocks) 0 :=
  ⟨fun _ => rfl, by decide,
    elementsSection_globalIndices sampleRti [] (fun _ => rfl) (by decide)⟩

theorem countFrom_wrap (n : Nat) (hn : n = PWP_UINT32_SIZE) :
    countFrom (n + 1) 0 = List.range n ++ [0] := by
  have hadv : advance n 0 = 0 := by
    rw [advance_eq _ _ (by decide), Nat.zero_add, hn, Nat.mod_self]
  rw [countFrom_add, hadv, countFrom_eq_range n 0 (by omega), List.range_eq_range']
  rfl

theorem range_succ_ne (n : Nat) (hn : 0 < n) : List.range n ++ [0] ≠ List.range (n + 1) := by
  rw [List.range_succ]
  intro hcon
  have h0 : [0] = [n] := List.append_inj_right' hcon rfl
  have h1 : 0 = n := by simpa using h0
  omega

theorem allElems_two_replicate (a b : Nat) (ed : PWGM_ELEMDATA) :
    (allElems [{ elems := List.replicate a ed }, { elems := List.replicate b ed }]).length
      = a + b := by
  simp [allElems]

theorem wrapModel_length (n : Nat) (hn : n = PWP_UINT32_SIZE) :
    (allElems wrapRti.model.blocks).length = n + 1 := by
  have h := allElems_two_replicate 2147483648 2147483649 tet0123
  have hsum : 2147483648 + 2147483649 = n + 1 := by rw [hn]
  rw [hsum] at h
  exact h

theorem globalIndices_wrap (rti : CAEP_RTITEM) (hok : ∀ n, rti.answers n = true) (n : Nat)
    (hn : n = PWP_UINT32_SIZE) (hlen : (allElems rti.model.blocks).length = n + 1) :
    globalIndices (writeElementsSection rti []).2 = List.range n ++ [0] := by
  obtain ⟨body, h1, _, hg⟩ := writeElementsSectionAux_ok rti hok []
  simp only [writeElementsSection, h1]
  rw [globalIndices_append, globalIndices_append, globalIndices_sectionHead, hg, hlen,
    countFrom_wrap _ hn]
  rfl

/-- C4 (as stated, refuted): for the model of `2^32 + 1` tetrahedra in two
blocks, in the run in which every call succeeds, the global indices written
are not `0, 1, ..., N-1`: after `2^32 - 1` the counter starts again at 0. -/
theorem elementsSection_globalIndices_wrap :
    (∀ n, wrapRti.answers n = true) ∧
    (allElems wrapRti.model.blocks).length = PWP_UINT32_SIZE + 1 ∧
    globalIndices (writeElementsSection wrapRti []).2 =
      List.range PWP_UINT32_SIZE ++ [0] ∧
    globalIndices (writeElementsSection wrapRti []).2 ≠
      List.range (allElems wrapRti.model.blocks).length := by
  have hlen := wrapModel_length PWP_UINT32_SIZE rfl
  have hgi := globalIndices_wrap wrapRti (fun _ => rfl) PWP_UINT32_SIZE rfl hlen
  refine ⟨fun _ => rfl, hlen, hgi, ?_⟩
  rw [hgi, hlen]
  exact range_succ_ne _ (by decide)

theorem lineCount_append (a b : List Directive) :
    lineCount (a ++ b) = lineCount a + lineCount b := by
  simp [lineCount]

theorem lineCount_vertIndices (ed : PWGM_ELEMDATA) (inds : List Nat) :
    lineCount (output
      (inds.map (fun ii => Event.fprintf [.lit " ", .lu 4 (ed.index ii)] true))) = 0 := by
  induction inds with
  | nil => rfl
  | cons ii rest ih =>
    simp only [List.map_cons, output, Event.written, lineCount_append, ih]
    simp [lineCount]

theorem lineCount_encodeBody (ed : PWGM_ELEMDATA) : lineCount (encodeBody ed) = 0 := by
  have hq : ∀ n, quiet.answers n = true := fun _ => rfl
  unfold encodeBody
  unfold writeElemBody
  cases pw2SuType ed.type <;>
    simp only [fprintf, call_ok quiet hq, writeVertIndices_ok quiet hq, List.nil_append]
  case SU2_ELEMTYPE_INVALID =>
    rw [output_append, lineCount_append, lineCount_vertIndices]
    simp [output, Event.written, lineCount]
  all_goals simp [output, Event.written, lineCount]

theorem lineCount_elemLinesWrap (es : List PWGM_ELEMDATA) (g : Nat) :
    lineCount (elemLinesWrap es g) = es.length := by
  induction es generalizing g with
  | nil => rfl
  | cons ed rest ih =>
    simp only [elemLinesWrap, lineCount_append, lineCount_encodeBody, ih, List.length_cons]
    simp [lineCount, indexEnd]
    omega

/-- C5: in a run of `writeElementsSection` in which every call succeeds, for
a model with fewer than `2^32` volume elements (any number of blocks, empty
ones included), the section is the banner and the record `NELEM= v`, with
`v` the value computed by `getElemCnt`, followed by a body whose output has
exactly `v` lines. -/
theorem elementsSection_count (rti : CAEP_RTITEM) (log : Log)
    (hok : ∀ n, rti.answers n = true)
    (hN : (allElems rti.model.blocks).length < PWP_UINT32_SIZE) :
    ∃ body, writeElementsSection rti log =
        (true, log ++ sectionHead "Inner element connectivity" "NELEM" (getElemCnt rti)
          ++ body) ∧
      lineCount (output body) = getElemCnt rti ∧
      getElemCnt rti = (allElems rti.model.blocks).length := by
  obtain ⟨body, h1, ho, _⟩ := writeElementsSectionAux_ok rti hok log
  refine ⟨body, ?_, ?_, ?_⟩
  · simp only [writeElementsSection, h1]
  · rw [ho, lineCount_elemLinesWrap, getElemCnt_eq, Nat.mod_eq_of_lt hN]
  · rw [getElemCnt_eq, Nat.mod_eq_of_lt hN]

/-- C5 holds with its hypotheses at `sampleRti`. -/
theorem elementsSection_count_witness :
    (∀ n, sampleRti.answers n = true) ∧
    (allElems sampleRti.model.blocks).length < PWP_UINT32_SIZE ∧
    ∃ body, writeElementsSection sampleRti [] =
        (true, [] ++ sectionHead "Inner element connectivity" "NELEM" (getElemCnt sampleRti)
          ++ body) ∧
      lineCount (output body) = getElemCnt sampleRti ∧
      getElemCnt sampleRti = (allElems sampleRti.model.blocks).length :=
  ⟨fun _ => rfl, by decide, elementsSection_count sampleRti [] (fun _ => rfl) (by decide)⟩

/-- C6 (the code at the failing input): with one block of two tetrahedra,
when the write of the first element line fails and every other call
succeeds, the export goes on: it writes the line of the second tetrahedron
(with global index 0), the node and boundary sections, and `runtimeWrite`
returns success and passes success to `caeuProgressEnd`. -/
theorem runtimeWrite_ignores_element_write_failure :
    (runtimeWrite lostLineRti []).1 = true ∧
    (runtimeWrite lostLineRti []).2 =
      [.caeuProgressInit 2 true] ++
      sectionHead "Problem dimension" "NDIME" 3 ++
      sectionHead "Inner element connectivity" "NELEM" 2 ++
      [.caeuProgressBeginStep 2 true,
       .fprintf (canonicalLine 10 [0, 1, 2, 3]) false,
       .caeuProgressIncr true,
       .fprintf (canonicalLine 10 [0, 1, 2, 3]) true,
       .fprintf (indexEnd 0) true,
       .caeuProgressIncr true,
       .caeuProgressEndStep true,
       .caeuProgressBeginStep 0 true] ++
      sectionHead "Node coordinates" "NPOIN" 0 ++
      [.caeuProgressEndStep true] ++
      sectionHead "Boundary elements" "NMARK" 0 ++
      [.caeuProgressEnd true] := by
  constructor <;> decide

/-! ### The protocol of the progress reporter -/

theorem phase_snoc (log : Log) (e : Event) : phase (log ++ [e]) = (phase log).step e := by
  simp [phase, List.foldl_append]

theorem phase_fprintf (rti : CAEP_RTITEM) (log : Log) (out : List Directive) :
    phase (fprintf rti log out).2 = phase log := by
  simp only [fprintf, call, phase_snoc]
  cases phase log <;> rfl

theorem phase_fputs (rti : CAEP_RTITEM) (log : Log) (txt : String) :
    phase (fputs rti log txt).2 = phase log := by
  simp only [fputs, call, phase_snoc]
  cases phase log <;> rfl

theorem phase_andThen (r : Bool × Log) (f : Log → Bool × Log)
    (hf : ∀ l, phase (f l).2 = phase l) : phase (andThen r f).2 = phase r.2 := by
  unfold andThen
  split
  · exact hf _
  · rfl

theorem phase_andThen_idle (r : Bool × Log) (f : Log → Bool × Log)
    (hr : phase r.2 = .idle) (hf : ∀ l, phase l = .idle → phase (f l).2 = .idle) :
    phase (andThen r f).2 = .idle := by
  unfold andThen
  split
  · exact hf _ hr
  · exact hr

theorem phase_writeSectionComment (rti : CAEP_RTITEM) (log : Log) (txt : Option String) :
    phase (writeSectionComment rti log txt).2 = phase log := by
  have hc : ∀ (t : Option String) (l : Log), phase (writeComment rti l t).2 = phase l :=
    fun t l => phase_fprintf rti l _
  unfold writeSectionComment
  rw [phase_andThen _ _ (hc none), phase_andThen _ _ (hc txt)]
  exact hc none log

theorem phase_writeKeyVal (rti : CAEP_RTITEM) (log : Log) (key : String) (val : Nat) :
    phase (writeKeyVal rti log key val).2 = phase log :=
  phase_fprintf rti log _

theorem phase_writeKeyValStr (rti : CAEP_RTITEM) (log : Log) (key val : String) :
    phase (writeKeyValStr rti log key val).2 = phase log :=
  phase_fprintf rti log _

theorem phase_writeVertIndices (rti : CAEP_RTITEM) (ed : PWGM_ELEMDATA) (inds : List Nat)
    (r : Bool × Log) : phase (writeVertIndices rti ed inds r).2 = phase r.2 := by
  induction inds generalizing r with
  | nil => rfl
  | cons ii rest ih =>
    simp only [writeVertIndices]
    split
    · rw [ih, phase_fprintf]
    · rfl

theorem phase_writeElemBody (rti : CAEP_RTITEM) (log : Log) (ed : PWGM_ELEMDATA) :
    phase (writeElemBody rti log ed).2 = phase log := by
  unfold writeElemBody
  cases pw2SuType ed.type <;> simp only [phase_writeVertIndices, phase_fprintf]

theorem phase_writeElemData (rti : CAEP_RTITEM) (log : Log) (ed : PWGM_ELEMDATA)
    (globNdx : Option Nat) : phase (writeElemData rti log ed globNdx).2.2 = phase log := by
  unfold writeElemData
  cases globNdx <;> simp only [] <;> split <;>
    simp only [phase_fprintf, phase_fputs, phase_writeElemBody]

theorem phase_writeBlockElementsLoop (rti : CAEP_RTITEM) (es : List PWGM_ELEMDATA)
    (g : Nat) (log : Log) (h : phase log = .inStep) :
    phase (writeBlockElementsLoop rti es g log).2.2 = .inStep := by
  induction es generalizing g log with
  | nil => exact h
  | cons ed rest ih =>
    have hp : phase (caeuProgressIncr rti (writeElemData rti log ed (some g)).2.2).2
        = .inStep := by
      simp only [caeuProgressIncr, call, phase_snoc, phase_writeElemData, h]
      rfl
    simp only [writeBlockElementsLoop]
    split
    · exact hp
    · exact ih _ _ hp

theorem phase_writeBlockElements (rti : CAEP_RTITEM) (log : Log) (hBlk : PWGM_HBLOCK)
    (g : Nat) (h : phase log = .idle) :
    phase (writeBlockElements rti log hBlk g).2.2 = .idle := by
  have hb : phase (caeuProgressBeginStep rti log (PwBlkElementCount hBlk)).2 = .inStep := by
    simp only [caeuProgressBeginStep, call, phase_snoc, h]
    rfl
  simp only [writeBlockElements, caeuProgressEndStep, call, phase_snoc]
  split
  · rw [phase_writeBlockElementsLoop rti _ _ _ hb]
    rfl
  · rw [hb]
    rfl

theorem phase_writeElementsSectionLoop (rti : CAEP_RTITEM) (blocks : List PWGM_HBLOCK)
    (g : Nat) (log : Log) (h : phase log = .idle) :
    phase (writeElementsSectionLoop rti blocks g log).2.2 = .idle := by
  induction blocks generalizing g log with
  | nil => exact h
  | cons hBlk rest ih =>
    simp only [writeElementsSectionLoop]
    split
    · exact phase_writeBlockElements rti log hBlk g h
    · exact ih _ _ (phase_writeBlockElements rti log hBlk g h)

theorem phase_writeElementsSection (rti : CAEP_RTITEM) (log : Log) (h : phase log = .idle) :
    phase (writeElementsSection rti log).2 = .idle := by
  have hr : phase (andThen (writeSectionComment rti log (some "Inner element connectivity"))
      (fun l => writeKeyVal rti l "NELEM" (getElemCnt rti))).2 = .idle := by
    rw [phase_andThen _ _ (fun l => phase_writeKeyVal rti l _ _), phase_writeSectionComment, h]
  simp only [writeElementsSection, writeElementsSectionAux]
  split
  · exact phase_writeElementsSectionLoop rti _ _ _ hr
  · exact hr

theorem phase_writeNode (rti : CAEP_RTITEM) (log : Log) (vertex : PWGM_HVERTEX) :
    phase (writeNode rti log vertex).2 = phase log := by
  unfold writeNode
  split
  · simp only []
    split <;> exact phase_fprintf rti log _
  · rfl

theorem phase_writeNodesSectionLoop (rti : CAEP_RTITEM) (vs : List PWGM_HVERTEX) (log : Log) :
    phase (writeNodesSectionLoop rti vs log).2 = phase log := by
  induction vs generalizing log with
  | nil => rfl
  | cons hV rest ih =>
    simp only [writeNodesSectionLoop]
    split
    · exact phase_writeNode rti log hV
    · rw [ih, phase_writeNode]

theorem phase_writeNodesSection (rti : CAEP_RTITEM) (log : Log) (h : phase log = .idle) :
    phase (writeNodesSection rti log).2 = .idle := by
  have hb : phase (caeuProgressBeginStep rti log (PwModVertexCount rti.model)).2 = .inStep := by
    simp only [caeuProgressBeginStep, call, phase_snoc, h]
    rfl
  have hr : phase (andThen (andThen
      (caeuProgressBeginStep rti log (PwModVertexCount rti.model))
      (fun l => writeSectionComment rti l (some "Node coordinates")))
      (fun l => writeKeyVal rti l "NPOIN" (PwModVertexCount rti.model))).2 = .inStep := by
    rw [phase_andThen _ _ (fun l => phase_writeKeyVal rti l _ _),
      phase_andThen _ _ (fun l => phase_writeSectionComment rti l _), hb]
  simp only [writeNodesSection, caeuProgressEndStep, call, phase_snoc]
  split
  · rw [phase_writeNodesSectionLoop, hr]
    rfl
  · rw [hr]
    rfl

theorem phase_writeDomainElementsLoop (rti : CAEP_RTITEM) (es : List PWGM_ELEMDATA)
    (log : Log) (h : phase log = .inStep) :
    phase (writeDomainElementsLoop rti es log).2 = .inStep := by
  induction es generalizing log with
  | nil => exact h
  | cons ed rest ih =>
    have hw : phase (writeElemData rti log ed none).2.2 = .inStep := by
      rw [phase_writeElemData, h]
    have hp : phase (caeuProgressIncr rti (writeElemData rti log ed none).2.2).2
        = .inStep := by
      simp only [caeuProgressIncr, call, phase_snoc, hw]
      rfl
    simp only [writeDomainElementsLoop]
    split
    · exact hw
    · split
      · exact hp
      · exact ih _ hp

theorem phase_writeDomainElementsHead (rti : CAEP_RTITEM) (log : Log) (hDom : PWGM_HDOMAIN)
    (h : phase log = .idle) : phase (writeDomainElementsHead rti log hDom).2 = .inStep := by
  have hb : phase (caeuProgressBeginStep rti log (PwDomElementCount hDom)).2 = .inStep := by
    simp only [caeuProgressBeginStep, call, phase_snoc, h]
    rfl
  simp only [writeDomainElementsHead]
  split
  · split
    · rw [phase_andThen _ _ (fun l => phase_writeKeyVal rti l _ _), phase_writeKeyValStr, hb]
    · exact hb
  · exact hb

theorem phase_writeDomainElements (rti : CAEP_RTITEM) (log : Log) (hDom : PWGM_HDOMAIN)
    (h : phase log = .idle) : phase (writeDomainElements rti log hDom).2 = .idle := by
  have hr := phase_writeDomainElementsHead rti log hDom h
  simp only [writeDomainElements, caeuProgressEndStep, call, phase_snoc]
  split
  · rw [phase_writeDomainElementsLoop rti _ _ hr]
    rfl
  · rw [hr]
    rfl

theorem phase_writeBoundariesSectionLoop (rti : CAEP_RTITEM) (ds : List PWGM_HDOMAIN)
    (log : Log) (h : phase log = .idle) :
    phase (writeBoundariesSectionLoop rti ds log).2 = .idle := by
  induction ds generalizing log with
  | nil => exact h
  | cons hDom rest ih =>
    simp only [writeBoundariesSectionLoop]
    split
    · exact phase_writeDomainElements rti log hDom h
    · exact ih _ (phase_writeDomainElements rti log hDom h)

theorem phase_writeBoundariesSection (rti : CAEP_RTITEM) (log : Log) (h : phase log = .idle) :
    phase (writeBoundariesSection rti log).2 = .idle := by
  have hr : phase (andThen (writeSectionComment rti log (some "Boundary elements"))
      (fun l => writeKeyVal rti l "NMARK" (PwModDomainCount rti.model))).2 = .idle := by
    rw [phase_andThen _ _ (fun l => phase_writeKeyVal rti l _ _), phase_writeSectionComment, h]
  simp only [writeBoundariesSection]
  split
  · exact phase_writeBoundariesSectionLoop rti _ _ hr
  · exact hr

theorem phase_writeDimensionSection (rti : CAEP_RTITEM) (log : Log) :
    phase (writeDimensionSection rti log).2 = phase log := by
  simp only [writeDimensionSection]
  rw [phase_andThen _ _ (fun l => phase_writeKeyVal rti l _ _), phase_writeSectionComment]

theorem phase_runtimeWrite (rti : CAEP_RTITEM) : phase (runtimeWrite rti []).2 = .ended := by
  have h0 : phase (caeuProgressInit rti [] (numMajorSteps rti)).2 = .idle := rfl
  have h1 := phase_andThen_idle _ (writeDimensionSection rti) h0
    (fun l hl => by rw [phase_writeDimensionSection, hl])
  have h2 := phase_andThen_idle _ (writeElementsSection rti) h1
    (fun l hl => phase_writeElementsSection rti l hl)
  have h3 := phase_andThen_idle _ (writeNodesSection rti) h2
    (fun l hl => phase_writeNodesSection rti l hl)
  have h4 := phase_andThen_idle _ (writeBoundariesSection rti) h3
    (fun l hl => phase_writeBoundariesSection rti l hl)
  simp only [runtimeWrite, runtimeWriteSteps, caeuProgressEnd, phase_snoc, h4]
  rfl

/-- C8: for every model and every behaviour of the stream and of the
progress reporter, the progress calls of `runtimeWrite` are one
`caeuProgressInit`, then zero or more groups of a `caeuProgressBeginStep`,
any number of `caeuProgressIncr` and the matching `caeuProgressEndStep`, then
exactly one `caeuProgressEnd`, which is the last call of the export and is
passed the value `runtimeWrite` returns. -/
theorem runtimeWrite_progress_bracketing (rti : CAEP_RTITEM) :
    phase (runtimeWrite rti []).2 = .ended ∧
    (runtimeWrite rti []).2.getLast? = some (.caeuProgressEnd (runtimeWrite rti []).1) :=
  ⟨phase_runtimeWrite rti, by simp [runtimeWrite, caeuProgressEnd]⟩

theorem foldl_step_bad (l : Log) : l.foldl Phase.step .bad = .bad := by
  induction l with
  | nil => rfl
  | cons e rest ih =>
    rw [List.foldl_cons]
    cases e <;> exact ih

theorem ended_count (l : Log) (p : Phase) (h : l.foldl Phase.step p = .ended) :
    (p = .ended ∧ l.countP Event.isProgressEnd = 0) ∨
    (p ≠ .ended ∧ l.countP Event.isProgressEnd = 1) := by
  induction l generalizing p with
  | nil => exact Or.inl ⟨h, rfl⟩
  | cons e rest ih =>
    rw [List.foldl_cons] at h
    have hbad : p.step e ≠ .bad := by
      intro hb
      rw [hb, foldl_step_bad] at h
      cases h
    rcases ih _ h with ⟨h1, h2⟩ | ⟨h1, h2⟩ <;>
      cases p <;> cases e <;>
      simp_all [Phase.step, List.countP_cons, Event.isProgressEnd]

theorem count_progressEnd (rti : CAEP_RTITEM) :
    (runtimeWrite rti []).2.countP Event.isProgressEnd = 1 := by
  rcases ended_count _ _ (phase_runtimeWrite rti) with ⟨h1, _⟩ | ⟨_, h2⟩
  · cases h1
  · exact h2

/-! ### Cancellation -/

theorem stops_append (a b : Log) : stops (a ++ b) = stops a + stops b := by
  simp [stops]

theorem incrs_append (a b : Log) : incrs (a ++ b) = incrs a + incrs b := by
  simp [incrs]

theorem elemWrites_append (a b : Log) : elemWrites (a ++ b) = elemWrites a + elemWrites b := by
  simp [elemWrites]

theorem stops_le_incrs (ev : Log) : stops ev ≤ incrs ev := by
  apply List.countP_mono_left
  intro e _ he
  cases e <;> simp_all [Event.isStop, Event.isIncr]

theorem quiet_stops {k : Nat} {ev : List Event} (h : Quiet k ev) : stops ev = 0 := by
  have := stops_le_incrs ev
  have := h.1
  omega

theorem quiet_append {a b : Nat} {e1 e2 : List Event} (h1 : Quiet a e1) (h2 : Quiet b e2) :
    Quiet (a + b) (e1 ++ e2) := by
  refine ⟨?_, ?_⟩
  · rw [incrs_append, h1.1, h2.1]
  · rw [elemWrites_append, h1.2, h2.2]

theorem quiet_nil : Quiet 0 [] := ⟨rfl, rfl⟩

theorem quiet_andThen (r : Bool × Log) (f : Log → Bool × Log) (log : Log) (a : Nat)
    (hr : ∃ ev, r.2 = log ++ ev ∧ Quiet a ev)
    (hf : ∀ l, ∃ ev, (f l).2 = l ++ ev ∧ Quiet 0 ev) :
    ∃ ev, (andThen r f).2 = log ++ ev ∧ Quiet a ev := by
  obtain ⟨ev1, h1, q1⟩ := hr
  unfold andThen
  split
  · obtain ⟨ev2, h2, q2⟩ := hf r.2
    exact ⟨ev1 ++ ev2, by rw [h2, h1, List.append_assoc], quiet_append q1 q2⟩
  · exact ⟨ev1, h1, q1⟩

theorem quiet_fprintf (rti : CAEP_RTITEM) (log : Log) (out : List Directive)
    (hout : ∀ a, (Event.fprintf out a).isElemWrite = false) :
    ∃ ev, (fprintf rti log out).2 = log ++ ev ∧ Quiet 0 ev :=
  ⟨_, rfl, by simp [Quiet, incrs, elemWrites, Event.isIncr, hout]⟩

theorem quiet_writeComment (rti : CAEP_RTITEM) (txt : Option String) (log : Log) :
    ∃ ev, (writeComment rti log txt).2 = log ++ ev ∧ Quiet 0 ev :=
  quiet_fprintf rti log _ (fun _ => rfl)

theorem quiet_writeSectionComment (rti : CAEP_RTITEM) (txt : Option String) (log : Log) :
    ∃ ev, (writeSectionComment rti log txt).2 = log ++ ev ∧ Quiet 0 ev :=
  quiet_andThen _ _ log 0
    (quiet_andThen _ _ log 0 (quiet_writeComment rti none log) (quiet_writeComment rti txt))
    (quiet_writeComment rti none)

theorem quiet_writeKeyVal (rti : CAEP_RTITEM) (key : String) (val : Nat) (log : Log) :
    ∃ ev, (writeKeyVal rti log key val).2 = log ++ ev ∧ Quiet 0 ev :=
  quiet_fprintf rti log _ (fun _ => rfl)

theorem quiet_writeKeyValStr (rti : CAEP_RTITEM) (key val : String) (log : Log) :
    ∃ ev, (writeKeyValStr rti log key val).2 = log ++ ev ∧ Quiet 0 ev :=
  quiet_fprintf rti log _ (fun _ => rfl)

theorem quiet_writeVertIndices (rti : CAEP_RTITEM) (ed : PWGM_ELEMDATA) (inds : List Nat)
    (r : Bool × Log) :
    ∃ ev, (writeVertIndices rti ed inds r).2 = r.2 ++ ev ∧ Quiet 0 ev := by
  induction inds generalizing r with
  | nil => exact ⟨[], by simp [writeVertIndices], quiet_nil⟩
  | cons ii rest ih =>
    simp only [writeVertIndices]
    split
    · obtain ⟨ev1, h1, q1⟩ := quiet_fprintf rti r.2 [.lit " ", .lu 4 (ed.index ii)]
        (fun _ => rfl)
      obtain ⟨ev2, h2, q2⟩ := ih (fprintf rti r.2 [.lit " ", .lu 4 (ed.index ii)])
      exact ⟨ev1 ++ ev2, by rw [h2, h1, List.append_assoc], quiet_append q1 q2⟩
    · exact ⟨[], by simp, quiet_nil⟩

theorem quiet_writeElemBody (rti : CAEP_RTITEM) (log : Log) (ed : PWGM_ELEMDATA) :
    ∃ ev, (writeElemBody rti log ed).2 = log ++ ev ∧ Quiet 1 ev := by
  have one : ∀ out : List Directive, (∀ a, (Event.fprintf out a).isElemWrite = true) →
      ∃ ev, (fprintf rti log out).2 = log ++ ev ∧ Quiet 1 ev :=
    fun out hout => ⟨_, rfl, by simp [Quiet, incrs, elemWrites, Event.isIncr, hout]⟩
  unfold writeElemBody
  cases pw2SuType ed.type
  case SU2_ELEMTYPE_INVALID =>
    simp only []
    obtain ⟨ev1, h1, q1⟩ := one [.i 2 SU2_ELEMTYPE.SU2_ELEMTYPE_INVALID.code, .lit " "]
      (fun _ => rfl)
    obtain ⟨ev2, h2, q2⟩ := quiet_writeVertIndices rti ed (List.range ed.vertCnt)
      (fprintf rti log [.i 2 SU2_ELEMTYPE.SU2_ELEMTYPE_INVALID.code, .lit " "])
    exact ⟨ev1 ++ ev2, by rw [h2, h1, List.append_assoc], quiet_append q1 q2⟩
  all_goals exact one _ (fun _ => rfl)

theorem quiet_single (e : Event) (hi : e.isIncr = false) (he : e.isElemWrite = false) :
    Quiet 0 [e] := by
  simp [Quiet, incrs, elemWrites, hi, he]

theorem quiet_writeElemData (rti : CAEP_RTITEM) (log : Log) (ed : PWGM_ELEMDATA)
    (globNdx : Option Nat) :
    ∃ ev, (writeElemData rti log ed globNdx).2.2 = log ++ ev ∧ Quiet 1 ev := by
  obtain ⟨ev1, h1, q1⟩ := quiet_writeElemBody rti log ed
  unfold writeElemData
  simp only []
  split
  · cases globNdx with
    | none =>
      refine ⟨ev1 ++ [.fputs "\n" (rti.answers (writeElemBody rti log ed).2.length)], ?_, ?_⟩
      · simp only [fputs, call, h1, List.append_assoc]
      · exact quiet_append q1 (quiet_single (.fputs "\n" _) rfl rfl)
    | some g =>
      refine ⟨ev1 ++ [.fprintf [.lit " ", .lu 4 g, .lit "\n"]
          (rti.answers (writeElemBody rti log ed).2.length)], ?_, ?_⟩
      · simp only [fprintf, call, h1, List.append_assoc]
      · exact quiet_append q1 (quiet_single (.fprintf [.lit " ", .lu 4 g, .lit "\n"] _) rfl rfl)
  · exact ⟨ev1, h1, q1⟩

theorem counts_incr (a : Bool) :
    incrs [Event.caeuProgressIncr a] = 1 ∧ elemWrites [Event.caeuProgressIncr a] = 0 ∧
      stops [Event.caeuProgressIncr true] = 0 := by
  cases a <;> simp [incrs, elemWrites, stops, Event.isIncr, Event.isElemWrite, Event.isStop]

theorem shape_writeBlockElementsLoop (rti : CAEP_RTITEM) (es : List PWGM_ELEMDATA)
    (g : Nat) (log : Log) :
    ∃ ev, (writeBlockElementsLoop rti es g log).2.2 = log ++ ev ∧
      elemWrites ev = incrs ev ∧ incrs ev ≤ es.length ∧
      ((writeBlockElementsLoop rti es g log).1 = true →
        incrs ev = es.length ∧ stops ev = 0) ∧
      ((writeBlockElementsLoop rti es g log).1 = false →
        ∃ pre, ev = pre ++ [Event.caeuProgressIncr false] ∧ stops pre = 0) := by
  induction es generalizing g log with
  | nil =>
    exact ⟨[], by simp [writeBlockElementsLoop], rfl, Nat.le_refl _,
      fun _ => ⟨rfl, rfl⟩, fun h => by simp [writeBlockElementsLoop] at h⟩
  | cons ed rest ih =>
    obtain ⟨ev1, h1, q1⟩ := quiet_writeElemData rti log ed (some g)
    simp only [writeBlockElementsLoop, caeuProgressIncr, call, h1]
    cases ha : rti.answers (log ++ ev1).length
    · refine ⟨ev1 ++ [Event.caeuProgressIncr false], by simp, ?_, ?_, ?_, ?_⟩
      · rw [elemWrites_append, incrs_append, q1.1, q1.2, (counts_incr false).1,
          (counts_incr false).2.1]
      · rw [incrs_append, q1.1, (counts_incr false).1]
        simp
      · intro h
        simp at h
      · intro _
        exact ⟨ev1, rfl, (quiet_stops q1)⟩
    · obtain ⟨ev2, h2, hb, hle, hok, hstop⟩ :=
        ih ((writeElemData rti log ed (some g)).2.1.getD g)
          (log ++ ev1 ++ [Event.caeuProgressIncr true])
      have hcnt : incrs (ev1 ++ [Event.caeuProgressIncr true] ++ ev2) = incrs ev2 + 1 := by
        rw [incrs_append, incrs_append, q1.1, (counts_incr true).1]
        omega
      refine ⟨ev1 ++ [Event.caeuProgressIncr true] ++ ev2, ?_, ?_, ?_, ?_, ?_⟩
      · simp only [Bool.not_true, Bool.false_eq_true, if_false, h2]
        simp only [List.append_assoc]
      · rw [hcnt, elemWrites_append, elemWrites_append, q1.2, (counts_incr true).2.1, hb]
        omega
      · rw [hcnt, List.length_cons]
        omega
      · intro h
        simp only [Bool.not_true, Bool.false_eq_true, if_false] at h
        obtain ⟨hn, hs⟩ := hok h
        refine ⟨by rw [hcnt, hn, List.length_cons], ?_⟩
        rw [stops_append, stops_append, (quiet_stops q1), (counts_incr true).2.2, hs]
      · intro h
        simp only [Bool.not_true, Bool.false_eq_true, if_false] at h
        obtain ⟨pre, hpre, hs⟩ := hstop h
        refine ⟨ev1 ++ [Event.caeuProgressIncr true] ++ pre,
          by rw [hpre]; simp only [List.append_assoc], ?_⟩
        rw [stops_append, stops_append, (quiet_stops q1), (counts_incr true).2.2, hs]

theorem stopShape_of_quiet {k : Nat} {ev : List Event} (ok : Bool) (q : Quiet k ev) :
    StopShape ok ev := fun h => absurd (quiet_stops q) h

theorem stopShape_prepend {k : Nat} {ok : Bool} {e0 ev : List Event} (q : Quiet k e0)
    (h : StopShape ok ev) : StopShape ok (e0 ++ ev) := by
  intro hs
  rw [stops_append, (quiet_stops q), Nat.zero_add] at hs
  obtain ⟨hok, pre, b, hpre, hz⟩ := h hs
  refine ⟨hok, e0 ++ pre, b, by rw [hpre, List.append_assoc], ?_⟩
  rw [stops_append, (quiet_stops q), hz]

theorem stopShape_prepend_clean {ok : Bool} {e0 ev : List Event} (h0 : stops e0 = 0)
    (h : StopShape ok ev) : StopShape ok (e0 ++ ev) := by
  intro hs
  rw [stops_append, h0, Nat.zero_add] at hs
  obtain ⟨hok, pre, b, hpre, hz⟩ := h hs
  refine ⟨hok, e0 ++ pre, b, by rw [hpre, List.append_assoc], ?_⟩
  rw [stops_append, h0, hz]

theorem volShape_stops_eq_zero {n : Nat} {ev : List Event} (h : VolShape n true ev) :
    stops ev = 0 := by
  by_contra hs
  have := (h.2.2.2 hs).1
  simp at this

theorem volShape_of_quiet (n : Nat) {ev : List Event} (q : Quiet 0 ev) :
    VolShape n false ev :=
  ⟨by rw [q.1, q.2], by rw [q.1]; exact Nat.zero_le _, fun h => by simp at h,
    stopShape_of_quiet false q⟩

theorem volShape_prepend {n : Nat} {ok : Bool} {e0 ev : List Event} (q : Quiet 0 e0)
    (h : VolShape n ok ev) : VolShape n ok (e0 ++ ev) := by
  obtain ⟨hb, hle, hok, hst⟩ := h
  refine ⟨?_, ?_, ?_, stopShape_prepend q hst⟩
  · rw [elemWrites_append, incrs_append, q.1, q.2, hb]
  · rw [incrs_append, q.1, Nat.zero_add]
    exact hle
  · intro h
    rw [incrs_append, q.1, Nat.zero_add]
    exact hok h

theorem shape_writeBlockElements (rti : CAEP_RTITEM) (log : Log) (hBlk : PWGM_HBLOCK)
    (g : Nat) :
    ∃ ev, (writeBlockElements rti log hBlk g).2.2 = log ++ ev ∧
      VolShape hBlk.elems.length (writeBlockElements rti log hBlk g).1 ev := by
  have qb : ∀ a, Quiet 0 [Event.caeuProgressBeginStep (PwBlkElementCount hBlk) a] :=
    fun a => quiet_single _ rfl rfl
  have qe : ∀ a, Quiet 0 [Event.caeuProgressEndStep a] := fun a => quiet_single _ rfl rfl
  simp only [writeBlockElements, caeuProgressBeginStep, caeuProgressEndStep, call]
  cases ha : rti.answers log.length
  · refine ⟨[Event.caeuProgressBeginStep (PwBlkElementCount hBlk) false] ++
      [Event.caeuProgressEndStep (rti.answers (log.length + 1))], by simp, ?_⟩
    simp only [Bool.false_eq_true, if_false, Bool.and_false]
    exact volShape_of_quiet _ (quiet_append (qb false) (qe _))
  · obtain ⟨ev, h1, hb, hle, hok, hstop⟩ := shape_writeBlockElementsLoop rti hBlk.elems g
      (log ++ [Event.caeuProgressBeginStep (PwBlkElementCount hBlk) true])
    simp only [if_true]
    refine ⟨[Event.caeuProgressBeginStep (PwBlkElementCount hBlk) true] ++
      (ev ++ [Event.caeuProgressEndStep (rti.answers
        (log ++ [Event.caeuProgressBeginStep (PwBlkElementCount hBlk) true] ++ ev).length)]),
      by rw [h1]; simp only [List.append_assoc], ?_⟩
    apply volShape_prepend (qb true)
    refine ⟨?_, ?_, ?_, ?_⟩
    · rw [elemWrites_append, incrs_append, (qe _).1, (qe _).2, hb]
    · rw [incrs_append, (qe _).1]
      exact hle
    · intro h
      rw [incrs_append, (qe _).1]
      simp only [Bool.and_eq_true] at h
      exact (hok h.2).1
    · intro hs
      rw [stops_append, (quiet_stops (qe _)), Nat.add_zero] at hs
      cases hl : (writeBlockElementsLoop rti hBlk.elems g
          (log ++ [Event.caeuProgressBeginStep (PwBlkElementCount hBlk) true])).1
      · obtain ⟨pre, hpre, hz⟩ := hstop hl
        exact ⟨by simp, pre, _, by rw [hpre, List.append_assoc]; rfl, hz⟩
      · exact absurd (hok hl).2 hs

theorem shape_writeElementsSectionLoop (rti : CAEP_RTITEM) (blocks : List PWGM_HBLOCK)
    (g : Nat) (log : Log) :
    ∃ ev, (writeElementsSectionLoop rti blocks g log).2.2 = log ++ ev ∧
      VolShape (allElems blocks).length (writeElementsSectionLoop rti blocks g log).1 ev := by
  induction blocks generalizing g log with
  | nil =>
    exact ⟨[], by simp [writeElementsSectionLoop], rfl, Nat.le_refl _, fun _ => rfl,
      stopShape_of_quiet _ quiet_nil⟩
  | cons hBlk rest ih =>
    obtain ⟨ev1, h1, hb1, hle1, hok1, hst1⟩ := shape_writeBlockElements rti log hBlk g
    simp only [writeElementsSectionLoop, allElems, List.length_append]
    cases hr : (writeBlockElements rti log hBlk g).1
    · rw [hr] at hok1 hst1
      simp only [Bool.not_false, if_true]
      exact ⟨ev1, h1, hb1, Nat.le_trans hle1 (Nat.le_add_right _ _), fun h => by simp at h,
        hst1⟩
    · rw [hr] at hok1 hst1
      have hstops1 : stops ev1 = 0 := volShape_stops_eq_zero ⟨hb1, hle1, hok1, hst1⟩
      simp only [Bool.not_true, Bool.false_eq_true, if_false]
      obtain ⟨ev2, h2, hb2, hle2, hok2, hst2⟩ :=
        ih (writeBlockElements rti log hBlk g).2.1 (writeBlockElements rti log hBlk g).2.2
      refine ⟨ev1 ++ ev2, by rw [h2, h1, List.append_assoc], ?_, ?_, ?_, ?_⟩
      · rw [elemWrites_append, incrs_append, hb1, hb2]
      · rw [incrs_append, hok1 rfl]
        omega
      · intro h
        rw [incrs_append, hok1 rfl, hok2 h]
      · exact stopShape_prepend_clean hstops1 hst2

theorem shape_writeElementsSection (rti : CAEP_RTITEM) (log : Log) :
    ∃ ev, (writeElementsSection rti log).2 = log ++ ev ∧
      VolShape (allElems rti.model.blocks).length (writeElementsSection rti log).1 ev := by
  obtain ⟨ev0, h0, q0⟩ := quiet_andThen
    (writeSectionComment rti log (some "Inner element connectivity"))
    (fun l => writeKeyVal rti l "NELEM" (getElemCnt rti)) log 0
    (quiet_writeSectionComment rti _ log) (quiet_writeKeyVal rti _ _)
  simp only [writeElementsSection, writeElementsSectionAux]
  split
  · obtain ⟨ev, h1, hv⟩ := shape_writeElementsSectionLoop rti rti.model.blocks 0
      (andThen (writeSectionComment rti log (some "Inner element connectivity"))
        (fun l => writeKeyVal rti l "NELEM" (getElemCnt rti))).2
    exact ⟨ev0 ++ ev, by rw [h1, h0, List.append_assoc], volShape_prepend q0 hv⟩
  · rename_i hf
    simp only [Bool.not_eq_true] at hf
    rw [hf]
    exact ⟨ev0, h0, volShape_of_quiet _ q0⟩

theorem shape_writeDomainElementsLoop (rti : CAEP_RTITEM) (es : List PWGM_ELEMDATA)
    (log : Log) :
    ∃ ev, (writeDomainElementsLoop rti es log).2 = log ++ ev ∧
      (stops ev ≠ 0 → (writeDomainElementsLoop rti es log).1 = false ∧
        ∃ pre, ev = pre ++ [Event.caeuProgressIncr false] ∧ stops pre = 0) := by
  induction es generalizing log with
  | nil => exact ⟨[], by simp [writeDomainElementsLoop], fun h => absurd rfl h⟩
  | cons ed rest ih =>
    obtain ⟨ev1, h1, q1⟩ := quiet_writeElemData rti log ed none
    simp only [writeDomainElementsLoop]
    split
    · exact ⟨ev1, h1, fun h => absurd (quiet_stops q1) h⟩
    · simp only [caeuProgressIncr, call, h1]
      cases ha : rti.answers (log ++ ev1).length
      · simp only [Bool.not_false, if_true]
        exact ⟨ev1 ++ [Event.caeuProgressIncr false], by simp,
          fun _ => ⟨trivial, ev1, rfl, (quiet_stops q1)⟩⟩
      · simp only [Bool.not_true, Bool.false_eq_true, if_false]
        obtain ⟨ev2, h2, hst⟩ := ih (log ++ ev1 ++ [Event.caeuProgressIncr true])
        have hs0 : stops (ev1 ++ [Event.caeuProgressIncr true]) = 0 := by
          rw [stops_append, (quiet_stops q1), (counts_incr true).2.2]
        refine ⟨ev1 ++ [Event.caeuProgressIncr true] ++ ev2,
          by rw [h2]; simp only [List.append_assoc], ?_⟩
        intro hs
        rw [stops_append, hs0, Nat.zero_add] at hs
        obtain ⟨hf, pre, hpre, hz⟩ := hst hs
        refine ⟨hf, ev1 ++ [Event.caeuProgressIncr true] ++ pre,
          by rw [hpre]; simp only [List.append_assoc], ?_⟩
        rw [stops_append, hs0, hz]

theorem quiet_call (rti : CAEP_RTITEM) (log : Log) (mk : Bool → Event)
    (hi : ∀ a, (mk a).isIncr = false) (he : ∀ a, (mk a).isElemWrite = false) :
    ∃ ev, (call rti log mk).2 = log ++ ev ∧ Quiet 0 ev :=
  ⟨_, rfl, quiet_single _ (hi _) (he _)⟩

theorem quiet_writeDomainElementsHead (rti : CAEP_RTITEM) (log : Log) (hDom : PWGM_HDOMAIN) :
    ∃ ev, (writeDomainElementsHead rti log hDom).2 = log ++ ev ∧ Quiet 0 ev := by
  have hb : ∃ ev, (caeuProgressBeginStep rti log (PwDomElementCount hDom)).2 = log ++ ev ∧
      Quiet 0 ev := quiet_call rti log _ (fun _ => rfl) (fun _ => rfl)
  simp only [writeDomainElementsHead]
  split
  · split
    · obtain ⟨ev0, h0, q0⟩ := hb
      obtain ⟨ev1, h1, q1⟩ := quiet_andThen
        (writeKeyValStr rti (caeuProgressBeginStep rti log (PwDomElementCount hDom)).2
          "MARKER_TAG" _)
        (fun l => writeKeyVal rti l "MARKER_ELEMS" (PwDomElementCount hDom)) _ 0
        (quiet_writeKeyValStr rti _ _ _) (quiet_writeKeyVal rti _ _)
      exact ⟨ev0 ++ ev1, by rw [h1, h0, List.append_assoc], quiet_append q0 q1⟩
    · exact hb
  · exact hb

theorem shape_writeDomainElements (rti : CAEP_RTITEM) (log : Log) (hDom : PWGM_HDOMAIN) :
    ∃ ev, (writeDomainElements rti log hDom).2 = log ++ ev ∧
      StopShape (writeDomainElements rti log hDom).1 ev := by
  obtain ⟨ev0, h0, q0⟩ := quiet_writeDomainElementsHead rti log hDom
  have qe : ∀ a, Quiet 0 [Event.caeuProgressEndStep a] := fun a => quiet_single _ rfl rfl
  simp only [writeDomainElements, caeuProgressEndStep, call]
  split
  · obtain ⟨ev1, h1, hst⟩ := shape_writeDomainElementsLoop rti hDom.elems
      (writeDomainElementsHead rti log hDom).2
    refine ⟨ev0 ++ (ev1 ++ [Event.caeuProgressEndStep (rti.answers
      (writeDomainElementsLoop rti hDom.elems
        (writeDomainElementsHead rti log hDom).2).2.length)]),
      by rw [h1, h0]; simp only [List.append_assoc], ?_⟩
    apply stopShape_prepend q0
    intro hs
    rw [stops_append, (quiet_stops (qe _)), Nat.add_zero] at hs
    obtain ⟨hf, pre, hpre, hz⟩ := hst hs
    exact ⟨by rw [hf, Bool.and_false], pre, _, by rw [hpre, List.append_assoc]; rfl, hz⟩
  · exact ⟨ev0 ++ [Event.caeuProgressEndStep (rti.answers
      (writeDomainElementsHead rti log hDom).2.length)], by rw [h0, List.append_assoc],
      stopShape_of_quiet _ (quiet_append q0 (qe _))⟩

theorem shape_writeBoundariesSectionLoop (rti : CAEP_RTITEM) (ds : List PWGM_HDOMAIN)
    (log : Log) :
    ∃ ev, (writeBoundariesSectionLoop rti ds log).2 = log ++ ev ∧
      StopShape (writeBoundariesSectionLoop rti ds log).1 ev := by
  induction ds generalizing log with
  | nil => exact ⟨[], by simp [writeBoundariesSectionLoop], stopShape_of_quiet _ quiet_nil⟩
  | cons hDom rest ih =>
    obtain ⟨ev1, h1, hst1⟩ := shape_writeDomainElements rti log hDom
    simp only [writeBoundariesSectionLoop]
    cases hr : (writeDomainElements rti log hDom).1
    · rw [hr] at hst1
      simp only [Bool.not_false, if_true]
      exact ⟨ev1, h1, hst1⟩
    · rw [hr] at hst1
      have hs1 : stops ev1 = 0 := by
        by_contra hs
        have := (hst1 hs).1
        simp at this
      simp only [Bool.not_true, Bool.false_eq_true, if_false]
      obtain ⟨ev2, h2, hst2⟩ := ih (writeDomainElements rti log hDom).2
      exact ⟨ev1 ++ ev2, by rw [h2, h1, List.append_assoc], stopShape_prepend_clean hs1 hst2⟩

theorem shape_writeBoundariesSection (rti : CAEP_RTITEM) (log : Log) :
    ∃ ev, (writeBoundariesSection rti log).2 = log ++ ev ∧
      StopShape (writeBoundariesSection rti log).1 ev := by
  obtain ⟨ev0, h0, q0⟩ := quiet_andThen
    (writeSectionComment rti log (some "Boundary elements"))
    (fun l => writeKeyVal rti l "NMARK" (PwModDomainCount rti.model)) log 0
    (quiet_writeSectionComment rti _ log) (quiet_writeKeyVal rti _ _)
  simp only [writeBoundariesSection]
  split
  · obtain ⟨ev, h1, hv⟩ := shape_writeBoundariesSectionLoop rti rti.model.domains
      (andThen (writeSectionComment rti log (some "Boundary elements"))
        (fun l => writeKeyVal rti l "NMARK" (PwModDomainCount rti.model))).2
    exact ⟨ev0 ++ ev, by rw [h1, h0, List.append_assoc], stopShape_prepend q0 hv⟩
  · exact ⟨ev0, h0, stopShape_of_quiet _ q0⟩

theorem quiet_writeNode (rti : CAEP_RTITEM) (vertex : PWGM_HVERTEX) (log : Log) :
    ∃ ev, (writeNode rti log vertex).2 = log ++ ev ∧ Quiet 0 ev := by
  unfold writeNode
  split
  · simp only []
    split <;> exact quiet_fprintf rti log _ (fun _ => rfl)
  · exact ⟨[], by simp, quiet_nil⟩

theorem quiet_writeNodesSectionLoop (rti : CAEP_RTITEM) (vs : List PWGM_HVERTEX) (log : Log) :
    ∃ ev, (writeNodesSectionLoop rti vs log).2 = log ++ ev ∧ Quiet 0 ev := by
  induction vs generalizing log with
  | nil => exact ⟨[], by simp [writeNodesSectionLoop], quiet_nil⟩
  | cons hV rest ih =>
    obtain ⟨ev1, h1, q1⟩ := quiet_writeNode rti hV log
    simp only [writeNodesSectionLoop]
    split
    · exact ⟨ev1, h1, q1⟩
    · obtain ⟨ev2, h2, q2⟩ := ih (writeNode rti log hV).2
      exact ⟨ev1 ++ ev2, by rw [h2, h1, List.append_assoc], quiet_append q1 q2⟩

theorem quiet_writeNodesSection (rti : CAEP_RTITEM) (log : Log) :
    ∃ ev, (writeNodesSection rti log).2 = log ++ ev ∧ Quiet 0 ev := by
  obtain ⟨ev0, h0, q0⟩ := quiet_andThen _
    (fun l => writeKeyVal rti l "NPOIN" (PwModVertexCount rti.model)) log 0
    (quiet_andThen (caeuProgressBeginStep rti log (PwModVertexCount rti.model))
      (fun l => writeSectionComment rti l (some "Node coordinates")) log 0
      (quiet_call rti log _ (fun _ => rfl) (fun _ => rfl))
      (quiet_writeSectionComment rti _))
    (quiet_writeKeyVal rti _ _)
  have qe : ∀ a, Quiet 0 [Event.caeuProgressEndStep a] := fun a => quiet_single _ rfl rfl
  simp only [writeNodesSection, caeuProgressEndStep, call]
  split
  · obtain ⟨ev1, h1, q1⟩ := quiet_writeNodesSectionLoop rti rti.model.vertices
      (andThen (andThen (caeuProgressBeginStep rti log (PwModVertexCount rti.model))
        (fun l => writeSectionComment rti l (some "Node coordinates")))
        (fun l => writeKeyVal rti l "NPOIN" (PwModVertexCount rti.model))).2
    exact ⟨ev0 ++ ev1 ++ [Event.caeuProgressEndStep _],
      by rw [h1, h0]; simp only [List.append_assoc]; rfl, quiet_append (quiet_append q0 q1) (qe _)⟩
  · exact ⟨ev0 ++ [Event.caeuProgressEndStep _], by rw [h0, List.append_assoc],
      quiet_append q0 (qe _)⟩

theorem quiet_writeDimensionSection (rti : CAEP_RTITEM) (log : Log) :
    ∃ ev, (writeDimensionSection rti log).2 = log ++ ev ∧ Quiet 0 ev :=
  quiet_andThen _ _ log 0 (quiet_writeSectionComment rti _ log) (quiet_writeKeyVal rti _ _)

theorem stop_unique (A T pre post : List Event) (hA : stops A = 0) (hT : stops T = 0)
    (h : A ++ Event.caeuProgressIncr false :: T = pre ++ Event.caeuProgressIncr false :: post) :
    pre = A ∧ post = T := by
  induction A generalizing pre with
  | nil =>
    cases pre with
    | nil => exact ⟨rfl, by simpa using h.symm⟩
    | cons e pre2 =>
      simp only [List.nil_append, List.cons_append, List.cons.injEq] at h
      rw [h.2, stops_append] at hT
      simp [stops, Event.isStop] at hT
  | cons a A2 ih =>
    cases pre with
    | nil =>
      simp only [List.nil_append, List.cons_append, List.cons.injEq] at h
      rw [h.1] at hA
      simp [stops, Event.isStop] at hA
    | cons e pre2 =>
      simp only [List.cons_append, List.cons.injEq] at h
      have hA2 : stops A2 = 0 := by
        have : stops ([a] ++ A2) = 0 := hA
        rw [stops_append] at this
        omega
      obtain ⟨h1, h2⟩ := ih pre2 hA2 h.2
      exact ⟨by rw [h1, h.1], h2⟩

theorem andThen_true (r : Bool × Log) (f : Log → Bool × Log) (h : r.1 = true) :
    andThen r f = f r.2 := by
  simp [andThen, h]

theorem andThen_false (r : Bool × Log) (f : Log → Bool × Log) (h : r.1 = false) :
    andThen r f = (false, r.2) := by
  simp [andThen, h]

theorem andThen_fst_true (r : Bool × Log) (f : Log → Bool × Log)
    (h : (andThen r f).1 = true) : r.1 = true := by
  cases hr : r.1
  · rw [andThen_false r f hr] at h
    cases h
  · rfl

theorem shape_runtimeWriteSteps (rti : CAEP_RTITEM) :
    stops (runtimeWriteSteps rti []).2 = 0 ∨
    ((runtimeWriteSteps rti []).1 = false ∧
      ∃ A b, (runtimeWriteSteps rti []).2 =
          A ++ [Event.caeuProgressIncr false, Event.caeuProgressEndStep b] ∧
        stops A = 0 ∧
        ((elemWrites (runtimeWriteSteps rti []).2 = incrs A + 1 ∧
          (runtimeWriteSteps rti []).2 = (writeElementsSection rti (writeDimensionSection rti
            (caeuProgressInit rti [] (numMajorSteps rti)).2).2).2) ∨
         (allElems rti.model.blocks).length ≤ incrs A)) := by
  obtain ⟨evD, hD, qD⟩ := quiet_andThen (caeuProgressInit rti [] (numMajorSteps rti))
    (writeDimensionSection rti) [] 0
    (quiet_call rti [] _ (fun _ => rfl) (fun _ => rfl)) (quiet_writeDimensionSection rti)
  rw [List.nil_append] at hD
  unfold runtimeWriteSteps
  generalize hDdef : andThen (caeuProgressInit rti [] (numMajorSteps rti))
    (writeDimensionSection rti) = D at hD
  cases hD1 : D.1
  · left
    rw [andThen_false D _ hD1, andThen_false _ _ rfl, andThen_false _ _ rfl, hD]
    exact (quiet_stops qD)
  · have hI : (caeuProgressInit rti [] (numMajorSteps rti)).1 = true :=
      andThen_fst_true _ _ (by rw [hDdef]; exact hD1)
    have hDeq : D = writeDimensionSection rti (caeuProgressInit rti [] (numMajorSteps rti)).2 := by
      rw [← hDdef, andThen_true _ _ hI]
    rw [andThen_true D _ hD1]
    obtain ⟨evE, hE, hbE, hleE, hokE, hstE⟩ := shape_writeElementsSection rti D.2
    cases hE1 : (writeElementsSection rti D.2).1
    · rw [andThen_false _ _ hE1, andThen_false _ _ rfl]
      rw [hE1] at hstE
      by_cases hs : stops evE = 0
      · left
        show stops (writeElementsSection rti D.2).2 = 0
        rw [hE, stops_append, hD, (quiet_stops qD), hs]
      · right
        obtain ⟨_, preE, b, hpre, hz⟩ := hstE hs
        refine ⟨rfl, D.2 ++ preE, b, ?_, ?_, Or.inl ⟨?_, ?_⟩⟩
        · show (writeElementsSection rti D.2).2 = _
          rw [hE, hpre, List.append_assoc]
        · rw [stops_append, hD, (quiet_stops qD), hz]
        · show elemWrites (writeElementsSection rti D.2).2 = _
          rw [hE, elemWrites_append, incrs_append, hD, qD.1, qD.2, hbE, hpre, incrs_append]
          simp [incrs, Event.isIncr]
        · show (writeElementsSection rti D.2).2 = _
          rw [hDeq]
    · rw [andThen_true _ _ hE1]
      rw [hE1] at hokE hstE
      have hsE : stops evE = 0 := volShape_stops_eq_zero ⟨hbE, hleE, hokE, hstE⟩
      obtain ⟨evN, hN, qN⟩ := quiet_writeNodesSection rti (writeElementsSection rti D.2).2
      have hsN : stops (writeNodesSection rti (writeElementsSection rti D.2).2).2 = 0 := by
        rw [hN, hE, stops_append, stops_append, hD, (quiet_stops qD), hsE, (quiet_stops qN)]
      cases hN1 : (writeNodesSection rti (writeElementsSection rti D.2).2).1
      · left
        rw [andThen_false _ _ hN1]
        exact hsN
      · rw [andThen_true _ _ hN1]
        obtain ⟨evB, hB, hstB⟩ := shape_writeBoundariesSection rti
          (writeNodesSection rti (writeElementsSection rti D.2).2).2
        by_cases hs : stops evB = 0
        · left
          rw [hB, stops_append, hsN, hs]
        · right
          obtain ⟨hf, preB, b, hpre, hz⟩ := hstB hs
          refine ⟨hf, (writeNodesSection rti (writeElementsSection rti D.2).2).2 ++ preB, b,
            by rw [hB, hpre, List.append_assoc], by rw [stops_append, hsN, hz], Or.inr ?_⟩
          rw [incrs_append, hN, hE, incrs_append, incrs_append, hokE rfl]
          omega

/-- C7: whenever a `caeuProgressIncr` call of the export answers stop,
`runtimeWrite` returns failure, that call is followed by exactly two calls,
the `caeuProgressEndStep` of the step and `caeuProgressEnd` with the failure
flag, no earlier `caeuProgressIncr` answered stop, and `caeuProgressEnd` is
called exactly once; so no element, node or boundary line is written after
the stop, in a block as in a domain.  If the stop is the `k`-th
`caeuProgressIncr` call and `k` is at most the number of volume elements,
exactly `k` element lines were started and the export consists of the calls
up to the end of the element section followed by `caeuProgressEnd`: no node
section and no boundary section is written. -/
theorem runtimeWrite_cancelled (rti : CAEP_RTITEM) (pre post : Log)
    (h : (runtimeWrite rti []).2 = pre ++ Event.caeuProgressIncr false :: post) :
    (runtimeWrite rti []).1 = false ∧
    (∃ b, post = [Event.caeuProgressEndStep b, Event.caeuProgressEnd false]) ∧
    stops pre = 0 ∧
    (runtimeWrite rti []).2.countP Event.isProgressEnd = 1 ∧
    (incrs pre + 1 ≤ (allElems rti.model.blocks).length →
      elemWrites (runtimeWrite rti []).2 = incrs pre + 1 ∧
      (runtimeWrite rti []).2 =
        (writeElementsSection rti (writeDimensionSection rti
          (caeuProgressInit rti [] (numMajorSteps rti)).2).2).2
          ++ [Event.caeuProgressEnd false]) := by
  have hrw : (runtimeWrite rti []).2 = (runtimeWriteSteps rti []).2 ++
      [Event.caeuProgressEnd (runtimeWriteSteps rti []).1] := rfl
  have hres : (runtimeWrite rti []).1 = (runtimeWriteSteps rti []).1 := rfl
  rcases shape_runtimeWriteSteps rti with hs | ⟨hf, A, b, hA, hsA, hcase⟩
  · exfalso
    have h1 : stops (runtimeWrite rti []).2 = 0 := by
      rw [hrw, stops_append, hs]
      rfl
    rw [h, stops_append] at h1
    have h2 : stops (Event.caeuProgressIncr false :: post) = stops post + 1 := by
      simp [stops, List.countP_cons, Event.isStop]
    omega
  · have hlog : (runtimeWrite rti []).2 = A ++ Event.caeuProgressIncr false ::
        [Event.caeuProgressEndStep b, Event.caeuProgressEnd false] := by
      rw [hrw, hA, hf]
      simp
    obtain ⟨hp, hpost⟩ := stop_unique A
      [Event.caeuProgressEndStep b, Event.caeuProgressEnd false] pre post hsA rfl
      (hlog.symm.trans h)
    refine ⟨by rw [hres, hf], ⟨b, hpost⟩, by rw [hp, hsA], count_progressEnd rti, ?_⟩
    intro hk
    rw [hp] at hk
    rcases hcase with ⟨he, hsec⟩ | hge
    · refine ⟨?_, ?_⟩
      · rw [hrw, elemWrites_append, he, hp]
        rfl
      · rw [hrw, hf, ← hsec]
    · omega

/-- C7 at `cancelRti`: the `caeuProgressIncr` after the second volume
element answers stop; the export fails with two element lines started. -/
theorem runtimeWrite_cancelled_witness :
    (runtimeWrite cancelRti []).2 = cancelPre ++ Event.caeuProgressIncr false ::
      [Event.caeuProgressEndStep true, Event.caeuProgressEnd false] ∧
    incrs cancelPre + 1 = 2 ∧
    (runtimeWrite cancelRti []).1 = false ∧
    (runtimeWrite cancelRti []).2.countP Event.isProgressEnd = 1 ∧
    elemWrites (runtimeWrite cancelRti []).2 = incrs cancelPre + 1 :=
  ⟨by decide, by decide,
    (runtimeWrite_cancelled cancelRti cancelPre
      [Event.caeuProgressEndStep true, Event.caeuProgressEnd false] (by decide)).1,
    (runtimeWrite_cancelled cancelRti cancelPre
      [Event.caeuProgressEndStep true, Event.caeuProgressEnd false] (by decide)).2.2.2.1,
    ((runtimeWrite_cancelled cancelRti cancelPre
      [Event.caeuProgressEndStep true, Event.caeuProgressEnd false] (by decide)).2.2.2.2
      (by decide)).1⟩

/-! ### The sections of a run in which every call succeeds -/

theorem writeElemData_none_ok (rti : CAEP_RTITEM) (h : ∀ n, rti.answers n = true)
    (log : Log) (ed : PWGM_ELEMDATA) :
    ∃ ev, writeElemData rti log ed none = (true, none, log ++ ev) ∧
      output ev = encodeBody ed ++ [.lit "\n"] ∧ globalIndices ev = [] := by
  obtain ⟨ev, hev, hout, hgi⟩ := writeElemBody_ok rti h log ed
  refine ⟨ev ++ [.fputs "\n" true], ?_, ?_, ?_⟩
  · simp [writeElemData, hev, fputs, call_ok rti h]
  · simp [output_append, hout, output, Event.written]
  · rw [globalIndices_append, hgi]
    rfl

theorem writeDomainElementsLoop_ok (rti : CAEP_RTITEM) (h : ∀ n, rti.answers n = true)
    (es : List PWGM_ELEMDATA) (log : Log) :
    ∃ ev, writeDomainElementsLoop rti es log = (true, log ++ ev) ∧
      output ev = boundaryLines es ∧ globalIndices ev = [] := by
  induction es generalizing log with
  | nil => exact ⟨[], by simp [writeDomainElementsLoop], rfl, rfl⟩
  | cons ed rest ih =>
    obtain ⟨ev1, h1, ho1, hg1⟩ := writeElemData_none_ok rti h log ed
    obtain ⟨ev2, h2, ho2, hg2⟩ := ih (log ++ ev1 ++ [Event.caeuProgressIncr true])
    refine ⟨ev1 ++ [Event.caeuProgressIncr true] ++ ev2, ?_, ?_, ?_⟩
    · simp only [writeDomainElementsLoop, h1, caeuProgressIncr, call_ok rti h, Bool.not_true,
        Bool.false_eq_true, if_false, h2]
      simp only [List.append_assoc]
    · simp [output_append, ho1, ho2, output, Event.written, boundaryLines]
    · rw [globalIndices_append, globalIndices_append, hg1, hg2]
      rfl

theorem writeDomainElements_ok (rti : CAEP_RTITEM) (h : ∀ n, rti.answers n = true)
    (hDom : PWGM_HDOMAIN) (hc : hDom.cond ≠ none) (log : Log) :
    ∃ ev, writeDomainElements rti log hDom = (true, log ++ ev) ∧
      output ev = markerBlock hDom ∧ globalIndices ev = [] := by
  obtain ⟨condData, hcd⟩ := Option.ne_none_iff_exists'.mp hc
  obtain ⟨ev, h1, ho, hg⟩ := writeDomainElementsLoop_ok rti h hDom.elems
    (log ++ [Event.caeuProgressBeginStep (PwDomElementCount hDom) true,
      Event.fprintf (keyStrLine "MARKER_TAG" condData.name) true,
      Event.fprintf (keyValLine "MARKER_ELEMS" (PwDomElementCount hDom)) true])
  refine ⟨[Event.caeuProgressBeginStep (PwDomElementCount hDom) true,
      Event.fprintf (keyStrLine "MARKER_TAG" condData.name) true,
      Event.fprintf (keyValLine "MARKER_ELEMS" (PwDomElementCount hDom)) true] ++ ev ++
      [Event.caeuProgressEndStep true], ?_, ?_, ?_⟩
  · have hhead : writeDomainElementsHead rti log hDom =
        (true, log ++ [Event.caeuProgressBeginStep (PwDomElementCount hDom) true,
          Event.fprintf (keyStrLine "MARKER_TAG" condData.name) true,
          Event.fprintf (keyValLine "MARKER_ELEMS" (PwDomElementCount hDom)) true]) := by
      simp [writeDomainElementsHead, caeuProgressBeginStep, call_ok rti h, PwDomCondition, hcd,
        andThen, writeKeyValStr, writeKeyVal, fprintf, keyStrLine, keyValLine]
    simp only [writeDomainElements, hhead, if_true, h1, caeuProgressEndStep, call_ok rti h,
      Bool.and_self, List.append_assoc]
  · simp [output_append, ho, output, Event.written, markerBlock, PwDomCondition, hcd]
  · rw [globalIndices_append, globalIndices_append, hg]
    simp [globalIndices, Event.globalIndex, keyStrLine, keyValLine]

theorem writeBoundariesSectionLoop_ok (rti : CAEP_RTITEM) (h : ∀ n, rti.answers n = true)
    (ds : List PWGM_HDOMAIN) (hc : ∀ d ∈ ds, d.cond ≠ none) (log : Log) :
    ∃ ev, writeBoundariesSectionLoop rti ds log = (true, log ++ ev) ∧
      output ev = markerBlocks ds ∧ globalIndices ev = [] := by
  induction ds generalizing log with
  | nil => exact ⟨[], by simp [writeBoundariesSectionLoop], rfl, rfl⟩
  | cons hDom rest ih =>
    obtain ⟨ev1, h1, ho1, hg1⟩ :=
      writeDomainElements_ok rti h hDom (hc hDom (List.mem_cons_self _ _)) log
    obtain ⟨ev2, h2, ho2, hg2⟩ :=
      ih (fun d hd => hc d (List.mem_cons_of_mem _ hd)) (log ++ ev1)
    refine ⟨ev1 ++ ev2, ?_, ?_, ?_⟩
    · simp only [writeBoundariesSectionLoop, h1, Bool.not_true, Bool.false_eq_true, if_false, h2,
        List.append_assoc]
    · simp [output_append, ho1, ho2, markerBlocks]
    · rw [globalIndices_append, hg1, hg2]
      rfl

theorem writeBoundariesSection_ok (rti : CAEP_RTITEM) (h : ∀ n, rti.answers n = true)
    (hc : ∀ d ∈ rti.model.domains, d.cond ≠ none) (log : Log) :
    ∃ body, writeBoundariesSection rti log =
        (true, log ++ sectionHead "Boundary elements" "NMARK" (PwModDomainCount rti.model)
          ++ body) ∧
      output body = markerBlocks rti.model.domains ∧ globalIndices body = [] := by
  obtain ⟨ev, h1, ho, hg⟩ := writeBoundariesSectionLoop_ok rti h rti.model.domains hc
    (log ++ sectionHead "Boundary elements" "NMARK" (PwModDomainCount rti.model))
  refine ⟨ev, ?_, ho, hg⟩
  simp only [sectionHead] at h1
  simp [writeBoundariesSection, writeSectionComment_ok rti h, writeKeyVal_ok rti h, andThen,
    sectionHead, h1]

theorem fieldCount_append (a b : List Directive) :
    fieldCount (a ++ b) = fieldCount a + fieldCount b := by
  simp [fieldCount]

theorem lineCount_boundaryLines (es : List PWGM_ELEMDATA) :
    lineCount (boundaryLines es) = es.length := by
  induction es with
  | nil => rfl
  | cons ed rest ih =>
    simp only [boundaryLines, lineCount_append, lineCount_encodeBody, ih, List.length_cons]
    simp [lineCount]
    omega

/-- C10: in a run of `writeBoundariesSection` in which every call succeeds
and every domain has a condition, the section succeeds and its output is the
banner, the record `NMARK= <domain count>` and then, for each domain in
enumeration order, the record `MARKER_TAG= <condition name>`, the record
`MARKER_ELEMS= <c>` with `c` the element count of the domain, and exactly `c`
boundary element lines in enumeration order.  A boundary element line is the
encoding of its element followed by the newline: it carries no global index
and has one integer field fewer than the line of the same element in the
element section; the section writes no global index, and `writeElemData`
without a counter hands no counter back. -/
theorem boundariesSection_markers (rti : CAEP_RTITEM) (log : Log)
    (hok : ∀ n, rti.answers n = true)
    (hc : ∀ d ∈ rti.model.domains, d.cond ≠ none) :
    (writeBoundariesSection rti log).1 = true ∧
    output (writeBoundariesSection rti log).2 =
      output log ++ banner "Boundary elements" ++
        keyValLine "NMARK" (PwModDomainCount rti.model) ++ markerBlocks rti.model.domains ∧
    globalIndices (writeBoundariesSection rti log).2 = globalIndices log ∧
    (∀ hDom ∈ rti.model.domains,
      lineCount (boundaryLines hDom.elems) = PwDomElementCount hDom) ∧
    (∀ (ed : PWGM_ELEMDATA) (g : Nat),
      fieldCount (encodeBody ed ++ [.lit "\n"]) + 1 =
        fieldCount (encodeBody ed ++ indexEnd g)) ∧
    (∀ (r : CAEP_RTITEM) (l : Log) (ed : PWGM_ELEMDATA),
      (writeElemData r l ed none).2.1 = none) := by
  obtain ⟨body, h1, ho, hg⟩ := writeBoundariesSection_ok rti hok hc log
  refine ⟨by rw [h1], ?_, ?_, ?_, ?_, ?_⟩
  · rw [h1]
    simp only [output_append, output_sectionHead, ho, List.append_assoc]
  · rw [h1]
    simp only [globalIndices_append, globalIndices_sectionHead, hg, List.append_nil]
  · intro hDom _
    exact lineCount_boundaryLines hDom.elems
  · intro ed g
    simp [fieldCount_append, fieldCount, indexEnd, Directive.isIntField]
  · intro r l ed
    unfold writeElemData
    simp only []
    split <;> rfl

/-- C10 holds with its hypotheses at `sampleRti`. -/
theorem boundariesSection_markers_witness :
    (∀ n, sampleRti.answers n = true) ∧
    (∀ d ∈ sampleRti.model.domains, d.cond ≠ none) ∧
    (writeBoundariesSection sampleRti []).1 = true ∧
    output (writeBoundariesSection sampleRti []).2 =
      output [] ++ banner "Boundary elements" ++
        keyValLine "NMARK" (PwModDomainCount sampleRti.model) ++
        markerBlocks sampleRti.model.domains :=
  have hc : ∀ d ∈ sampleRti.model.domains, d.cond ≠ none := by
    intro d hd
    simp only [sampleRti, sampleModel, List.mem_singleton] at hd
    rw [hd]
    exact fun h => Option.noConfusion h
  ⟨fun _ => rfl, hc,
    (boundariesSection_markers sampleRti [] (fun _ => rfl) hc).1,
    (boundariesSection_markers sampleRti [] (fun _ => rfl) hc).2.1⟩

theorem writeNodesSectionLoop_ok (rti : CAEP_RTITEM) (h : ∀ n, rti.answers n = true)
    (vs : List PWGM_HVERTEX) (hv : ∀ v ∈ vs, v.data ≠ none) (log : Log) :
    ∃ ev, writeNodesSectionLoop rti vs log = (true, log ++ ev) ∧
      output ev = nodeLines rti vs := by
  induction vs generalizing log with
  | nil => exact ⟨[], by simp [writeNodesSectionLoop], rfl⟩
  | cons hV rest ih =>
    obtain ⟨vd, hvd⟩ := Option.ne_none_iff_exists'.mp (hv hV (List.mem_cons_self _ _))
    have h1 : writeNode rti log hV = (true, log ++ [Event.fprintf (nodeLine rti vd) true]) := by
      unfold writeNode nodeLine
      simp only [PwVertDataMod, hvd]
      split <;> simp only [fprintf, call_ok rti h]
    obtain ⟨ev2, h2, ho2⟩ := ih (fun v hm => hv v (List.mem_cons_of_mem _ hm))
      (log ++ [Event.fprintf (nodeLine rti vd) true])
    refine ⟨[Event.fprintf (nodeLine rti vd) true] ++ ev2, ?_, ?_⟩
    · simp only [writeNodesSectionLoop, h1, Bool.not_true, Bool.false_eq_true, if_false, h2,
        List.append_assoc]
    · simp [output_append, ho2, output, Event.written, nodeLines, PwVertDataMod, hvd]

theorem writeNodesSection_ok (rti : CAEP_RTITEM) (h : ∀ n, rti.answers n = true)
    (hv : ∀ v ∈ rti.model.vertices, v.data ≠ none) (log : Log) :
    ∃ ev, writeNodesSection rti log = (true, log ++ ev) ∧ output ev = nodesText rti := by
  obtain ⟨ev, h1, ho⟩ := writeNodesSectionLoop_ok rti h rti.model.vertices hv
    (log ++ [Event.caeuProgressBeginStep (PwModVertexCount rti.model) true] ++
      sectionHead "Node coordinates" "NPOIN" (PwModVertexCount rti.model))
  refine ⟨[Event.caeuProgressBeginStep (PwModVertexCount rti.model) true] ++
    sectionHead "Node coordinates" "NPOIN" (PwModVertexCount rti.model) ++ ev ++
    [Event.caeuProgressEndStep true], ?_, ?_⟩
  · simp only [sectionHead, List.append_assoc, List.cons_append, List.nil_append] at h1
    simp [writeNodesSection, caeuProgressBeginStep, caeuProgressEndStep, call_ok rti h,
      writeSectionComment_ok rti h, writeKeyVal_ok rti h, andThen, sectionHead, h1]
  · simp [output_append, output_sectionHead, ho, output, Event.written, nodesText, banner]

theorem writeDimensionSection_ok (rti : CAEP_RTITEM) (h : ∀ n, rti.answers n = true)
    (log : Log) :
    writeDimensionSection rti log =
      (true, log ++ sectionHead "Problem dimension" "NDIME" (su2Dim rti)) := by
  simp [writeDimensionSection, writeSectionComment_ok rti h, writeKeyVal_ok rti h, andThen,
    sectionHead, su2Dim]

theorem runtimeWriteSteps_ok (rti : CAEP_RTITEM) (h : ∀ n, rti.answers n = true)
    (hv : ∀ v ∈ rti.model.vertices, v.data ≠ none)
    (hc : ∀ d ∈ rti.model.domains, d.cond ≠ none) :
    ∃ ev, runtimeWriteSteps rti [] = (true, ev) ∧
      output ev = dimensionText rti ++ elementsText rti ++ nodesText rti ++
        boundariesText rti := by
  obtain ⟨bodyE, hE, hoE, _⟩ := writeElementsSectionAux_ok rti h
    ([Event.caeuProgressInit (numMajorSteps rti) true] ++
      sectionHead "Problem dimension" "NDIME" (su2Dim rti))
  have hE2 : writeElementsSection rti ([Event.caeuProgressInit (numMajorSteps rti) true] ++
      sectionHead "Problem dimension" "NDIME" (su2Dim rti)) =
      (true, [Event.caeuProgressInit (numMajorSteps rti) true] ++
        sectionHead "Problem dimension" "NDIME" (su2Dim rti) ++
        sectionHead "Inner element connectivity" "NELEM" (getElemCnt rti) ++ bodyE) := by
    simp only [writeElementsSection, hE]
  obtain ⟨evN, hN, hoN⟩ := writeNodesSection_ok rti h hv
    ([Event.caeuProgressInit (numMajorSteps rti) true] ++
      sectionHead "Problem dimension" "NDIME" (su2Dim rti) ++
      sectionHead "Inner element connectivity" "NELEM" (getElemCnt rti) ++ bodyE)
  obtain ⟨bodyB, hB, hoB, _⟩ := writeBoundariesSection_ok rti h hc
    ([Event.caeuProgressInit (numMajorSteps rti) true] ++
      sectionHead "Problem dimension" "NDIME" (su2Dim rti) ++
      sectionHead "Inner element connectivity" "NELEM" (getElemCnt rti) ++ bodyE ++ evN)
  refine ⟨[Event.caeuProgressInit (numMajorSteps rti) true] ++
      sectionHead "Problem dimension" "NDIME" (su2Dim rti) ++
      sectionHead "Inner element connectivity" "NELEM" (getElemCnt rti) ++ bodyE ++ evN ++
      sectionHead "Boundary elements" "NMARK" (PwModDomainCount rti.model) ++ bodyB, ?_, ?_⟩
  · simp only [runtimeWriteSteps, andThen, caeuProgressInit, call_ok rti h, List.nil_append,
      writeDimensionSection_ok rti h, hE2, hN, hB, if_true]
  · simp only [output_append, output_sectionHead, hoE, hoN, hoB, dimensionText, elementsText,
      boundariesText, List.append_assoc]
    rfl

/-- C9 (amended): in a run in which every call succeeds and every vertex and
condition lookup succeeds, `runtimeWrite` returns success and its output is
the dimension section, the element section, the node section and the
boundary section in this order, each being its banner of three comment lines,
its header record (`NDIME`, `NELEM`, `NPOIN`, `NMARK`) and its body.  In every
run, a section is started only if `caeuProgressInit` and all sections before
it succeeded: when one of them fails, the export makes no further call but
`caeuProgressEnd` with the failure flag. -/
theorem runtimeWrite_sections (rti : CAEP_RTITEM) :
    ((∀ n, rti.answers n = true) → (∀ v ∈ rti.model.vertices, v.data ≠ none) →
      (∀ d ∈ rti.model.domains, d.cond ≠ none) →
      (runtimeWrite rti []).1 = true ∧
      output (runtimeWrite rti []).2 =
        dimensionText rti ++ elementsText rti ++ nodesText rti ++ boundariesText rti) ∧
    ((caeuProgressInit rti [] (numMajorSteps rti)).1 = false →
      runtimeWrite rti [] = (false, (caeuProgressInit rti [] (numMajorSteps rti)).2 ++
        [Event.caeuProgressEnd false])) ∧
    ((caeuProgressInit rti [] (numMajorSteps rti)).1 = true →
      ((writeDimensionSection rti (caeuProgressInit rti [] (numMajorSteps rti)).2).1 = false →
        runtimeWrite rti [] = (false,
          (writeDimensionSection rti (caeuProgressInit rti [] (numMajorSteps rti)).2).2 ++
            [Event.caeuProgressEnd false])) ∧
      ((writeDimensionSection rti (caeuProgressInit rti [] (numMajorSteps rti)).2).1 = true →
        ((writeElementsSection rti (writeDimensionSection rti
            (caeuProgressInit rti [] (numMajorSteps rti)).2).2).1 = false →
          runtimeWrite rti [] = (false,
            (writeElementsSection rti (writeDimensionSection rti
              (caeuProgressInit rti [] (numMajorSteps rti)).2).2).2 ++
              [Event.caeuProgressEnd false])) ∧
        ((writeElementsSection rti (writeDimensionSection rti
            (caeuProgressInit rti [] (numMajorSteps rti)).2).2).1 = true →
          ((writeNodesSection rti (writeElementsSection rti (writeDimensionSection rti
              (caeuProgressInit rti [] (numMajorSteps rti)).2).2).2).1 = false →
            runtimeWrite rti [] = (false,
              (writeNodesSection rti (writeElementsSection rti (writeDimensionSection rti
                (caeuProgressInit rti [] (numMajorSteps rti)).2).2).2).2 ++
                [Event.caeuProgressEnd false]))))) := by
  refine ⟨?_, ?_, ?_⟩
  · intro hok hv hc
    obtain ⟨ev, h1, ho⟩ := runtimeWriteSteps_ok rti hok hv hc
    simp only [runtimeWrite, h1, caeuProgressEnd, output_append, ho]
    exact ⟨trivial, by simp [output, Event.written]⟩
  · intro hI
    simp only [runtimeWrite, runtimeWriteSteps, andThen, hI, caeuProgressEnd,
      Bool.false_eq_true, if_false]
  · intro hI
    refine ⟨?_, ?_⟩
    · intro hD
      simp only [runtimeWrite, runtimeWriteSteps, andThen, hI, hD, caeuProgressEnd,
        Bool.false_eq_true, if_false, if_true]
    · intro hD
      refine ⟨?_, ?_⟩
      · intro hE
        simp only [runtimeWrite, runtimeWriteSteps, andThen, hI, hD, hE, caeuProgressEnd,
          Bool.false_eq_true, if_false, if_true]
      · intro hE hN
        simp only [runtimeWrite, runtimeWriteSteps, andThen, hI, hD, hE, hN, caeuProgressEnd,
          Bool.false_eq_true, if_false, if_true]

/-- C9 (amended) holds with its hypotheses at `sampleRti`. -/
theorem runtimeWrite_sections_witness :
    (∀ n, sampleRti.answers n = true) ∧
    (∀ v ∈ sampleRti.model.vertices, v.data ≠ none) ∧
    (∀ d ∈ sampleRti.model.domains, d.cond ≠ none) ∧
    (runtimeWrite sampleRti []).1 = true ∧
    output (runtimeWrite sampleRti []).2 =
      dimensionText sampleRti ++ elementsText sampleRti ++ nodesText sampleRti ++
        boundariesText sampleRti :=
  have hv : ∀ v ∈ sampleRti.model.vertices, v.data ≠ none := by
    intro v hm
    simp only [sampleRti, sampleModel, List.mem_cons, List.mem_singleton, List.not_mem_nil,
      or_false] at hm
    rcases hm with hm | hm | hm | hm <;> rw [hm] <;> exact fun h => Option.noConfusion h
  have hc : ∀ d ∈ sampleRti.model.domains, d.cond ≠ none := by
    intro d hd
    simp only [sampleRti, sampleModel, List.mem_singleton] at hd
    rw [hd]
    exact fun h => Option.noConfusion h
  ⟨fun _ => rfl, hv, hc, (runtimeWrite_sections sampleRti).1 (fun _ => rfl) hv hc⟩

/-- C9 (as stated, refuted): for a model whose only vertex has no data, in
the run in which every call succeeds (no write failure, no cancellation),
`runtimeWrite` returns failure and the boundary section is not written. -/
theorem runtimeWrite_fails_on_lookup :
    (∀ n, lostVertexRti.answers n = true) ∧
    (runtimeWrite lostVertexRti []).1 = false ∧
    output (runtimeWrite lostVertexRti []).2 =
      dimensionText lostVertexRti ++ elementsText lostVertexRti ++
        banner "Node coordinates" ++ keyValLine "NPOIN" 1 := by
  refine ⟨fun _ => rfl, ?_, ?_⟩ <;> decide

/-! ### The dimension section and the node section -/

/-- C13: `writeDimensionSection` computes the value 2 for the dimensionality
2D, 3 for 3D and 0 for every other one; it makes at most four writes, the
three comment lines and then the record `NDIME= <value>`, and its result is
the conjunction of the answers of these writes: it does not depend on the
dimensionality. -/
theorem writeDimensionSection_ndime (rti : CAEP_RTITEM) (log : Log) :
    (rti.dimension = .PWP_DIMENSION_2D → su2Dim rti = 2) ∧
    (rti.dimension = .PWP_DIMENSION_3D → su2Dim rti = 3) ∧
    (∀ raw, rti.dimension = .other raw → su2Dim rti = 0) ∧
    (writeDimensionSection rti log).1 =
      (rti.answers log.length && rti.answers (log.length + 1) &&
        rti.answers (log.length + 2) && rti.answers (log.length + 3)) ∧
    (rti.answers log.length = true → rti.answers (log.length + 1) = true →
      rti.answers (log.length + 2) = true →
      (writeDimensionSection rti log).2 =
        log ++ [.fprintf (commentLine none) true,
          .fprintf (commentLine (some "Problem dimension")) true,
          .fprintf (commentLine none) true,
          .fprintf (keyValLine "NDIME" (su2Dim rti)) (rti.answers (log.length + 3))]) ∧
    (∀ d, (writeDimensionSection { rti with dimension := d } log).1 =
      (writeDimensionSection rti log).1) := by
  have hres : ∀ r : CAEP_RTITEM, (writeDimensionSection r log).1 =
      (r.answers log.length && r.answers (log.length + 1) &&
        r.answers (log.length + 2) && r.answers (log.length + 3)) := by
    intro r
    cases h0 : r.answers log.length <;> cases h1 : r.answers (log.length + 1) <;>
      cases h2 : r.answers (log.length + 2) <;>
      simp [writeDimensionSection, writeSectionComment, writeComment, writeKeyVal, andThen,
        fprintf, call, h0, h1, h2]
  refine ⟨?_, ?_, ?_, hres rti, ?_, ?_⟩
  · intro h
    simp [su2Dim, h]
  · intro h
    simp [su2Dim, h]
  · intro raw h
    simp [su2Dim, h]
  · intro h0 h1 h2
    simp [writeDimensionSection, writeSectionComment, writeComment, writeKeyVal, andThen,
      fprintf, call, h0, h1, h2, commentLine, keyValLine, su2Dim]
  · intro d
    rw [hres, hres]

theorem lineCount_nodeLines (rti : CAEP_RTITEM) (vs : List PWGM_HVERTEX)
    (hv : ∀ v ∈ vs, v.data ≠ none) : lineCount (nodeLines rti vs) = vs.length := by
  induction vs with
  | nil => rfl
  | cons hV rest ih =>
    obtain ⟨vd, hvd⟩ := Option.ne_none_iff_exists'.mp (hv hV (List.mem_cons_self _ _))
    have h1 : lineCount (nodeLine rti vd) = 1 := by
      unfold nodeLine
      simp only []
      split <;> simp [lineCount]
    simp only [nodeLines, PwVertDataMod, hvd, lineCount_append, h1,
      ih (fun v hm => hv v (List.mem_cons_of_mem _ hm)), List.length_cons]
    omega

/-- C12 (amended): in a run of `writeNodesSection` in which every call
succeeds (no write failure and no refusal of the progress reporter) and every
vertex lookup succeeds, the output is the banner, the record `NPOIN= <vertex
count>` and one line per vertex in enumeration order.  A vertex line holds
`x`, `y`, `z` when the model is 3D and `x`, `y` otherwise, each with the
precision 8 and the width 16 when the precision of the model is single, 16
and 24 otherwise, followed by the stored index `vd.i` of the vertex. -/
theorem nodesSection_lines (rti : CAEP_RTITEM) (log : Log)
    (hok : ∀ n, rti.answers n = true)
    (hv : ∀ v ∈ rti.model.vertices, v.data ≠ none) :
    (writeNodesSection rti log).1 = true ∧
    output (writeNodesSection rti log).2 =
      output log ++ banner "Node coordinates" ++
        keyValLine "NPOIN" (PwModVertexCount rti.model) ++
        nodeLines rti rti.model.vertices ∧
    lineCount (nodeLines rti rti.model.vertices) = PwModVertexCount rti.model ∧
    (∀ vd : PWGM_VERTDATA,
      nodeLine rti vd =
        if rti.dimension = .PWP_DIMENSION_3D then
          if rti.precision = .PWP_PRECISION_SINGLE then
            [.g 16 8 vd.x, .lit " ", .g 16 8 vd.y, .lit " ", .g 16 8 vd.z, .lit " ",
              .lu 4 vd.i, .lit "\n"]
          else
            [.g 24 16 vd.x, .lit " ", .g 24 16 vd.y, .lit " ", .g 24 16 vd.z, .lit " ",
              .lu 4 vd.i, .lit "\n"]
        else
          if rti.precision = .PWP_PRECISION_SINGLE then
            [.g 16 8 vd.x, .lit " ", .g 16 8 vd.y, .lit " ", .lu 4 vd.i, .lit "\n"]
          else
            [.g 24 16 vd.x, .lit " ", .g 24 16 vd.y, .lit " ", .lu 4 vd.i, .lit "\n"]) := by
  obtain ⟨ev, h1, ho⟩ := writeNodesSection_ok rti hok hv log
  refine ⟨by rw [h1], ?_, lineCount_nodeLines rti _ hv, ?_⟩
  · rw [h1, output_append, ho, nodesText]
    simp only [List.append_assoc]
  · intro vd
    unfold nodeLine CAEPU_RT_DIM_3D CAEPU_RT_PREC_SINGLE
    cases rti.dimension <;> cases rti.precision <;> simp

/-- C12 (amended) holds with its hypotheses at `sampleRti`, whose four
vertices carry the indices 0, 1, 2, 3. -/
theorem nodesSection_lines_witness :
    (∀ n, sampleRti.answers n = true) ∧
    (∀ v ∈ sampleRti.model.vertices, v.data ≠ none) ∧
    (writeNodesSection sampleRti []).1 = true ∧
    output (writeNodesSection sampleRti []).2 =
      output [] ++ banner "Node coordinates" ++
        keyValLine "NPOIN" (PwModVertexCount sampleRti.model) ++
        nodeLines sampleRti sampleRti.model.vertices :=
  have hv : ∀ v ∈ sampleRti.model.vertices, v.data ≠ none := by
    intro v hm
    simp only [sampleRti, sampleModel, List.mem_cons, List.mem_singleton, List.not_mem_nil,
      or_false] at hm
    rcases hm with hm | hm | hm | hm <;> rw [hm] <;> exact fun h => Option.noConfusion h
  ⟨fun _ => rfl, hv, (nodesSection_lines sampleRti [] (fun _ => rfl) hv).1,
    (nodesSection_lines sampleRti [] (fun _ => rfl) hv).2.1⟩

/-- C12 (as stated, refuted): on `sampleModel`, when no write fails and
every vertex lookup succeeds but `caeuProgressBeginStep` answers stop, the
node section writes nothing: no `NPOIN` record and no vertex line. -/
theorem nodesSection_refused_step :
    (∀ v ∈ refusedStepRti.model.vertices, v.data ≠ none) ∧
    (∀ e ∈ (writeNodesSection refusedStepRti []).2, ∀ out, e ≠ Event.fprintf out false) ∧
    (∀ e ∈ (writeNodesSection refusedStepRti []).2, ∀ txt, e ≠ Event.fputs txt false) ∧
    (writeNodesSection refusedStepRti []).2 =
      [.caeuProgressBeginStep 4 false, .caeuProgressEndStep true] ∧
    output (writeNodesSection refusedStepRti []).2 = [] := by
  have hlog : (writeNodesSection refusedStepRti []).2 =
      [.caeuProgressBeginStep 4 false, .caeuProgressEndStep true] := by decide
  refine ⟨?_, ?_, ?_, hlog, ?_⟩
  · intro v hm
    simp only [refusedStepRti, sampleModel, List.mem_cons, List.mem_singleton,
      List.not_mem_nil, or_false] at hm
    rcases hm with hm | hm | hm | hm <;> rw [hm] <;> exact fun h => Option.noConfusion h
  · rw [hlog]
    intro e he out
    simp only [List.mem_cons, List.mem_singleton, List.not_mem_nil, or_false] at he
    rcases he with he | he <;> rw [he] <;> exact fun h => Event.noConfusion h
  · rw [hlog]
    intro e he txt
    simp only [List.mem_cons, List.mem_singleton, List.not_mem_nil, or_false] at he
    rcases he with he | he <;> rw [he] <;> exact fun h => Event.noConfusion h
  · rw [hlog]
    rfl

/-! ### The fallback path and the running counter -/

theorem output_vertIndices (ed : PWGM_ELEMDATA) (inds : List Nat) :
    output (inds.map (fun ii => Event.fprintf [.lit " ", .lu 4 (ed.index ii)] true)) =
      genericIndices (inds.map ed.index) := by
  induction inds with
  | nil => rfl
  | cons ii rest ih => simp [output, Event.written, genericIndices, ih]

theorem encodeBody_fallback (ed : PWGM_ELEMDATA)
    (ht : pw2SuType ed.type = .SU2_ELEMTYPE_INVALID) :
    encodeBody ed = genericLine 0 ((List.range ed.vertCnt).map ed.index) := by
  have hq : ∀ n, quiet.answers n = true := fun _ => rfl
  unfold encodeBody writeElemBody
  rw [ht]
  simp only [fprintf, call_ok quiet hq, writeVertIndices_ok quiet hq, List.nil_append]
  rw [output_append, output_vertIndices]
  rfl

theorem pw2SuType_fallback (t : PWGM_ENUM_ELEMTYPE)
    (ht : t = .PWGM_ELEMTYPE_POINT ∨ ∃ raw, t = .unrecognized raw) :
    pw2SuType t = .SU2_ELEMTYPE_INVALID := by
  rcases ht with h | ⟨raw, h⟩ <;> rw [h] <;> rfl

theorem elemLinesWrap_mem (es : List PWGM_ELEMDATA) (ed : PWGM_ELEMDATA) (hm : ed ∈ es)
    (g : Nat) :
    ∃ pre post k, elemLinesWrap es g = pre ++ (encodeBody ed ++ indexEnd k) ++ post := by
  induction es generalizing g with
  | nil => cases hm
  | cons e rest ih =>
    rcases List.mem_cons.mp hm with h | h
    · subst h
      exact ⟨[], elemLinesWrap rest ((g + 1) % PWP_UINT32_SIZE), g, by simp [elemLinesWrap]⟩
    · obtain ⟨pre, post, k, hk⟩ := ih h ((g + 1) % PWP_UINT32_SIZE)
      exact ⟨encodeBody e ++ indexEnd g ++ pre, post, k, by
        simp only [elemLinesWrap, hk, List.append_assoc]⟩

/-- C15: for an element whose shape is point or unrecognized, in a run in
which every call succeeds, `writeElemData` writes the type code 0 with the
format `"%2i "`, then `index[0]`, ..., `index[vertCnt-1]` in this order, one
write `" %4lu"` each, then the end of the line (with the global index when
there is one), and returns success.  A model with such a volume element is
exported with this line in its output, and `runtimeWrite` returns success. -/
theorem writeElemData_fallback (rti : CAEP_RTITEM) (log : Log) (ed : PWGM_ELEMDATA)
    (hok : ∀ n, rti.answers n = true)
    (ht : ed.type = .PWGM_ELEMTYPE_POINT ∨ ∃ raw, ed.type = .unrecognized raw) :
    (∀ g, writeElemData rti log ed (some g) =
      (true, some ((g + 1) % PWP_UINT32_SIZE),
        log ++ fallbackCalls ed ++ [.fprintf (indexEnd g) true])) ∧
    writeElemData rti log ed none = (true, none, log ++ fallbackCalls ed ++ [.fputs "\n" true]) ∧
    output (fallbackCalls ed) = genericLine 0 ((List.range ed.vertCnt).map ed.index) ∧
    ((∀ v ∈ rti.model.vertices, v.data ≠ none) → (∀ d ∈ rti.model.domains, d.cond ≠ none) →
      ed ∈ allElems rti.model.blocks →
      (runtimeWrite rti []).1 = true ∧
      ∃ pre post k, output (runtimeWrite rti []).2 =
        pre ++ (genericLine 0 ((List.range ed.vertCnt).map ed.index) ++ indexEnd k) ++ post) := by
  have hty := pw2SuType_fallback ed.type ht
  have hbody : writeElemBody rti log ed = (true, log ++ fallbackCalls ed) := by
    unfold writeElemBody
    rw [hty]
    simp only [fprintf, call_ok rti hok, writeVertIndices_ok rti hok, fallbackCalls,
      SU2_ELEMTYPE.code, List.append_assoc, List.singleton_append]
  refine ⟨?_, ?_, ?_, ?_⟩
  · intro g
    simp [writeElemData, hbody, fprintf, call_ok rti hok, indexEnd]
  · simp [writeElemData, hbody, fputs, call_ok rti hok]
  · simp only [fallbackCalls, output, Event.written, output_vertIndices]
    rfl
  · intro hv hc hm
    obtain ⟨ev, h1, ho⟩ := runtimeWriteSteps_ok rti hok hv hc
    obtain ⟨pre, post, k, hk⟩ := elemLinesWrap_mem _ ed hm 0
    refine ⟨by simp only [runtimeWrite, h1], ?_⟩
    refine ⟨dimensionText rti ++ banner "Inner element connectivity" ++
      keyValLine "NELEM" (getElemCnt rti) ++ pre, post ++ nodesText rti ++ boundariesText rti,
      k, ?_⟩
    have hout : output (runtimeWrite rti []).2 = output ev := by
      simp [runtimeWrite, h1, caeuProgressEnd, output_append, output, Event.written]
    rw [hout, ho, elementsText, hk, encodeBody_fallback ed hty]
    simp only [List.append_assoc]

/-- C15 holds with its hypotheses at the point element of `pointRti`. -/
theorem writeElemData_fallback_witness :
    (∀ n, pointRti.answers n = true) ∧
    (point789.type = .PWGM_ELEMTYPE_POINT ∨ ∃ raw, point789.type = .unrecognized raw) ∧
    point789 ∈ allElems pointRti.model.blocks ∧
    writeElemData pointRti [] point789 none =
      (true, none, [] ++ fallbackCalls point789 ++ [.fputs "\n" true]) ∧
    output (fallbackCalls point789) = genericLine 0 [7, 8, 9] ∧
    (runtimeWrite pointRti []).1 = true :=
  have hm : point789 ∈ allElems pointRti.model.blocks := by
    simp [pointRti, allElems]
  ⟨fun _ => rfl, Or.inl rfl, hm,
    (writeElemData_fallback pointRti [] point789 (fun _ => rfl) (Or.inl rfl)).2.1,
    (writeElemData_fallback pointRti [] point789 (fun _ => rfl) (Or.inl rfl)).2.2.1,
    ((writeElemData_fallback pointRti [] point789 (fun _ => rfl) (Or.inl rfl)).2.2.2
      (fun v hv => by simp [pointRti] at hv) (fun d hd => by simp [pointRti] at hd) hm).1⟩

/-- C14 (the code at the failing input): in the export of one block of two
tetrahedra in which only the write of the first element line fails, the
element section runs through the block without cancellation and succeeds,
`getElemCnt` is 2, and the running counter `globElemNdx` ends at 1. -/
theorem globElemNdx_below_count :
    getElemCnt lostLineRti = 2 ∧
    (writeElementsSectionAux lostLineRti
      ([.caeuProgressInit 2 true] ++ sectionHead "Problem dimension" "NDIME" 3)).1 = true ∧
    (writeElementsSectionAux lostLineRti
      ([.caeuProgressInit 2 true] ++ sectionHead "Problem dimension" "NDIME" 3)).2.1 = 1 ∧
    stops (writeElementsSectionAux lostLineRti
      ([.caeuProgressInit 2 true] ++ sectionHead "Problem dimension" "NDIME" 3)).2.2 = 0 ∧
    (writeDimensionSection lostLineRti (caeuProgressInit lostLineRti [] 2).2).2 =
      [.caeuProgressInit 2 true] ++ sectionHead "Problem dimension" "NDIME" 3 := by
  refine ⟨?_, ?_, ?_, ?_, ?_⟩ <;> decide

/-! ### Begin-step calls -/

theorem begins_snoc (log : Log) (e : Event) :
    beginSteps (log ++ [e]) = beginSteps log + (if e.isBeginStep then 1 else 0) := by
  simp [beginSteps, List.countP_append, List.countP_cons]

theorem begins_append (a b : Log) : beginSteps (a ++ b) = beginSteps a + beginSteps b := by
  simp [beginSteps]

theorem begins_fprintf (rti : CAEP_RTITEM) (log : Log) (out : List Directive) :
    beginSteps (fprintf rti log out).2 = beginSteps log := by
  simp [fprintf, call, begins_snoc, Event.isBeginStep]

theorem begins_fputs (rti : CAEP_RTITEM) (log : Log) (txt : String) :
    beginSteps (fputs rti log txt).2 = beginSteps log := by
  simp [fputs, call, begins_snoc, Event.isBeginStep]

theorem begins_andThen (r : Bool × Log) (f : Log → Bool × Log)
    (hf : ∀ l, beginSteps (f l).2 = beginSteps l) :
    beginSteps (andThen r f).2 = beginSteps r.2 := by
  unfold andThen
  split
  · exact hf _
  · rfl

theorem begins_writeSectionComment (rti : CAEP_RTITEM) (log : Log) (txt : Option String) :
    beginSteps (writeSectionComment rti log txt).2 = beginSteps log := by
  have hc : ∀ (t : Option String) (l : Log),
      beginSteps (writeComment rti l t).2 = beginSteps l := fun t l => begins_fprintf rti l _
  unfold writeSectionComment
  rw [begins_andThen _ _ (hc none), begins_andThen _ _ (hc txt)]
  exact hc none log

theorem begins_writeKeyVal (rti : CAEP_RTITEM) (log : Log) (key : String) (val : Nat) :
    beginSteps (writeKeyVal rti log key val).2 = beginSteps log :=
  begins_fprintf rti log _

theorem begins_writeKeyValStr (rti : CAEP_RTITEM) (log : Log) (key val : String) :
    beginSteps (writeKeyValStr rti log key val).2 = beginSteps log :=
  begins_fprintf rti log _

theorem begins_writeVertIndices (rti : CAEP_RTITEM) (ed : PWGM_ELEMDATA) (inds : List Nat)
    (r : Bool × Log) : beginSteps (writeVertIndices rti ed inds r).2 = beginSteps r.2 := by
  induction inds generalizing r with
  | nil => rfl
  | cons ii rest ih =>
    simp only [writeVertIndices]
    split
    · rw [ih, begins_fprintf]
    · rfl

theorem begins_writeElemBody (rti : CAEP_RTITEM) (log : Log) (ed : PWGM_ELEMDATA) :
    beginSteps (writeElemBody rti log ed).2 = beginSteps log := by
  unfold writeElemBody
  cases pw2SuType ed.type <;> simp only [begins_writeVertIndices, begins_fprintf]

theorem begins_writeElemData (rti : CAEP_RTITEM) (log : Log) (ed : PWGM_ELEMDATA)
    (globNdx : Option Nat) :
    beginSteps (writeElemData rti log ed globNdx).2.2 = beginSteps log := by
  unfold writeElemData
  cases globNdx <;> simp only [] <;> split <;>
    simp only [begins_fprintf, begins_fputs, begins_writeElemBody]

theorem begins_writeBlockElementsLoop (rti : CAEP_RTITEM) (es : List PWGM_ELEMDATA)
    (g : Nat) (log : Log) :
    beginSteps (writeBlockElementsLoop rti es g log).2.2 = beginSteps log := by
  induction es generalizing g log with
  | nil => rfl
  | cons ed rest ih =>
    have hp : beginSteps (caeuProgressIncr rti (writeElemData rti log ed (some g)).2.2).2
        = beginSteps log := by
      simp [caeuProgressIncr, call, begins_snoc, begins_writeElemData, Event.isBeginStep]
    simp only [writeBlockElementsLoop]
    split
    · exact hp
    · rw [ih, hp]

theorem begins_writeBlockElements (rti : CAEP_RTITEM) (log : Log) (hBlk : PWGM_HBLOCK)
    (g : Nat) : beginSteps (writeBlockElements rti log hBlk g).2.2 = beginSteps log + 1 := by
  have hb : beginSteps (caeuProgressBeginStep rti log (PwBlkElementCount hBlk)).2
      = beginSteps log + 1 := by
    simp [caeuProgressBeginStep, call, begins_snoc, Event.isBeginStep]
  simp only [writeBlockElements, caeuProgressEndStep, call, begins_snoc]
  split
  · rw [begins_writeBlockElementsLoop, hb]
    rfl
  · rw [hb]
    rfl

theorem begins_writeElementsSectionLoop (rti : CAEP_RTITEM) (h : ∀ n, rti.answers n = true)
    (blocks : List PWGM_HBLOCK) (g : Nat) (log : Log) :
    beginSteps (writeElementsSectionLoop rti blocks g log).2.2 =
      beginSteps log + blocks.length := by
  induction blocks generalizing g log with
  | nil => rfl
  | cons hBlk rest ih =>
    obtain ⟨ev, h1, _, _⟩ := writeBlockElements_ok rti h hBlk g log
    have hcnt := begins_writeBlockElements rti log hBlk g
    simp only [writeElementsSectionLoop]
    rw [h1] at hcnt ⊢
    simp only [Bool.not_true, Bool.false_eq_true, if_false]
    rw [ih, hcnt, List.length_cons]
    omega

theorem begins_sectionHead (txt key : String) (val : Nat) :
    beginSteps (sectionHead txt key val) = 0 := by
  simp [beginSteps, sectionHead, Event.isBeginStep]

theorem begins_writeElementsSection (rti : CAEP_RTITEM) (h : ∀ n, rti.answers n = true)
    (log : Log) :
    beginSteps (writeElementsSection rti log).2 = beginSteps log + rti.model.blocks.length := by
  have hr : andThen (writeSectionComment rti log (some "Inner element connectivity"))
      (fun l => writeKeyVal rti l "NELEM" (getElemCnt rti)) =
      (true, log ++ sectionHead "Inner element connectivity" "NELEM" (getElemCnt rti)) := by
    simp [writeSectionComment_ok rti h, writeKeyVal_ok rti h, andThen, sectionHead]
  simp only [writeElementsSection, writeElementsSectionAux, hr, if_true]
  rw [begins_writeElementsSectionLoop rti h, begins_append, begins_sectionHead]
  rfl

theorem begins_writeNode (rti : CAEP_RTITEM) (log : Log) (vertex : PWGM_HVERTEX) :
    beginSteps (writeNode rti log vertex).2 = beginSteps log := by
  unfold writeNode
  split
  · simp only []
    split <;> exact begins_fprintf rti log _
  · rfl

theorem begins_writeNodesSectionLoop (rti : CAEP_RTITEM) (vs : List PWGM_HVERTEX) (log : Log) :
    beginSteps (writeNodesSectionLoop rti vs log).2 = beginSteps log := by
  induction vs generalizing log with
  | nil => rfl
  | cons hV rest ih =>
    simp only [writeNodesSectionLoop]
    split
    · exact begins_writeNode rti log hV
    · rw [ih, begins_writeNode]

theorem begins_writeNodesSection (rti : CAEP_RTITEM) (log : Log) :
    beginSteps (writeNodesSection rti log).2 = beginSteps log + 1 := by
  have hb : beginSteps (caeuProgressBeginStep rti log (PwModVertexCount rti.model)).2
      = beginSteps log + 1 := by
    simp [caeuProgressBeginStep, call, begins_snoc, Event.isBeginStep]
  have hr : beginSteps (andThen (andThen
      (caeuProgressBeginStep rti log (PwModVertexCount rti.model))
      (fun l => writeSectionComment rti l (some "Node coordinates")))
      (fun l => writeKeyVal rti l "NPOIN" (PwModVertexCount rti.model))).2
      = beginSteps log + 1 := by
    rw [begins_andThen _ _ (fun l => begins_writeKeyVal rti l _ _),
      begins_andThen _ _ (fun l => begins_writeSectionComment rti l _), hb]
  simp only [writeNodesSection, caeuProgressEndStep, call, begins_snoc]
  split
  · rw [begins_writeNodesSectionLoop, hr]
    rfl
  · rw [hr]
    rfl

theorem begins_writeDomainElementsLoop (rti : CAEP_RTITEM) (es : List PWGM_ELEMDATA)
    (log : Log) : beginSteps (writeDomainElementsLoop rti es log).2 = beginSteps log := by
  induction es generalizing log with
  | nil => rfl
  | cons ed rest ih =>
    have hp : beginSteps (caeuProgressIncr rti (writeElemData rti log ed none).2.2).2
        = beginSteps log := by
      simp [caeuProgressIncr, call, begins_snoc, begins_writeElemData, Event.isBeginStep]
    simp only [writeDomainElementsLoop]
    split
    · exact begins_writeElemData rti log ed none
    · split
      · exact hp
      · rw [ih, hp]

theorem begins_writeDomainElementsHead (rti : CAEP_RTITEM) (log : Log) (hDom : PWGM_HDOMAIN) :
    beginSteps (writeDomainElementsHead rti log hDom).2 = beginSteps log + 1 := by
  have hb : beginSteps (caeuProgressBeginStep rti log (PwDomElementCount hDom)).2
      = beginSteps log + 1 := by
    simp [caeuProgressBeginStep, call, begins_snoc, Event.isBeginStep]
  simp only [writeDomainElementsHead]
  split
  · split
    · rw [begins_andThen _ _ (fun l => begins_writeKeyVal rti l _ _), begins_writeKeyValStr, hb]
    · exact hb
  · exact hb

theorem begins_writeDomainElements (rti : CAEP_RTITEM) (log : Log) (hDom : PWGM_HDOMAIN) :
    beginSteps (writeDomainElements rti log hDom).2 = beginSteps log + 1 := by
  have hr := begins_writeDomainElementsHead rti log hDom
  simp only [writeDomainElements, caeuProgressEndStep, call, begins_snoc]
  split
  · rw [begins_writeDomainElementsLoop, hr]
    rfl
  · rw [hr]
    rfl

theorem begins_writeBoundariesSectionLoop (rti : CAEP_RTITEM)
    (h : ∀ n, rti.answers n = true) (ds : List PWGM_HDOMAIN)
    (hc : ∀ d ∈ ds, d.cond ≠ none) (log : Log) :
    beginSteps (writeBoundariesSectionLoop rti ds log).2 = beginSteps log + ds.length := by
  induction ds generalizing log with
  | nil => rfl
  | cons hDom rest ih =>
    obtain ⟨ev, h1, _, _⟩ :=
      writeDomainElements_ok rti h hDom (hc hDom (List.mem_cons_self _ _)) log
    have hcnt := begins_writeDomainElements rti log hDom
    simp only [writeBoundariesSectionLoop]
    rw [h1] at hcnt ⊢
    simp only [Bool.not_true, Bool.false_eq_true, if_false]
    rw [ih (fun d hd => hc d (List.mem_cons_of_mem _ hd)), hcnt, List.length_cons]
    omega

theorem begins_writeBoundariesSection (rti : CAEP_RTITEM) (h : ∀ n, rti.answers n = true)
    (hc : ∀ d ∈ rti.model.domains, d.cond ≠ none) (log : Log) :
    beginSteps (writeBoundariesSection rti log).2 =
      beginSteps log + rti.model.domains.length := by
  have hr : andThen (writeSectionComment rti log (some "Boundary elements"))
      (fun l => writeKeyVal rti l "NMARK" (PwModDomainCount rti.model)) =
      (true, log ++ sectionHead "Boundary elements" "NMARK" (PwModDomainCount rti.model)) := by
    simp [writeSectionComment_ok rti h, writeKeyVal_ok rti h, andThen, sectionHead]
  simp only [writeBoundariesSection, hr, if_true]
  rw [begins_writeBoundariesSectionLoop rti h _ hc, begins_append, begins_sectionHead]
  rfl

theorem begins_writeDimensionSection (rti : CAEP_RTITEM) (log : Log) :
    beginSteps (writeDimensionSection rti log).2 = beginSteps log := by
  simp only [writeDimensionSection]
  rw [begins_andThen _ _ (fun l => begins_writeKeyVal rti l _ _), begins_writeSectionComment]

theorem runtimeWrite_stages (rti : CAEP_RTITEM) (hok : ∀ n, rti.answers n = true)
    (hv : ∀ v ∈ rti.model.vertices, v.data ≠ none)
    (hc : ∀ d ∈ rti.model.domains, d.cond ≠ none) :
    runtimeWrite rti [] = (true, afterBoundaries rti ++ [Event.caeuProgressEnd true]) ∧
    caeuProgressInit rti [] (numMajorSteps rti) =
      (true, [Event.caeuProgressInit (numMajorSteps rti) true]) := by
  have hI : caeuProgressInit rti [] (numMajorSteps rti) =
      (true, [Event.caeuProgressInit (numMajorSteps rti) true]) := by
    simp [caeuProgressInit, call_ok rti hok]
  have hD1 : ∀ l, (writeDimensionSection rti l).1 = true := fun l => by
    rw [writeDimensionSection_ok rti hok]
  have hE1 : ∀ l, (writeElementsSection rti l).1 = true := fun l => by
    obtain ⟨body, h1, _, _⟩ := writeElementsSectionAux_ok rti hok l
    simp only [writeElementsSection, h1]
  have hN1 : ∀ l, (writeNodesSection rti l).1 = true := fun l => by
    obtain ⟨ev, h1, _⟩ := writeNodesSection_ok rti hok hv l
    rw [h1]
  have hB1 : ∀ l, (writeBoundariesSection rti l).1 = true := fun l => by
    obtain ⟨ev, h1, _, _⟩ := writeBoundariesSection_ok rti hok hc l
    rw [h1]
  refine ⟨?_, hI⟩
  have hsteps : runtimeWriteSteps rti [] = writeBoundariesSection rti (afterNodes rti) := by
    unfold runtimeWriteSteps afterNodes afterElements afterDimension
    rw [andThen_true (caeuProgressInit rti [] (numMajorSteps rti)) _ (by rw [hI]),
      andThen_true _ _ (hD1 _), andThen_true _ _ (hE1 _), andThen_true _ _ (hN1 _)]
  simp only [runtimeWrite, hsteps, hB1, caeuProgressEnd, afterBoundaries]

theorem begins_runtimeWrite (rti : CAEP_RTITEM) (hok : ∀ n, rti.answers n = true)
    (hc : ∀ d ∈ rti.model.domains, d.cond ≠ none) :
    beginSteps (afterDimension rti) = 0 ∧
    beginSteps (afterElements rti) = rti.model.blocks.length ∧
    beginSteps (afterNodes rti) = rti.model.blocks.length + 1 ∧
    beginSteps (afterBoundaries rti) =
      rti.model.blocks.length + 1 + rti.model.domains.length := by
  have h0 : beginSteps (afterDimension rti) = 0 := by
    rw [afterDimension, begins_writeDimensionSection]
    simp [caeuProgressInit, call, beginSteps, Event.isBeginStep]
  have h1 : beginSteps (afterElements rti) = rti.model.blocks.length := by
    rw [afterElements, begins_writeElementsSection rti hok, h0, Nat.zero_add]
  have h2 : beginSteps (afterNodes rti) = rti.model.blocks.length + 1 := by
    rw [afterNodes, begins_writeNodesSection, h1]
  exact ⟨h0, h1, h2, by rw [afterBoundaries, begins_writeBoundariesSection rti hok hc, h2]⟩

/-- C16 (amended): in a run in which every call and every lookup succeeds,
for a model whose block count plus domain count plus 1 is below `2^32`,
`runtimeWrite` succeeds, passes this sum to `caeuProgressInit` as its first
call, and makes exactly that many `caeuProgressBeginStep` calls: none in the
dimension section, one per block in the element section, one in the node
section and one per domain in the boundary section. -/
theorem runtimeWrite_beginSteps (rti : CAEP_RTITEM) (hok : ∀ n, rti.answers n = true)
    (hv : ∀ v ∈ rti.model.vertices, v.data ≠ none)
    (hc : ∀ d ∈ rti.model.domains, d.cond ≠ none)
    (hsmall : PwModBlockCount rti.model + PwModDomainCount rti.model + 1 < PWP_UINT32_SIZE) :
    (runtimeWrite rti []).1 = true ∧
    (runtimeWrite rti []).2.head? = some (Event.caeuProgressInit
      (PwModBlockCount rti.model + PwModDomainCount rti.model + 1) true) ∧
    beginSteps (runtimeWrite rti []).2 =
      PwModBlockCount rti.model + PwModDomainCount rti.model + 1 ∧
    (runtimeWrite rti []).2 = afterBoundaries rti ++ [Event.caeuProgressEnd true] ∧
    beginSteps (afterDimension rti) = 0 ∧
    beginSteps (afterElements rti) = PwModBlockCount rti.model ∧
    beginSteps (afterNodes rti) = PwModBlockCount rti.model + 1 ∧
    beginSteps (afterBoundaries rti) =
      PwModBlockCount rti.model + 1 + PwModDomainCount rti.model := by
  obtain ⟨hrun, hI⟩ := runtimeWrite_stages rti hok hv hc
  obtain ⟨h0, h1, h2, h3⟩ := begins_runtimeWrite rti hok hc
  have hn : numMajorSteps rti =
      PwModBlockCount rti.model + PwModDomainCount rti.model + 1 :=
    Nat.mod_eq_of_lt hsmall
  refine ⟨by rw [hrun], ?_, ?_, by rw [hrun], h0, h1, h2, h3⟩
  · obtain ⟨ev, hev, _⟩ := quiet_writeDimensionSection rti
      (caeuProgressInit rti [] (numMajorSteps rti)).2
    obtain ⟨ev2, hev2, _⟩ := shape_writeElementsSection rti (afterDimension rti)
    obtain ⟨ev3, hev3, _⟩ := quiet_writeNodesSection rti (afterElements rti)
    obtain ⟨ev4, hev4, _⟩ := shape_writeBoundariesSection rti (afterNodes rti)
    rw [hrun, afterBoundaries, hev4, afterNodes, hev3, afterElements, hev2, afterDimension, hev,
      hI, ← hn]
    rfl
  · have he : beginSteps [Event.caeuProgressEnd true] = 0 := rfl
    rw [hrun, begins_append, h3, he]
    simp only [PwModBlockCount, PwModDomainCount]
    omega

/-- C16 (amended) holds with its hypotheses at `sampleRti`: three blocks,
one domain, five steps. -/
theorem runtimeWrite_beginSteps_witness :
    (∀ n, sampleRti.answers n = true) ∧
    (∀ v ∈ sampleRti.model.vertices, v.data ≠ none) ∧
    (∀ d ∈ sampleRti.model.domains, d.cond ≠ none) ∧
    PwModBlockCount sampleRti.model + PwModDomainCount sampleRti.model + 1
      < PWP_UINT32_SIZE ∧
    (runtimeWrite sampleRti []).1 = true ∧
    beginSteps (runtimeWrite sampleRti []).2 =
      PwModBlockCount sampleRti.model + PwModDomainCount sampleRti.model + 1 :=
  have hv : ∀ v ∈ sampleRti.model.vertices, v.data ≠ none := by
    intro v hm
    simp only [sampleRti, sampleModel, List.mem_cons, List.mem_singleton, List.not_mem_nil,
      or_false] at hm
    rcases hm with hm | hm | hm | hm <;> rw [hm] <;> exact fun h => Option.noConfusion h
  have hc : ∀ d ∈ sampleRti.model.domains, d.cond ≠ none := by
    intro d hd
    simp only [sampleRti, sampleModel, List.mem_singleton] at hd
    rw [hd]
    exact fun h => Option.noConfusion h
  ⟨fun _ => rfl, hv, hc, by decide,
    (runtimeWrite_beginSteps sampleRti (fun _ => rfl) hv hc (by decide)).1,
    (runtimeWrite_beginSteps sampleRti (fun _ => rfl) hv hc (by decide)).2.2.1⟩

theorem begins_wrap (rti : CAEP_RTITEM) (hok : ∀ n, rti.answers n = true)
    (hv : ∀ v ∈ rti.model.vertices, v.data ≠ none)
    (hc : ∀ d ∈ rti.model.domains, d.cond ≠ none) (n : Nat)
    (hb : rti.model.blocks.length = n) (hd : rti.model.domains.length = 0)
    (hn : n + 1 = PWP_UINT32_SIZE) :
    numMajorSteps rti = 0 ∧ beginSteps (runtimeWrite rti []).2 = n + 1 := by
  obtain ⟨hrun, _⟩ := runtimeWrite_stages rti hok hv hc
  obtain ⟨_, _, _, h3⟩ := begins_runtimeWrite rti hok hc
  refine ⟨?_, ?_⟩
  · simp only [numMajorSteps, PwModBlockCount, PwModDomainCount, hb, hd, Nat.add_zero, hn,
      Nat.mod_self]
  · have he : beginSteps [Event.caeuProgressEnd true] = 0 := rfl
    rw [hrun, begins_append, h3, hb, hd, he]

/-- C16 (as stated, refuted): for the model of `2^32 - 1` empty blocks, in
the run in which every call succeeds, `runtimeWrite` passes the unit count 0
to `caeuProgressInit` and makes `2^32` `caeuProgressBeginStep` calls. -/
theorem runtimeWrite_beginSteps_wrap :
    (∀ n, manyBlocksRti.answers n = true) ∧
    PwModBlockCount manyBlocksRti.model = 4294967295 ∧
    PwModDomainCount manyBlocksRti.model = 0 ∧
    numMajorSteps manyBlocksRti = 0 ∧
    beginSteps (runtimeWrite manyBlocksRti []).2 = 4294967296 ∧
    beginSteps (runtimeWrite manyBlocksRti []).2 ≠ numMajorSteps manyBlocksRti := by
  have hb : manyBlocksRti.model.blocks.length = 4294967295 :=
    List.length_replicate 4294967295 _
  have hw := begins_wrap manyBlocksRti (fun _ => rfl)
    (fun v hv => by cases hv) (fun d hd => by cases hd) 4294967295 hb rfl rfl
  refine ⟨fun _ => rfl, hb, rfl, hw.1, hw.2, ?_⟩
  rw [hw.1, hw.2]
  decide

/-! ### The text of element lines -/

theorem render_append (fmtG : Nat → Nat → PWGM_XYZVAL → List Char) (a b : List Directive) :
    render fmtG (a ++ b) = render fmtG a ++ render fmtG b := by
  induction a with
  | nil => rfl
  | cons d rest ih => simp [render, ih]

theorem render_genericIndices (fmtG : Nat → Nat → PWGM_XYZVAL → List Char)
    (inds : List Nat) : render fmtG (genericIndices inds) = fieldsText inds := by
  induction inds with
  | nil => rfl
  | cons v rest ih =>
    simp only [genericIndices, render, Directive.text, fieldsText, ih]
    rfl

theorem render_genericLine (fmtG : Nat → Nat → PWGM_XYZVAL → List Char) (c : Nat)
    (inds : List Nat) :
    render fmtG (genericLine c inds) = padLeft 2 (decimal c) ++ ' ' :: fieldsText inds := by
  simp only [genericLine, render, Directive.text, render_genericIndices]
  rfl

theorem render_intersperse (fmtG : Nat → Nat → PWGM_XYZVAL → List Char) (v : Nat)
    (vs : List Nat) :
    ' ' :: render fmtG (((v :: vs).map (Directive.lu 4)).intersperse (.lit " ")) =
      fieldsText (v :: vs) := by
  induction vs generalizing v with
  | nil => simp [render, Directive.text, fieldsText]
  | cons w rest ih =>
    have := ih w
    simp only [List.map_cons, List.intersperse_cons_cons, render, Directive.text, fieldsText]
      at this ⊢
    rw [← this]
    rfl

theorem render_canonicalLine (fmtG : Nat → Nat → PWGM_XYZVAL → List Char) (c v : Nat)
    (vs : List Nat) :
    render fmtG (canonicalLine c (v :: vs)) =
      padLeft 2 (decimal c) ++ ' ' :: fieldsText (v :: vs) := by
  rw [← render_intersperse fmtG]
  simp only [canonicalLine, render, Directive.text]
  rfl

theorem encodeBody_eq (ed : PWGM_ELEMDATA) :
    encodeBody ed =
      if pw2SuType ed.type = .SU2_ELEMTYPE_INVALID then genericLine 0 (emittedIndices ed)
      else canonicalLine (pw2SuType ed.type).code (emittedIndices ed) := by
  by_cases ht : pw2SuType ed.type = .SU2_ELEMTYPE_INVALID
  · rw [if_pos ht, encodeBody_fallback ed ht, emittedIndices, ht]
  · rw [if_neg ht]
    unfold encodeBody writeElemBody emittedIndices
    cases h : pw2SuType ed.type <;> first | exact absurd h ht | rfl

/-- C17: the text the `default` branch of `writeElemData` writes for a type
code and a non-empty list of indices (`"%2i "`, then `" %4lu"` per index) is
character for character the text of the single `fprintf` of a canonical
branch for the same code and indices (`"%2i  %4lu %4lu ..."`); so the text of
every element is the one the generic path gives for its type code and the
indices it emits, which are the first 2, 3, 4, 4, 5, 8 entries of the index
array for the canonical shapes and the entries 3, 4, 5, 0, 1, 2 for a
wedge. -/
theorem fast_path_same_text (fmtG : Nat → Nat → PWGM_XYZVAL → List Char) :
    (∀ (c v : Nat) (vs : List Nat),
      render fmtG (genericLine c (v :: vs)) = render fmtG (canonicalLine c (v :: vs))) ∧
    (∀ ed : PWGM_ELEMDATA,
      render fmtG (encodeBody ed) =
        render fmtG (genericLine (pw2SuType ed.type).code (emittedIndices ed))) ∧
    (∀ (n : Nat) (index : Nat → Nat),
      emittedIndices { type := .PWGM_ELEMTYPE_BAR, vertCnt := n, index := index } =
        (List.range 2).map index ∧
      emittedIndices { type := .PWGM_ELEMTYPE_TRI, vertCnt := n, index := index } =
        (List.range 3).map index ∧
      emittedIndices { type := .PWGM_ELEMTYPE_QUAD, vertCnt := n, index := index } =
        (List.range 4).map index ∧
      emittedIndices { type := .PWGM_ELEMTYPE_TET, vertCnt := n, index := index } =
        (List.range 4).map index ∧
      emittedIndices { type := .PWGM_ELEMTYPE_PYRAMID, vertCnt := n, index := index } =
        (List.range 5).map index ∧
      emittedIndices { type := .PWGM_ELEMTYPE_HEX, vertCnt := n, index := index } =
        (List.range 8).map index ∧
      emittedIndices { type := .PWGM_ELEMTYPE_WEDGE, vertCnt := n, index := index } =
        [index 3, index 4, index 5, index 0, index 1, index 2]) := by
  refine ⟨?_, ?_, ?_⟩
  · intro c v vs
    rw [render_genericLine, render_canonicalLine]
  · intro ed
    rw [encodeBody_eq]
    split
    · rename_i ht
      rw [ht]
      rfl
    · rename_i ht
      have hne : ∃ v vs, emittedIndices ed = v :: vs := by
        unfold emittedIndices
        cases h : pw2SuType ed.type <;> first | exact absurd h ht | exact ⟨_, _, rfl⟩
      obtain ⟨v, vs, hv⟩ := hne
      rw [hv, render_genericLine, render_canonicalLine]
  · intro n index
    refine ⟨?_, ?_, ?_, ?_, ?_, ?_, ?_⟩ <;> rfl

theorem digitChar_ne (k : Nat) (hk : k < 10) :
    Nat.digitChar k ≠ ' ' ∧ Nat.digitChar k ≠ '\n' := by
  interval_cases k <;> exact ⟨by decide, by decide⟩

theorem toDigitsCore_mem (fuel n : Nat) (acc : List Char) (c : Char)
    (h : c ∈ Nat.toDigitsCore 10 fuel n acc) :
    c ∈ acc ∨ ∃ k, k < 10 ∧ c = Nat.digitChar k := by
  induction fuel generalizing n acc with
  | zero => exact Or.inl h
  | succ fuel ih =>
    simp only [Nat.toDigitsCore] at h
    split at h
    · rcases List.mem_cons.mp h with h | h
      · exact Or.inr ⟨_, Nat.mod_lt _ (by decide), h⟩
      · exact Or.inl h
    · rcases ih _ _ h with h | h
      · rcases List.mem_cons.mp h with h | h
        · exact Or.inr ⟨_, Nat.mod_lt _ (by decide), h⟩
        · exact Or.inl h
      · exact Or.inr h

theorem toDigitsCore_ne_nil (fuel n : Nat) (acc : List Char) (h : acc ≠ []) :
    Nat.toDigitsCore 10 fuel n acc ≠ [] := by
  induction fuel generalizing n acc with
  | zero => exact h
  | succ fuel ih =>
    simp only [Nat.toDigitsCore]
    split
    · exact List.cons_ne_nil _ _
    · exact ih _ _ (List.cons_ne_nil _ _)

theorem decimal_ne_nil (v : Nat) : decimal v ≠ [] := by
  unfold decimal Nat.toDigits
  simp only [Nat.toDigitsCore]
  split
  · exact List.cons_ne_nil _ _
  · exact toDigitsCore_ne_nil _ _ _ (List.cons_ne_nil _ _)

theorem decimal_mem (v : Nat) (c : Char) (h : c ∈ decimal v) : c ≠ ' ' ∧ c ≠ '\n' := by
  rcases toDigitsCore_mem _ _ _ _ h with h | ⟨k, hk, h⟩
  · cases h
  · rw [h]
    exact digitChar_ne k hk

theorem tokensAux_word (w cur r : List Char) (hw : ∀ c ∈ w, c ≠ ' ') :
    tokensAux cur (w ++ r) = tokensAux (w.reverse ++ cur) r := by
  induction w generalizing cur with
  | nil => rfl
  | cons c rest ih =>
    have hc : c ≠ ' ' := hw c (List.mem_cons_self _ _)
    rw [List.cons_append, tokensAux, if_neg hc,
      ih _ (fun d hd => hw d (List.mem_cons_of_mem _ hd))]
    simp

theorem tokensAux_space (r : List Char) : tokensAux [] (' ' :: r) = tokensAux [] r := by
  rw [tokensAux, if_pos rfl, if_pos rfl]

theorem tokensAux_spaces (k : Nat) (r : List Char) :
    tokensAux [] (List.replicate k ' ' ++ r) = tokensAux [] r := by
  induction k with
  | zero => rfl
  | succ k ih => rw [List.replicate_succ, List.cons_append, tokensAux_space, ih]

theorem tokensAux_field (v : Nat) (r : List Char) :
    tokensAux [] (' ' :: (padLeft 4 (decimal v) ++ r)) = tokensAux (decimal v).reverse r := by
  rw [tokensAux_space, padLeft, List.append_assoc, tokensAux_spaces,
    tokensAux_word _ _ _ (fun c hc => (decimal_mem v c hc).1), List.append_nil]

theorem tokensAux_close (w r : List Char) (hw : w ≠ []) :
    tokensAux w.reverse (' ' :: r) = w :: tokensAux [] r := by
  have hr : w.reverse ≠ [] := by simpa using hw
  rw [tokensAux, if_pos rfl, if_neg hr, List.reverse_reverse]

theorem tokensAux_end (w : List Char) (hw : w ≠ []) : tokensAux w.reverse [] = [w] := by
  have hr : w.reverse ≠ [] := by simpa using hw
  rw [tokensAux, if_neg hr, List.reverse_reverse]

theorem tokensAux_fields (inds : List Nat) (w : List Char) (hw : w ≠ []) :
    tokensAux w.reverse (fieldsText inds) = w :: inds.map decimal := by
  induction inds generalizing w with
  | nil => exact tokensAux_end w hw
  | cons v rest ih =>
    rw [fieldsText, List.cons_append, tokensAux_close _ _ hw,
      ← tokensAux_space, tokensAux_field, ih _ (decimal_ne_nil v), List.map_cons]

theorem tokens_line (c : Nat) (inds : List Nat) :
    tokens (padLeft 2 (decimal c) ++ ' ' :: fieldsText inds) =
      decimal c :: inds.map decimal := by
  unfold tokens
  rw [padLeft, List.append_assoc, tokensAux_spaces,
    tokensAux_word _ _ _ (fun d hd => (decimal_mem c d hd).1), List.append_nil,
    tokensAux_close _ _ (decimal_ne_nil c)]
  cases inds with
  | nil => rfl
  | cons v rest =>
    rw [fieldsText, List.cons_append, tokensAux_field,
      tokensAux_fields _ _ (decimal_ne_nil v), List.map_cons]

theorem fieldsText_append (a b : List Nat) :
    fieldsText (a ++ b) = fieldsText a ++ fieldsText b := by
  induction a with
  | nil => rfl
  | cons v rest ih => simp [fieldsText, ih]

theorem padLeft_no_newline (w v : Nat) : '\n' ∉ padLeft w (decimal v) := by
  intro h
  rcases List.mem_append.mp h with h | h
  · have := List.eq_of_mem_replicate h
    exact absurd this (by decide)
  · exact (decimal_mem v _ h).2 rfl

theorem fieldsText_no_newline (inds : List Nat) : '\n' ∉ fieldsText inds := by
  induction inds with
  | nil => simp [fieldsText]
  | cons v rest ih =>
    intro h
    rw [fieldsText, List.cons_append] at h
    rcases List.mem_cons.mp h with h | h
    · exact absurd h (by decide)
    · rcases List.mem_append.mp h with h | h
      · exact padLeft_no_newline 4 v h
      · exact ih h

theorem render_lineEnd (fmtG : Nat → Nat → PWGM_XYZVAL → List Char) (g : Option Nat) :
    render fmtG (lineEndDirectives g) = fieldsText g.toList ++ ['\n'] := by
  cases g with
  | none => rfl
  | some k =>
    simp only [lineEndDirectives, indexEnd, render, Directive.text, Option.toList, fieldsText,
      List.append_nil]
    rfl

theorem render_encodeBody (fmtG : Nat → Nat → PWGM_XYZVAL → List Char) (ed : PWGM_ELEMDATA) :
    render fmtG (encodeBody ed) =
      padLeft 2 (decimal (pw2SuType ed.type).code) ++ ' ' :: fieldsText (emittedIndices ed) := by
  rw [encodeBody_eq]
  split
  · rename_i ht
    rw [render_genericLine, ht]
    rfl
  · rename_i ht
    have hne : ∃ v vs, emittedIndices ed = v :: vs := by
      unfold emittedIndices
      cases h : pw2SuType ed.type <;> first | exact absurd h ht | exact ⟨_, _, rfl⟩
    obtain ⟨v, vs, hv⟩ := hne
    rw [hv, render_canonicalLine]

theorem output_writeElemData (rti : CAEP_RTITEM) (hok : ∀ n, rti.answers n = true)
    (log : Log) (ed : PWGM_ELEMDATA) (g : Option Nat) :
    output (writeElemData rti log ed g).2.2 =
      output log ++ encodeBody ed ++ lineEndDirectives g := by
  cases g with
  | none =>
    obtain ⟨ev, h1, ho, _⟩ := writeElemData_none_ok rti hok log ed
    rw [h1, output_append, ho, lineEndDirectives, List.append_assoc]
  | some k =>
    obtain ⟨ev, h1, ho, _⟩ := writeElemData_ok rti hok log ed k
    rw [h1, output_append, ho, lineEndDirectives, List.append_assoc]

/-- C18: for every element, canonical, wedge or fallback, whatever the
values of its indices and of the optional global index, the line
`writeElemData` writes when its writes succeed is a text without newline
followed by one newline, and that text, split on runs of spaces, is exactly
the decimal numeral of the type code, then those of the vertex indices in the
order they are emitted, then that of the global index when there is one: the
width 4 is a minimum and no field is truncated or merged. -/
theorem elemLine_decodes (fmtG : Nat → Nat → PWGM_XYZVAL → List Char) (rti : CAEP_RTITEM)
    (log : Log) (ed : PWGM_ELEMDATA) (g : Option Nat) (hok : ∀ n, rti.answers n = true) :
    ∃ body, render fmtG (output (writeElemData rti log ed g).2.2) =
        render fmtG (output log) ++ body ++ ['\n'] ∧
      '\n' ∉ body ∧
      tokens body =
        decimal (pw2SuType ed.type).code :: (emittedIndices ed ++ g.toList).map decimal := by
  refine ⟨padLeft 2 (decimal (pw2SuType ed.type).code) ++
    ' ' :: fieldsText (emittedIndices ed ++ g.toList), ?_, ?_, tokens_line _ _⟩
  · rw [output_writeElemData rti hok, render_append, render_append, render_encodeBody,
      render_lineEnd, fieldsText_append]
    simp only [List.append_assoc, List.cons_append]
  · intro h
    rcases List.mem_append.mp h with h | h
    · exact padLeft_no_newline 2 _ h
    · rcases List.mem_cons.mp h with h | h
      · exact absurd h (by decide)
      · exact fieldsText_no_newline _ h

/-- C18 holds with its hypothesis at a wedge whose indices have six digits,
written with the global index 7: the line is
`13  100003 100004 100005 100000 100001 100002    7`. -/
theorem elemLine_decodes_witness :
    (∀ n, sampleRti.answers n = true) ∧
    (∀ fmtG : Nat → Nat → PWGM_XYZVAL → List Char,
      render fmtG (output (writeElemData sampleRti [] wedgeWide (some 7)).2.2) =
        "13  100003 100004 100005 100000 100001 100002    7\n".toList) ∧
    tokens "13  100003 100004 100005 100000 100001 100002    7".toList =
      ["13".toList, "100003".toList, "100004".toList, "100005".toList, "100000".toList,
        "100001".toList, "100002".toList, "7".toList] ∧
    ∃ body, render (fun _ _ _ => []) (output (writeElemData sampleRti [] wedgeWide (some 7)).2.2) =
        render (fun _ _ _ => []) (output []) ++ body ++ ['\n'] ∧
      '\n' ∉ body ∧
      tokens body = decimal (pw2SuType wedgeWide.type).code ::
        (emittedIndices wedgeWide ++ (some 7).toList).map decimal :=
  ⟨fun _ => rfl, fun _ => rfl, by decide,
    elemLine_decodes (fun _ _ _ => []) sampleRti [] wedgeWide (some 7) (fun _ => rfl)⟩

/-! ### The scenarios of the spec -/

set_option maxRecDepth 100000 in
/-- C11 (amended): for the model with one tetrahedron on the vertices
0, 1, 2, 3, four vertices and no domain, in 3D and double precision, the
export succeeds and its text is the four sections with the lines `NDIME= 3`,
`NELEM= 1`, the single element line `10     0    1    2    3    0`,
`NPOIN= 4`, four vertex lines ending with the indices 0, 1, 2, 3, and
`NMARK= 0` as the last line; for the model with one wedge on the vertices
0, ..., 5 the export succeeds and its element line is
`13     3    4    5    0    1    2    0`.  Every index is right-justified in
a field of four characters. -/
theorem scenario_text (fmtG : Nat → Nat → PWGM_XYZVAL → List Char) :
    (runtimeWrite tetScenarioRti []).1 = true ∧
    render fmtG (output (runtimeWrite tetScenarioRti []).2) =
      ("%\n% Problem dimension\n%\nNDIME= 3\n" ++
       "%\n% Inner element connectivity\n%\nNELEM= 1\n" ++
       "10     0    1    2    3    0\n" ++
       "%\n% Node coordinates\n%\nNPOIN= 4\n").toList ++
      vertexText fmtG 0 0 0 0 (vertexText fmtG 1 0 0 1 (vertexText fmtG 0 1 0 2
        (vertexText fmtG 0 0 1 3 "%\n% Boundary elements\n%\nNMARK= 0\n".toList))) ∧
    (runtimeWrite wedgeScenarioRti []).1 = true ∧
    textLines (render fmtG (output (runtimeWrite wedgeScenarioRti []).2)) =
      ["%".toList, "% Problem dimension".toList, "%".toList, "NDIME= 3".toList,
       "%".toList, "% Inner element connectivity".toList, "%".toList, "NELEM= 1".toList,
       "13     3    4    5    0    1    2    0".toList,
       "%".toList, "% Node coordinates".toList, "%".toList, "NPOIN= 0".toList,
       "%".toList, "% Boundary elements".toList, "%".toList, "NMARK= 0".toList] :=
  ⟨rfl, rfl, rfl, rfl⟩

set_option maxRecDepth 100000 in
/-- C11 (as stated, refuted): in the two scenarios the element line is not
the text the spec gives.  The export of the tetrahedron writes the element
line `10     0    1    2    3    0`, not `10  0 1 2 3 0`, and no line of the
export of the wedge is `13  3 4 5 0 1 2 0`. -/
theorem scenario_text_differs :
    (∀ fmtG : Nat → Nat → PWGM_XYZVAL → List Char,
      render fmtG (output (writeElementsSection tetScenarioRti []).2) =
        ("%\n% Inner element connectivity\n%\nNELEM= 1\n" ++
         "10     0    1    2    3    0\n").toList) ∧
    "10  0 1 2 3 0".toList ∉
      textLines ("%\n% Inner element connectivity\n%\nNELEM= 1\n" ++
         "10     0    1    2    3    0\n").toList ∧
    "13  3 4 5 0 1 2 0".toList ∉
      textLines (render (fun _ _ _ => []) (output (runtimeWrite wedgeScenarioRti []).2)) := by
  refine ⟨fun _ => rfl, ?_, ?_⟩ <;> decide

end CaeUnsSU2
